import Mathlib

/-!
# compact-regex: a shallow embedding of `include/compact-regex.c`

The development models the pattern conversion (`_COMPILE__CONVERT_SEQUENCES`),
the match aggregation (`_EXEC__SEARCH_LOCAL`, `_EXEC__SEARCH_GLOBAL`), the
substitution primitive (`__SUBSTITUTE_STRING`) and the replacement driver
(`regex_replace`) of compact-regex.

Conventions of the embedding
* A C string is the list of its characters without the terminating NUL.
* The POSIX functions `regcomp` / `regexec` of `<regex.h>` are not part of the
  repository; they enter as a parameter (`RegLib`).
* `exit(EXIT_FAILURE)`, reads of uninitialised or out-of-bounds memory and
  non-termination are explicit outcomes (`Fault`).
* Arrays and buffers are lists without a capacity: a write past the end of a
  malloc-ed block is not represented, only the length checks the code makes.
* The global limits (`MAX_TEXT_LENGTH`, ...) and the table `DEFAULT_REG_FLAGS`
  are mutable globals in the C code; here they are explicit arguments.
-/

namespace CompactRegex

/-- A C string: its characters up to (not including) the terminating NUL. -/
abbrev CStr := List Char

/-- Abnormal outcomes of a C function. -/
inductive Fault where
  /-- The code called `exit(EXIT_FAILURE)`. -/
  | exit_failure
  /-- The code read uninitialised memory or accessed a buffer out of bounds. -/
  | undefined_behaviour
  /-- The loop did not finish within the given number of iterations. -/
  | out_of_fuel
  deriving DecidableEq, Repr

/-- Result of a C function that may fail. -/
inductive Res (α : Type) where
  | ok (a : α)
  | fail (f : Fault)
  deriving DecidableEq, Repr

/-- Sequencing of fallible computations. -/
def Res.bind {α β : Type} (r : Res α) (k : α → Res β) : Res β :=
  match r with
  | .ok a => k a
  | .fail f => .fail f

instance : Monad Res where
  pure := Res.ok
  bind := Res.bind

/-- The memory limiters of `compact-regex.h` (global variables in C). -/
structure Limits where
  MAX_TEXT_LENGTH : Nat
  MAX_PATTERN_LENGTH : Nat
  MAX_NUM_MATCHES : Nat
  deriving DecidableEq, Repr

/-- The initial values of the memory limiters in `compact-regex.h`. -/
def defaultLimits : Limits :=
  { MAX_TEXT_LENGTH := 8192, MAX_PATTERN_LENGTH := 1024, MAX_NUM_MATCHES := 1024 }

def REPLACE_NO_BRACKETS : Nat := 0
def REPLACE_SET_BRACKETS : Nat := 1
def REPLACE_LOCAL : Nat := 0
def REPLACE_GLOBAL : Nat := 1

/-- The libc function `strstr(hay, needle)`: offset of the first occurrence of
`needle` in `hay`, or `none` for a NULL result. -/
def strstr : CStr → CStr → Option Nat
  | [], needle => if needle.isPrefixOf ([] : CStr) then some 0 else none
  | c :: hay, needle =>
    if needle.isPrefixOf (c :: hay) then some 0
    else (strstr hay needle).map (· + 1)

/-- The loop `while (1)` of `__SUBSTITUTE_STRING`. The arguments after the fuel
are the loop-carried variables `output_string`, `index`, `SET_BRACKETS` and
`IS_NOT_IN_LIST`. Buffers are unbounded lists: a write past the capacity of a
malloc-ed buffer is not represented, only the explicit length checks of the code
are. A read before the start or past the terminator of a string is a fault. -/
def substituteLoop (search_substring replace_substring : CStr)
    (TYPE : Nat) (start_position : Int) :
    Nat → CStr → Int → Nat → Bool → Res CStr
  | 0, _, _, _, _ => .fail .out_of_fuel
  | fuel + 1, output_string, index, SET_BRACKETS, IS_NOT_IN_LIST =>
    let STRLEN_SEARCH : Int := search_substring.length
    let STRLEN_REPLACE : Int := replace_substring.length
    -- set index = start position if first iteration, else add replaced length
    let index := if index = -1 then start_position else index + STRLEN_REPLACE
    if index < 0 ∨ (output_string.length : Int) < index then .fail .undefined_behaviour
    else
      match strstr (output_string.drop index.toNat) search_substring with
      | none => .ok output_string
      | some k =>
        let temp_string := output_string
        let index : Int := index.toNat + k
        -- check if pointer position is in list
        let IS_NOT_IN_LIST :=
          if SET_BRACKETS ≠ 0 ∧ index = 0 then true
          else if 0 < index then
            (output_string.getD (index - 1).toNat ' ' != '[' &&
              output_string.getD (index - 1).toNat ' ' != '|')
          else IS_NOT_IN_LIST
        -- set opening bracket around substitution if it is not in list
        let opening := SET_BRACKETS = 1 ∧ IS_NOT_IN_LIST = true
        let head := if opening then output_string.take index.toNat ++ ['[']
          else output_string.take index.toNat
        let SET_BRACKETS := if opening then 2 else SET_BRACKETS
        let index := if opening then index + 1 else index
        let output_string := head ++ replace_substring
        -- set closing bracket around substitution if it is not in list
        let output_string := if SET_BRACKETS = 2 then output_string ++ [']'] else output_string
        let index := if SET_BRACKETS = 2 then index - 1 else index
        -- add rest of string to the output buffer
        if index + STRLEN_SEARCH < 0 ∨ (temp_string.length : Int) < index + STRLEN_SEARCH then
          .fail .undefined_behaviour
        else
          let ptr_pos := temp_string.drop (index + STRLEN_SEARCH).toNat
          let output_string := output_string ++ ptr_pos
          -- add two index positions of additional brackets
          let index := if SET_BRACKETS = 2 then index + 2 else index
          let SET_BRACKETS := if SET_BRACKETS = 2 then 1 else SET_BRACKETS
          if TYPE ≠ REPLACE_GLOBAL then .ok output_string
          else
            substituteLoop search_substring replace_substring TYPE
              start_position fuel output_string index SET_BRACKETS IS_NOT_IN_LIST

/-- The function `__SUBSTITUTE_STRING`. An input of `MAX_TEXT_LENGTH + 1` or more
characters ends the process with `exit(EXIT_FAILURE)`. With a non-empty search
text every iteration that finds it consumes at least one character of the text
after `index`, so `strlen(input) + 1` iterations always suffice; with an empty
search text in global scope the C loop never ends normally. -/
def __SUBSTITUTE_STRING (lim : Limits) (input_text_string search_substring replace_substring : CStr)
    (SET_BRACKETS TYPE : Nat) (start_position : Int) : Res CStr :=
  if input_text_string.length < lim.MAX_TEXT_LENGTH + 1 then
    substituteLoop search_substring replace_substring TYPE start_position
      (input_text_string.length + 1) input_text_string (-1) SET_BRACKETS false
  else .fail .exit_failure

/-! ## The interface to `<regex.h>` -/

/-- The type `regmatch_t` of `<regex.h>`: one element of the `pmatch` array. A slot
that did not take part in the match holds `-1` in both fields. -/
structure regmatch_t where
  rm_so : Int
  rm_eo : Int
  deriving DecidableEq, Repr

/-- What this library uses of a compiled `regex_t`: the number of parenthesised
sub-expressions and the behaviour of `regexec` on a string, that is its return
code and the `pmatch` array it fills (slots past the end of the list hold `-1`). -/
structure regex_t where
  re_nsub : Nat
  regexec : CStr → Int × List regmatch_t

/-- The functions of `<regex.h>` the library calls: `regcomp` maps the (converted)
pattern and the flag word to its return code and the compiled expression. -/
structure RegLib where
  regcomp : CStr → Nat → Int × regex_t

/-- Flag values of glibc `<regex.h>`. -/
def REG_EXTENDED : Nat := 1
def REG_ICASE : Nat := 2
def REG_NEWLINE : Nat := 4
def REG_NOSUB : Nat := 8
/-- Return code of `regexec` when nothing matches (glibc `<regex.h>`). -/
def REG_NOMATCH : Int := 1

/-- Extended option flags of `compact-regex.h`. -/
def REG_DEFAULT : Nat := 0
def REG_GLOBAL : Nat := 16
def REG_MULTILINE : Nat := 32
def REG_NOSUBEXP : Nat := 64
def REG_SUBEXP : Nat := 128

/-- The initial content of the table `int DEFAULT_REG_FLAGS[7]`. -/
def DEFAULT_REG_FLAGS : List Nat := [REG_GLOBAL, REG_EXTENDED, REG_NEWLINE, 0, 0, 0, 0]

def REGLIB_NOT_COMPILED : Nat := 0
def REGLIB_COMPILED : Nat := 1
def REGLIB_EXECUTED : Nat := 2
def REGLIB_CLOSED : Nat := 3
def REGLIB_ERROR : Nat := 4

def REGEX_ERROR : Int := -1
def REGEX_INIT_SUCCESS : Int := 5
def REGEX_COMP_SUCCESS : Int := 0
def REGEX_MATCH_SUCCESS : Int := 0
def REGEX_MATCH_OFFSET_DIST : Int := 1

def ASSERT_TYPE_PTR : Nat := 0
def ASSERT_TYPE_INT : Nat := 1
def ASSERT_TYPE_STRUCT : Nat := 2

/-! ## The data of a `RegEx` object -/

/-- The struct `cregflags_t`; every field is `0` or `1` in C. -/
structure cregflags_t where
  GLOBAL : Bool
  EXTENDED : Bool
  ICASE : Bool
  MULTILINE : Bool
  NEWLINE : Bool
  NOSUB : Bool
  NOSUBEXP : Bool
  SUBEXP : Bool
  deriving DecidableEq, Repr

/-- The struct `cregmatches_t`, one cell of the malloc-ed array `matches`. A field
that was never written is `none`. The field `end` of the C struct is `end_`. -/
structure cregmatches_t where
  number_match : Option Int
  number_submatch : Option Int
  start : Option Int
  end_ : Option Int
  string : Option CStr
  deriving DecidableEq, Repr

/-- A cell of freshly malloc-ed memory. -/
def uninitialised : cregmatches_t :=
  { number_match := none, number_submatch := none, start := none, end_ := none, string := none }

/-- Read `matches[n]`; cells past the written part of the array are uninitialised. -/
def cellAt (matches_ : List cregmatches_t) (n : Nat) : cregmatches_t :=
  matches_.getD n uninitialised

/-- Update `matches[n]` with `f`, growing the written part of the array when needed. -/
def cellUpdate (matches_ : List cregmatches_t) (n : Nat) (f : cregmatches_t → cregmatches_t) :
    List cregmatches_t :=
  if n < matches_.length then matches_.modify f n
  else matches_ ++ List.replicate (n - matches_.length) uninitialised ++ [f uninitialised]

/-- Write `x` to cell `n` of an array whose cells may be uninitialised (`none`). -/
def arrayWrite {α : Type} (a : List (Option α)) (n : Nat) (x : α) : List (Option α) :=
  if n < a.length then a.set n (some x)
  else a ++ List.replicate (n - a.length) none ++ [some x]

/-- The struct `compact_regex_t` (without the file and error-message members). -/
structure compact_regex_t where
  flags : cregflags_t
  matches_ : List cregmatches_t
  num_matches : Nat
  num_pattern_subexpr : Nat
  return_code : Int
  text : CStr
  pattern : CStr
  reglib_status : Nat
  reglib_flags : Nat
  compiled_regex : regex_t
  match_offsets : List (Option regmatch_t)

/-- The function `__ASSERT_PARAM` on a non-NULL string parameter: with
`TYPE == ASSERT_TYPE_PTR` an empty string ends the process. -/
def __ASSERT_PARAM (parameter : CStr) (TYPE : Nat) : Res Unit :=
  if TYPE = 0 ∧ parameter.length = 0 then .fail .exit_failure else .ok ()

/-! ## Compilation -/

/-- The loop "get default flags" of `_COMPILE__INIT_REGEX`. -/
def addDefaultFlags (OPTION_FLAGS : Nat) (defaults : List Nat) : Nat :=
  defaults.foldl (fun fl d => if (fl &&& d) ≠ d then fl + d else fl) OPTION_FLAGS

/-- A `RegEx` object that was never compiled has no usable `regex_t`. -/
def noRegex : regex_t := { re_nsub := 0, regexec := fun _ => (REGEX_ERROR, []) }

/-- The function `_COMPILE__INIT_REGEX`; `defaults` is the table `DEFAULT_REG_FLAGS`. -/
def _COMPILE__INIT_REGEX (defaults : List Nat) (regex_pattern_string : CStr) (OPTION_FLAGS : Nat) :
    Res compact_regex_t := do
  __ASSERT_PARAM regex_pattern_string ASSERT_TYPE_PTR
  -- get default flags
  let OPTION_FLAGS := addDefaultFlags OPTION_FLAGS defaults
  -- set options
  let GLOBAL := decide ((OPTION_FLAGS &&& REG_GLOBAL) = REG_GLOBAL)
  let EXTENDED := decide ((OPTION_FLAGS &&& REG_EXTENDED) = REG_EXTENDED)
  let ICASE := decide ((OPTION_FLAGS &&& REG_ICASE) = REG_ICASE)
  let NOSUB := decide ((OPTION_FLAGS &&& REG_NOSUB) = REG_NOSUB)
  let NOSUBEXP := decide ((OPTION_FLAGS &&& REG_NOSUBEXP) = REG_NOSUBEXP)
  let NEWLINE := decide ((OPTION_FLAGS &&& REG_NEWLINE) = REG_NEWLINE)
  let MULTILINE := decide ((OPTION_FLAGS &&& REG_MULTILINE) = REG_MULTILINE)
  let SUBEXP := decide ((OPTION_FLAGS &&& REG_SUBEXP) = REG_SUBEXP)
  -- deactivate REG_NEWLINE if REG_MULTILINE is set, to catch newline-characters
  let deactivate := MULTILINE && NEWLINE
  let OPTION_FLAGS := if deactivate then OPTION_FLAGS - REG_NEWLINE else OPTION_FLAGS
  let NEWLINE := if deactivate then false else NEWLINE
  -- disable NOSUB
  let OPTION_FLAGS := if NOSUB then OPTION_FLAGS - REG_NOSUB else OPTION_FLAGS
  let both := NOSUBEXP && SUBEXP
  let OPTION_FLAGS := if both then OPTION_FLAGS - REG_SUBEXP else OPTION_FLAGS
  let SUBEXP := if both then false else SUBEXP
  pure
    { flags :=
        { GLOBAL := GLOBAL, EXTENDED := EXTENDED, ICASE := ICASE, MULTILINE := MULTILINE,
          NEWLINE := NEWLINE, NOSUB := NOSUB, NOSUBEXP := NOSUBEXP, SUBEXP := SUBEXP }
      matches_ := []
      num_matches := 0
      num_pattern_subexpr := 0
      return_code := REGEX_INIT_SUCCESS
      text := "<No input text>".toList
      pattern := regex_pattern_string
      reglib_status := REGLIB_NOT_COMPILED
      reglib_flags := OPTION_FLAGS
      compiled_regex := noRegex
      match_offsets := [] }

/-- The table `replace_substring_list` of `_COMPILE__CONVERT_SEQUENCES`. -/
def replace_substring_list : List (CStr × CStr) :=
  [ ("\\w".toList, "A-Za-z0-9_".toList),
    ("\\W".toList, "^A-Za-z0-9_".toList),
    ("\\a".toList, "A-Za-z".toList),
    ("\\s".toList, " ".toList),
    ("\\t".toList, "   ".toList),
    ("\\d".toList, "0-9".toList),
    ("\\D".toList, "^0-9".toList),
    ("\\l".toList, "a-z".toList),
    ("\\p".toList, "\\x20-\\x7E".toList),
    ("\\u".toList, "A-Z".toList),
    ("\\r".toList, "\r".toList),
    ("\\n".toList, "\\n".toList) ]

/-- The output of `sprintf(buf, "%x", i)`: lowercase hexadecimal digits. -/
def hexDigits (i : Nat) : CStr := (Nat.toDigits 16 i)

/-- The function `_COMPILE__CONVERT_SEQUENCES`. -/
def _COMPILE__CONVERT_SEQUENCES (lim : Limits) (regex_pattern_string : CStr) : Res CStr := do
  -- replace listed substrings
  let converted ← replace_substring_list.foldlM
    (fun s p => __SUBSTITUTE_STRING lim s p.1 p.2 REPLACE_SET_BRACKETS REPLACE_GLOBAL 0)
    regex_pattern_string
  -- convert ascii sequences given as arguments
  ((List.range 95).map (· + 33)).foldlM
    (fun s i => __SUBSTITUTE_STRING lim s ('\\' :: 'x' :: hexDigits i) [Char.ofNat i]
      REPLACE_NO_BRACKETS REPLACE_GLOBAL 0)
    converted

/-- The block `if (MAX_PATTERN_LENGTH > 16384)` of `regex_compile`. -/
def checkPatternLimit (lim : Limits) (regex_data : compact_regex_t) : compact_regex_t :=
  if 16384 < lim.MAX_PATTERN_LENGTH then { regex_data with return_code := REGEX_ERROR }
  else regex_data

/-- The block "compile regular expression" of `regex_compile`: the call of `regcomp`
on the converted pattern, or the length error. -/
def compilePattern (lim : Limits) (lib : RegLib) (regex_pattern_string : CStr)
    (regex_data : compact_regex_t) : Res compact_regex_t :=
  if regex_pattern_string.length < lim.MAX_PATTERN_LENGTH then do
    -- convert regular expression character classes
    let converted ← _COMPILE__CONVERT_SEQUENCES lim regex_pattern_string
    let r := lib.regcomp converted regex_data.reglib_flags
    pure { regex_data with
      return_code := r.1, compiled_regex := r.2, num_pattern_subexpr := r.2.re_nsub }
  else pure { regex_data with return_code := REGEX_ERROR }

/-- The block `if (strlen(regex_pattern_string) == 0)` of `regex_compile`. -/
def rejectEmptyPattern (regex_pattern_string : CStr) (regex_data : compact_regex_t) :
    compact_regex_t :=
  if regex_pattern_string.length = 0 then { regex_data with return_code := REGEX_ERROR }
  else regex_data

/-- The block "set regex.h status" of `regex_compile`. -/
def setReglibStatus (regex_data : compact_regex_t) : compact_regex_t :=
  if regex_data.return_code = REGEX_COMP_SUCCESS then
    { regex_data with reglib_status := REGLIB_COMPILED }
  else if regex_data.return_code = REGEX_ERROR then
    { regex_data with reglib_status := REGLIB_ERROR }
  else regex_data

/-- The function `regex_compile`. -/
def regex_compile (lim : Limits) (defaults : List Nat) (lib : RegLib)
    (regex_pattern_string : CStr) (OPTION_FLAGS : Nat) : Res compact_regex_t := do
  let regex_data ← _COMPILE__INIT_REGEX defaults regex_pattern_string OPTION_FLAGS
  __ASSERT_PARAM regex_pattern_string ASSERT_TYPE_PTR
  let regex_data := checkPatternLimit lim regex_data
  if regex_data.return_code = REGEX_INIT_SUCCESS then do
    let regex_data ← compilePattern lim lib regex_pattern_string regex_data
    let regex_data := rejectEmptyPattern regex_pattern_string regex_data
    pure (setReglibStatus regex_data)
  else pure regex_data

/-! ## Execution -/

/-- Read `match_iteration[j]`. The array has `MAX_NUM_MATCHES` elements, all of
which `regexec` fills; an index past the array is a read out of bounds. -/
def slotAt (lim : Limits) (match_iteration : List regmatch_t) (j : Nat) : Res regmatch_t :=
  if j < lim.MAX_NUM_MATCHES then .ok (match_iteration.getD j ⟨-1, -1⟩)
  else .fail .undefined_behaviour

/-- The function `_EXEC__GET_MATCHED_STRINGS`, as a loop over `i < num_matches`
(`cnt` counts the remaining iterations). -/
def getMatchedStringsLoop (input_text_string : CStr) (match_offsets : List (Option regmatch_t)) :
    Nat → Nat → List cregmatches_t → Res (List cregmatches_t)
  | 0, _, matches_ => .ok matches_
  | cnt + 1, i, matches_ =>
    match match_offsets.getD i none with
    | none => .fail .undefined_behaviour
    | some off =>
      let STR_SIZE := off.rm_eo - off.rm_so
      if off.rm_so < 0 ∨ (input_text_string.length : Int) < off.rm_so ∨ STR_SIZE < 0 then
        .fail .undefined_behaviour
      else
        -- copy substring to temp string, copy temp string to match string
        let string := (input_text_string.drop off.rm_so.toNat).take STR_SIZE.toNat
        getMatchedStringsLoop input_text_string match_offsets cnt (i + 1)
          (cellUpdate matches_ i (fun c =>
            { c with start := some off.rm_so, end_ := some off.rm_eo, string := some string }))

/-- The function `_EXEC__GET_MATCHED_STRINGS`. -/
def _EXEC__GET_MATCHED_STRINGS (input_text_string : CStr) (regex_data : compact_regex_t) :
    Res compact_regex_t := do
  let m ← getMatchedStringsLoop input_text_string regex_data.match_offsets
    regex_data.num_matches 0 regex_data.matches_
  pure { regex_data with matches_ := m }

/-- The test that decides whether a slot becomes a record (both search modes). -/
def recordFilter (flags : cregflags_t) (NUMBER_SUBMATCH : Int) : Bool :=
  (flags.SUBEXP == false && flags.NOSUBEXP == false) ||
  (flags.SUBEXP == false && flags.NOSUBEXP == true && NUMBER_SUBMATCH == 0) ||
  (flags.SUBEXP == true && decide (0 < NUMBER_SUBMATCH))

/-- The loop over the slots of `_EXEC__SEARCH_LOCAL` (`cnt` counts the remaining
iterations of `for (i = 0; i < MAX_NUM_MATCHES; i++)`). -/
def searchLocalLoop (lim : Limits) (match_iteration : List regmatch_t) (MATCH_NUMBER : Int) :
    Nat → Nat → compact_regex_t → Res compact_regex_t
  | 0, _, regex_data => .ok regex_data
  | cnt + 1, i, regex_data => do
    let slot ← slotAt lim match_iteration i
    if slot.rm_so = -1 then pure regex_data
    else
      -- set the item number to one lesser, if previous match was invalid
      -- (the index i - 1 lies inside the array because i does)
      let ITEM_NUMBER :=
        if 0 < i ∧ (match_iteration.getD (i - 1) ⟨-1, -1⟩).rm_so = -1 then i - 1 else i
      let number_submatch : Int :=
        if regex_data.flags.SUBEXP = false then ITEM_NUMBER else ITEM_NUMBER + 1
      let matches_ := cellUpdate regex_data.matches_ ITEM_NUMBER (fun c =>
        { c with number_match := some MATCH_NUMBER, number_submatch := some number_submatch })
      let regex_data := { regex_data with matches_ := matches_ }
      let regex_data :=
        if recordFilter regex_data.flags ITEM_NUMBER then
          { regex_data with
            match_offsets := arrayWrite regex_data.match_offsets regex_data.num_matches slot
            num_matches := regex_data.num_matches + 1 }
        else regex_data
      searchLocalLoop lim match_iteration MATCH_NUMBER cnt (i + 1) regex_data

/-- The function `_EXEC__SEARCH_LOCAL`: return code and updated `RegEx` object. The
arrays `matches` and `match_offsets` are freshly allocated. -/
def _EXEC__SEARCH_LOCAL (lim : Limits) (input_text_string : CStr) (regex_data : compact_regex_t) :
    Res (Int × compact_regex_t) := do
  let regex_data := { regex_data with matches_ := [], match_offsets := [] }
  let r := regex_data.compiled_regex.regexec input_text_string
  let return_code := r.1
  -- copy matched strings
  if return_code = REGEX_MATCH_SUCCESS then
    let regex_data ← searchLocalLoop lim r.2 1 lim.MAX_NUM_MATCHES 0 regex_data
    let regex_data ← _EXEC__GET_MATCHED_STRINGS input_text_string regex_data
    pure (return_code, { regex_data with reglib_status := REGLIB_EXECUTED })
  else pure (return_code, regex_data)

/-- The local variables of `_EXEC__SEARCH_GLOBAL` together with the `RegEx` object.
`invocations` is not a variable of the C code: it counts the calls of `regexec`. -/
structure GlobalVars where
  return_code_local : Int
  return_code_global : Int
  BREAK : Int
  READ_POS_OFFSET : Int
  NEXT_VALID_MATCH_DISTANCE : Int
  NUMBER_MATCH : Int
  NUMBER_GROUP : Int
  NUMBER_SUBMATCH : Int
  match_iteration : List regmatch_t
  regex_data : compact_regex_t
  invocations : Nat

/-- The inner loop `for (j = i + 1; j <= num_pattern_subexpr; j++)` of
`_EXEC__SEARCH_GLOBAL` (`cnt` counts the remaining iterations). -/
def aheadLoop (lim : Limits) (i : Nat) : Nat → Nat → GlobalVars → Res GlobalVars
  | 0, _, v => .ok v
  | cnt + 1, j, v => do
    -- if first match /= set top match
    let v := if i = 0 then { v with NUMBER_GROUP := 0 } else v
    let v :=
      if i = 1 ∧ v.return_code_local = REGEX_MATCH_OFFSET_DIST then
        { v with NUMBER_GROUP := v.NEXT_VALID_MATCH_DISTANCE }
      else v
    let slot ← slotAt lim v.match_iteration j
    -- if one of the next matches is valid -> break
    if slot.rm_so ≠ -1 then
      let v := { v with BREAK := 0, NEXT_VALID_MATCH_DISTANCE := (j : Int) - i }
      -- if one of the next valid matches is more away, instead the next one
      let v :=
        if 1 < v.NEXT_VALID_MATCH_DISTANCE then
          { v with return_code_local := REGEX_MATCH_OFFSET_DIST }
        else v
      pure v
    else
      -- break if maximum next possible matches checked
      let v := if j = v.regex_data.num_pattern_subexpr then { v with BREAK := 1 } else v
      aheadLoop lim i cnt (j + 1) v

/-- The loop `for (i = 0; i <= num_pattern_subexpr; i++)` of `_EXEC__SEARCH_GLOBAL`
(`cnt` counts the remaining iterations). -/
def slotLoop (lim : Limits) : Nat → Nat → GlobalVars → Res GlobalVars
  | 0, _, v => .ok v
  | cnt + 1, i, v => do
    -- for each next match ahead
    let v ← aheadLoop lim i (v.regex_data.num_pattern_subexpr - i) (i + 1) v
    let slot ← slotAt lim v.match_iteration i
    -- -> break if match is invalid and no valid matches ahead
    if slot.rm_so = -1 ∧ v.BREAK = 1 then pure v
    -- if this match is valid
    else if slot.rm_so ≠ -1 then
      -- get start and end positions in original string
      let slot : regmatch_t :=
        ⟨slot.rm_so + v.READ_POS_OFFSET, slot.rm_eo + v.READ_POS_OFFSET⟩
      let v := { v with match_iteration := v.match_iteration.set i slot }
      let v :=
        { v with NUMBER_SUBMATCH :=
            if v.return_code_local = REGEX_MATCH_OFFSET_DIST then v.NUMBER_GROUP else i }
      -- set the match number and group number
      let rd := v.regex_data
      let rd := { rd with matches_ := cellUpdate rd.matches_ rd.num_matches (fun c =>
        { c with number_match := some v.NUMBER_MATCH,
                 number_submatch := some v.NUMBER_SUBMATCH }) }
      if recordFilter rd.flags v.NUMBER_SUBMATCH then
        -- copy match data
        let rd := { rd with match_offsets := arrayWrite rd.match_offsets rd.num_matches slot }
        if rd.num_matches < lim.MAX_NUM_MATCHES then
          slotLoop lim cnt (i + 1)
            { v with regex_data := { rd with num_matches := rd.num_matches + 1 } }
        else
          pure { v with regex_data := { rd with return_code := REGEX_ERROR },
                        return_code_local := REGEX_ERROR }
      else slotLoop lim cnt (i + 1) { v with regex_data := rd }
    else slotLoop lim cnt (i + 1) v

/-- One iteration of the loop `while (1)` of `_EXEC__SEARCH_GLOBAL`: the variables
after the iteration, and whether the iteration left the loop with `break`. -/
def searchGlobalBody (lim : Limits) (input_text_string : CStr) (v : GlobalVars) :
    Res (Bool × GlobalVars) := do
  let v ←
    if v.regex_data.return_code ≠ REGEX_ERROR then
      if v.READ_POS_OFFSET < 0 ∨ (input_text_string.length : Int) < v.READ_POS_OFFSET then
        Res.fail .undefined_behaviour
      else
        let r := v.regex_data.compiled_regex.regexec
          (input_text_string.drop v.READ_POS_OFFSET.toNat)
        pure { v with return_code_local := r.1,
                      match_iteration :=
                        if r.1 = REGEX_MATCH_SUCCESS then r.2 else v.match_iteration,
                      invocations := v.invocations + 1 }
    else pure v
  -- copy single iteration match into regex_h matches, until no matches found
  if v.return_code_local = REGEX_MATCH_SUCCESS then
    let v := { v with return_code_global := REGEX_MATCH_SUCCESS,
                      NUMBER_MATCH := v.NUMBER_MATCH + 1 }
    let v ← slotLoop lim (v.regex_data.num_pattern_subexpr + 1) 0 v
    -- end position of match = next read positon
    let slot0 ← slotAt lim v.match_iteration 0
    let v := { v with READ_POS_OFFSET :=
      v.READ_POS_OFFSET + (slot0.rm_eo - v.READ_POS_OFFSET) }
    -- if "^" or "$": only start or end of string -> break
    if v.READ_POS_OFFSET = (input_text_string.length : Int) ∨ slot0.rm_so = slot0.rm_eo then
      pure (true, v)
    else pure (false, v)
  else pure (true, v)

/-- The loop `while (1)` of `_EXEC__SEARCH_GLOBAL`; the first argument bounds the
number of iterations. -/
def searchGlobalLoop (lim : Limits) (input_text_string : CStr) : Nat → GlobalVars → Res GlobalVars
  | 0, _ => .fail .out_of_fuel
  | fuel + 1, v =>
    match searchGlobalBody lim input_text_string v with
    | .fail f => .fail f
    | .ok (true, v) => .ok v
    | .ok (false, v) => searchGlobalLoop lim input_text_string fuel v

/-- The state of `_EXEC__SEARCH_GLOBAL` before its `while (1)` loop: fresh arrays,
`match_iteration` filled with `-1`, and the first hundred cells of `matches`
zeroed in their two number fields. -/
def searchGlobalInit (regex_data : compact_regex_t) : GlobalVars :=
  { return_code_local := -1
    return_code_global := -1
    BREAK := 0
    READ_POS_OFFSET := 0
    NEXT_VALID_MATCH_DISTANCE := 0
    NUMBER_MATCH := 0
    NUMBER_GROUP := 0
    NUMBER_SUBMATCH := 0
    match_iteration := []
    regex_data :=
      { regex_data with
        matches_ := List.replicate 100
          { uninitialised with number_match := some 0, number_submatch := some 0 }
        match_offsets := [] }
    invocations := 0 }

/-- The function `_EXEC__SEARCH_GLOBAL` with a bound on the iterations of its
`while (1)` loop: return code and updated `RegEx` object. -/
def _EXEC__SEARCH_GLOBAL (fuel : Nat) (lim : Limits) (input_text_string : CStr)
    (regex_data : compact_regex_t) : Res (Int × compact_regex_t) := do
  let v ← searchGlobalLoop lim input_text_string fuel (searchGlobalInit regex_data)
  -- copy substrings from input text with match_offsets data
  if v.return_code_local ≠ REGEX_ERROR ∧ v.return_code_global = REGEX_MATCH_SUCCESS then
    let regex_data ← _EXEC__GET_MATCHED_STRINGS input_text_string v.regex_data
    pure (v.return_code_global, { regex_data with reglib_status := REGLIB_EXECUTED })
  else pure (v.return_code_local, v.regex_data)

/-- The block `if (MAX_NUM_MATCHES > 3200000)` of `regex_exec`. -/
def checkMatchLimit (lim : Limits) (regex_data : compact_regex_t) : compact_regex_t :=
  if 3200000 < lim.MAX_NUM_MATCHES then { regex_data with return_code := REGEX_ERROR }
  else regex_data

/-- The function `regex_exec`: return code and updated `RegEx` object. -/
def regex_exec (fuel : Nat) (lim : Limits) (input_text_string : CStr)
    (regex_data : compact_regex_t) : Res (Int × compact_regex_t) := do
  __ASSERT_PARAM input_text_string ASSERT_TYPE_PTR
  let regex_data := checkMatchLimit lim regex_data
  if regex_data.reglib_status = REGLIB_COMPILED ∧ regex_data.return_code = REGEX_COMP_SUCCESS then
    -- REG_GLOBAL set: search the whole text string for multiple matches
    if regex_data.flags.GLOBAL = false then
      _EXEC__SEARCH_LOCAL lim input_text_string { regex_data with text := input_text_string }
    else
      _EXEC__SEARCH_GLOBAL fuel lim input_text_string { regex_data with text := input_text_string }
  else pure (-1, regex_data)

/-! ## Replacement -/

/-- The decimal digits written by `sprintf(buf, "%d", n)` for `n ≥ 0`. -/
def decimalDigits (n : Nat) : CStr := Nat.toDigits 10 n

/-- The loop `for (group_classifier = 1; group_classifier <= 99; group_classifier++)`
of `_REPLACE__PREPROCESS_GROUPS` (`cnt` counts the remaining iterations); the
arguments after `group_classifier` are `top_match` and `converted_replace_substring`. -/
def preprocessLoop (lim : Limits) (matches_ : List cregmatches_t) (match_number : Nat) :
    Nat → Nat → Nat → CStr → Res CStr
  | 0, _, _, converted => .ok converted
  | cnt + 1, group_classifier, top_match, converted => do
    let n := match_number + group_classifier
    let temp_string_1 : CStr := '\\' :: decimalDigits group_classifier
    let (top_match, converted) ←
      if top_match = 0 then
        match (cellAt matches_ n).number_submatch with
        | none => Res.fail .undefined_behaviour
        | some number_submatch =>
          if number_submatch = 0 then pure (1, converted)
          else
            match (cellAt matches_ n).string with
            | none => Res.fail .undefined_behaviour
            | some string => do
              let c ← __SUBSTITUTE_STRING lim converted temp_string_1 string
                REPLACE_NO_BRACKETS REPLACE_GLOBAL 0
              pure (top_match, c)
      else pure (top_match, converted)
    let converted ←
      if top_match = 1 then
        __SUBSTITUTE_STRING lim converted temp_string_1 [] REPLACE_NO_BRACKETS REPLACE_GLOBAL 0
      else pure converted
    preprocessLoop lim matches_ match_number cnt (group_classifier + 1) top_match converted

/-- The function `_REPLACE__PREPROCESS_GROUPS`. -/
def _REPLACE__PREPROCESS_GROUPS (lim : Limits) (regex_data : compact_regex_t)
    (replace_substring : CStr) (match_number : Nat) : Res CStr :=
  preprocessLoop lim regex_data.matches_ match_number 99 1 0 replace_substring

/-- The loop `for (i = 0; i < regex_data->num_matches; i++)` of `regex_replace`
(`cnt` counts the remaining iterations); the arguments after `i` are
`start_position_difference` and `converted_input_text_string`. -/
def replaceLoop (lim : Limits) (regex_data : compact_regex_t) (replace_substring : CStr) :
    Nat → Nat → Int → CStr → Res CStr
  | 0, _, _, converted => .ok converted
  | cnt + 1, i, start_position_difference, converted =>
    match (cellAt regex_data.matches_ i).start, (cellAt regex_data.matches_ i).end_ with
    | some start, some end_ =>
      -- if match "$" = end of string: replace end of string with substring
      if start = (converted.length : Int) then .ok (converted ++ replace_substring)
      -- if match "^" = end of string: replace start of string with substring
      else if start = 0 ∧ end_ = 0 then .ok (replace_substring ++ converted)
      else if start ≠ end_ then
        match (cellAt regex_data.matches_ i).number_submatch,
            (cellAt regex_data.matches_ i).string with
        | some number_submatch, some string =>
          if number_submatch = 0 then do
            let converted_replace_substring ←
              _REPLACE__PREPROCESS_GROUPS lim regex_data replace_substring i
            let converted ← __SUBSTITUTE_STRING lim converted string converted_replace_substring
              REPLACE_NO_BRACKETS REPLACE_LOCAL (start - start_position_difference)
            replaceLoop lim regex_data replace_substring cnt (i + 1)
              (start_position_difference +
                ((string.length : Int) - (converted_replace_substring.length : Int)))
              converted
          else
            replaceLoop lim regex_data replace_substring cnt (i + 1)
              start_position_difference converted
        | _, _ => .fail .undefined_behaviour
      else
        replaceLoop lim regex_data replace_substring cnt (i + 1)
          start_position_difference converted
    | _, _ => .fail .undefined_behaviour

/-- The function `regex_replace`. `fuel` bounds the iterations of the global search
loop. When the pattern does not compile the C function returns its malloc-ed
buffer without ever writing to it. -/
def regex_replace (fuel : Nat) (lim : Limits) (defaults : List Nat) (lib : RegLib)
    (input_text_string regex_pattern_string replace_substring : CStr) (OPTION_FLAGS : Nat) :
    Res CStr := do
  let regex_data ← regex_compile lim defaults lib regex_pattern_string OPTION_FLAGS
  __ASSERT_PARAM input_text_string ASSERT_TYPE_PTR
  __ASSERT_PARAM replace_substring ASSERT_TYPE_PTR
  __ASSERT_PARAM replace_substring ASSERT_TYPE_PTR
  if regex_data.return_code = REGEX_COMP_SUCCESS then
    let r ← regex_exec fuel lim input_text_string regex_data
    let regex_data := r.2
    -- replace the match with the replace substring
    replaceLoop lim regex_data replace_substring regex_data.num_matches 0 0 input_text_string
  else .fail .undefined_behaviour

/-- The contract of `regexec` that the termination of the global search relies on:
a successful call reports a whole match (slot 0) with
`0 ≤ rm_so ≤ rm_eo ≤ strlen(string)`. -/
def regexecWellFormed (re : regex_t) : Prop :=
  ∀ s : CStr, (re.regexec s).1 = REGEX_MATCH_SUCCESS →
    0 ≤ ((re.regexec s).2.getD 0 ⟨-1, -1⟩).rm_so ∧
    ((re.regexec s).2.getD 0 ⟨-1, -1⟩).rm_so ≤ ((re.regexec s).2.getD 0 ⟨-1, -1⟩).rm_eo ∧
    ((re.regexec s).2.getD 0 ⟨-1, -1⟩).rm_eo ≤ (s.length : Int)

/-- The invariant of the loop `while (1)` of `_EXEC__SEARCH_GLOBAL`. -/
def searchGlobalInv (text : CStr) (v : GlobalVars) : Prop :=
  0 ≤ v.READ_POS_OFFSET ∧ v.READ_POS_OFFSET ≤ (text.length : Int) ∧
  regexecWellFormed v.regex_data.compiled_regex ∧
  (v.regex_data.return_code = REGEX_ERROR → v.return_code_local ≠ REGEX_MATCH_SUCCESS)

/-- The function `regex_error` as far as the `RegEx` object is concerned: it fills
the error message (not modelled) and sets the status `REGLIB_ERROR`. -/
def regex_error (regex_data : compact_regex_t) : compact_regex_t :=
  { regex_data with reglib_status := REGLIB_ERROR }

/-- The function `regex_match`: compile the pattern and, when that succeeded,
execute it on the text. `fuel` bounds the iterations of the global search loop. -/
def regex_match (fuel : Nat) (lim : Limits) (defaults : List Nat) (lib : RegLib)
    (input_text_string regex_pattern_string : CStr) (OPTION_FLAGS : Nat) :
    Res compact_regex_t := do
  __ASSERT_PARAM input_text_string ASSERT_TYPE_PTR
  __ASSERT_PARAM regex_pattern_string ASSERT_TYPE_PTR
  let regex_data ← regex_compile lim defaults lib regex_pattern_string OPTION_FLAGS
  if regex_data.return_code ≠ REGEX_ERROR then
    if regex_data.return_code = REGEX_COMP_SUCCESS then do
      let r ← regex_exec fuel lim input_text_string regex_data
      pure r.2
    else pure (regex_error regex_data)
  else pure regex_data

/-- Apply a function to the result of a computation. -/
def Res.map {α β : Type} (f : α → β) (r : Res α) : Res β :=
  match r with
  | .ok a => .ok (f a)
  | .fail e => .fail e

/-- The pairs (`number_match`, `number_submatch`) of the records
`matches[0 .. num_matches)` of a session. -/
def sessionNumbers (regex_data : compact_regex_t) : List (Option Int × Option Int) :=
  (List.range regex_data.num_matches).map
    (fun i => ((cellAt regex_data.matches_ i).number_match,
      (cellAt regex_data.matches_ i).number_submatch))

/-- The order of the records by (occurrence index, submatch index). -/
def recordLe (a b : Int × Int) : Prop := a.1 < b.1 ∨ (a.1 = b.1 ∧ a.2 ≤ b.2)

instance : DecidableRel recordLe := fun a b =>
  inferInstanceAs (Decidable (a.1 < b.1 ∨ (a.1 = b.1 ∧ a.2 ≤ b.2)))

/-- A sequence of (occurrence index, submatch index) pairs is sorted ascending
when every pair is followed by one that is not smaller. -/
def recordsSorted : List (Int × Int) → Bool
  | a :: b :: rest => decide (recordLe a b) && recordsSorted (b :: rest)
  | _ => true

/-- A compiled expression for the pattern `^`: `regexec` reports the empty match
at offset 0 of every string it is given (a zero-width-only pattern). -/
def caretRegex : regex_t :=
  { re_nsub := 0, regexec := fun _ => (REGEX_MATCH_SUCCESS, [⟨0, 0⟩]) }

/-- A `RegEx` object as `regex_compile` leaves it, around the compiled expression. -/
def compiledObject (re : regex_t) (pattern : CStr) : compact_regex_t :=
  { flags :=
      { GLOBAL := true, EXTENDED := true, ICASE := false, MULTILINE := false,
        NEWLINE := true, NOSUB := false, NOSUBEXP := false, SUBEXP := false }
    matches_ := []
    num_matches := 0
    num_pattern_subexpr := re.re_nsub
    return_code := REGEX_COMP_SUCCESS
    text := "<No input text>".toList
    pattern := pattern
    reglib_status := REGLIB_COMPILED
    reglib_flags := REG_GLOBAL + REG_EXTENDED + REG_NEWLINE
    compiled_regex := re
    match_offsets := [] }

/-! ## The intended result of a replacement, in the words of the specification -/

/-- The text from offset `pos` on, with each of the spans `[s, e)` replaced by the
template and everything outside the spans unchanged. -/
def spliceFrom (text template : CStr) : Nat → List (Nat × Nat) → CStr
  | pos, [] => text.drop pos
  | pos, (s, e) :: rest =>
    (text.drop pos).take (s - pos) ++ template ++ spliceFrom text template e rest

/-- The input with each whole-match span replaced by the template. -/
def replaceSpans (text template : CStr) (spans : List (Nat × Nat)) : CStr :=
  spliceFrom text template 0 spans

/-- The spans are non-empty, ascending, pairwise non-overlapping, start at or
after `pos` and end inside a text of length `len`. -/
def spansFrom (len : Nat) : Nat → List (Nat × Nat) → Prop
  | _, [] => True
  | pos, (s, e) :: rest => pos ≤ s ∧ s < e ∧ e ≤ len ∧ spansFrom len e rest

instance spansFrom.decidable (len : Nat) : ∀ (pos : Nat) (spans : List (Nat × Nat)),
    Decidable (spansFrom len pos spans)
  | _, [] => isTrue trivial
  | pos, (s, e) :: rest =>
    have := spansFrom.decidable len e rest
    inferInstanceAs (Decidable (pos ≤ s ∧ s < e ∧ e ≤ len ∧ spansFrom len e rest))

/-- The cell `c` is the whole-match record (submatch index 0) of the span `[s, e)`
of the text, with the matched text as its string. -/
def isWholeRecord (text : CStr) (c : cregmatches_t) (span : Nat × Nat) : Prop :=
  c.number_submatch = some 0 ∧ c.start = some (span.1 : Int) ∧ c.end_ = some (span.2 : Int) ∧
  c.string = some ((text.drop span.1).take (span.2 - span.1))

instance isWholeRecord.decidable (text : CStr) (c : cregmatches_t) (span : Nat × Nat) :
    Decidable (isWholeRecord text c span) :=
  inferInstanceAs (Decidable (c.number_submatch = some 0 ∧ c.start = some (span.1 : Int) ∧
    c.end_ = some (span.2 : Int) ∧
    c.string = some ((text.drop span.1).take (span.2 - span.1))))

/-- The records `matches[0 .. num_matches)` of a session. -/
def sessionRecords (regex_data : compact_regex_t) : List cregmatches_t :=
  (List.range regex_data.num_matches).map (cellAt regex_data.matches_)

/-- The record with the given occurrence index, submatch index, offsets and text. -/
def record (number_match number_submatch start end_ : Int) (string : String) : cregmatches_t :=
  { number_match := some number_match, number_submatch := some number_submatch,
    start := some start, end_ := some end_, string := some string.toList }

/-- The contract of `regexec` for every slot of the `pmatch` array: after a
successful call a participating slot (`rm_so ≠ -1`) holds offsets with
`0 ≤ rm_so ≤ rm_eo ≤ strlen(string)`. -/
def slotsWellFormed (re : regex_t) : Prop :=
  ∀ (s : CStr) (j : Nat), (re.regexec s).1 = REGEX_MATCH_SUCCESS →
    ((re.regexec s).2.getD j ⟨-1, -1⟩).rm_so ≠ -1 →
    0 ≤ ((re.regexec s).2.getD j ⟨-1, -1⟩).rm_so ∧
    ((re.regexec s).2.getD j ⟨-1, -1⟩).rm_so ≤ ((re.regexec s).2.getD j ⟨-1, -1⟩).rm_eo ∧
    ((re.regexec s).2.getD j ⟨-1, -1⟩).rm_eo ≤ (s.length : Int)

/-- The first `n` cells of the array `match_offsets` are written and hold offsets
with `0 ≤ rm_so ≤ rm_eo ≤ len`. -/
def offsetsWithin (len : Nat) (offs : List (Option regmatch_t)) (n : Nat) : Prop :=
  ∀ i, i < n → ∃ off, offs.getD i none = some off ∧
    0 ≤ off.rm_so ∧ off.rm_so ≤ off.rm_eo ∧ off.rm_eo ≤ (len : Int)

/-- A compiled expression for the pattern `(.)`: on every non-empty string
`regexec` reports the first character as the whole match and as group 1. -/
def anyCharRegex : regex_t :=
  { re_nsub := 1
    regexec := fun s =>
      match s with
      | [] => (REG_NOMATCH, [])
      | _ :: _ => (REGEX_MATCH_SUCCESS, [⟨0, 1⟩, ⟨0, 1⟩]) }

/-- A `<regex.h>` whose `regcomp` yields `anyCharRegex` for every pattern. -/
def anyCharLib : RegLib :=
  { regcomp := fun _ _ => (REGEX_COMP_SUCCESS, anyCharRegex) }

/-- The last character of `out`, or `prev` when `out` is empty: the character
before the write position after `out` was appended. -/
def lastOr (prev : Option Char) (out : CStr) : Option Char :=
  match out.getLast? with
  | some l => some l
  | none => prev

/-- One pass of `__SUBSTITUTE_STRING` in bracket mode and global scope for the
search text `\c` and the replacement `cls`, as a scan from left to right: each
occurrence is replaced by `cls`, wrapped in `[` `]` unless the character before
it in the text written so far (`prev`) is `[` or `|`; the replacement is not
searched again. -/
def bracketPass (c : Char) (cls : CStr) : Option Char → CStr → CStr
  | _, [] => []
  | _, [x] => [x]
  | prev, x :: y :: rest =>
    if x = '\\' ∧ y = c then
      if prev = some '[' ∨ prev = some '|' then
        cls ++ bracketPass c cls (lastOr prev cls) rest
      else '[' :: cls ++ ']' :: bracketPass c cls (some ']') rest
    else x :: bracketPass c cls (some x) (y :: rest)

/-- In the words of the specification: the pattern with every token `\c` whose
letter `c` has a class in the table `T` replaced by that class, wrapped in one
bracket pair unless the character immediately before the token in the pattern
(`prev`) is `[` or `|`; every other character is copied. -/
def expandTokens (T : Char → Option CStr) : Option Char → CStr → CStr
  | _, [] => []
  | _, [x] => [x]
  | prev, x :: y :: rest =>
    if x = '\\' then
      match T y with
      | some cls =>
        (if prev = some '[' ∨ prev = some '|' then cls else '[' :: cls ++ [']']) ++
          expandTokens T (some y) rest
      | none => x :: expandTokens T (some x) (y :: rest)
    else x :: expandTokens T (some x) (y :: rest)

/-- The table `T` extended by the class `cls` for the letter `c`. -/
def withClass (T : Char → Option CStr) (c : Char) (cls : String) : Char → Option CStr :=
  fun x => if x = c then some cls.toList else T x

/-- The classes of the shorthand tokens `\w \W \a \s \d \D \l \u`, by the letter
after the backslash (the entries of `replace_substring_list` for these tokens). -/
def shorthandClass (c : Char) : Option CStr :=
  if c = 'w' then some "A-Za-z0-9_".toList
  else if c = 'W' then some "^A-Za-z0-9_".toList
  else if c = 'a' then some "A-Za-z".toList
  else if c = 's' then some " ".toList
  else if c = 'd' then some "0-9".toList
  else if c = 'D' then some "^0-9".toList
  else if c = 'l' then some "a-z".toList
  else if c = 'u' then some "A-Z".toList
  else none

/-- The pattern with the shorthand tokens `\w \W \a \s \d \D \l \u` expanded. -/
def expandShorthand (pattern : CStr) : CStr :=
  expandTokens shorthandClass none pattern

/-- The text holds a backslash immediately followed by the character `b`. -/
def hasSeq (b : Char) : CStr → Bool
  | [] => false
  | [_] => false
  | x :: y :: rest => (x == '\\' && y == b) || hasSeq b (y :: rest)

/-- The pattern uses none of the other sequences that `_COMPILE__CONVERT_SEQUENCES`
rewrites: `\t`, `\p`, `\r`, `\n` and the hexadecimal escapes `\x..`. -/
def noOtherSequences (pattern : CStr) : Bool :=
  !hasSeq 't' pattern && !hasSeq 'p' pattern && !hasSeq 'r' pattern &&
  !hasSeq 'n' pattern && !hasSeq 'x' pattern

/-- The conditions on a class table under which a further pass of
`__SUBSTITUTE_STRING` does not interfere with the expansions already made. -/
def goodTable (T : Char → Option CStr) : Prop :=
  ∀ x cl, T x = some cl →
    x ≠ '\\' ∧ x ≠ '[' ∧ x ≠ '|' ∧ cl ≠ [] ∧ '\\' ∉ cl ∧
    cl.getLast? ≠ some '[' ∧ cl.getLast? ≠ some '|' ∧ cl.length ≤ 11

/-! ## Reference functions for the substitution without brackets -/

/-- Spec words: the search text stands in the text at offset `p`, byte for byte. -/
def occursAt (text search : CStr) (p : Nat) : Prop :=
  (text.drop p).take search.length = search

instance occursAt.decidable (text search : CStr) (p : Nat) :
    Decidable (occursAt text search p) :=
  inferInstanceAs (Decidable ((text.drop p).take search.length = search))

/-- Spec words: the first occurrence of the search text at or after the offset `s`
is at the offset `p`. -/
def firstOccurrenceFrom (text search : CStr) (s p : Nat) : Prop :=
  s ≤ p ∧ occursAt text search p ∧ ∀ q, q < p → s ≤ q → ¬ occursAt text search q

instance firstOccurrenceFrom.decidable (text search : CStr) (s p : Nat) :
    Decidable (firstOccurrenceFrom text search s p) :=
  inferInstanceAs (Decidable
    (s ≤ p ∧ occursAt text search p ∧ ∀ q, q < p → s ≤ q → ¬ occursAt text search q))

/-- One block `if ((OPTION_FLAGS & flag) == flag) { DEFAULT_REG_FLAGS[i] = flag; i++; }`
of `set_default_reg_flags`, on the index `i` and the table. The array has the entries
of the table and no more: a write at an index past them is outside the array. -/
def setDefaultFlag (OPTION_FLAGS flag : Nat) (st : Nat × List Nat) : Res (Nat × List Nat) :=
  if (OPTION_FLAGS &&& flag) = flag then
    if st.1 < st.2.length then .ok (st.1 + 1, st.2.set st.1 flag)
    else .fail .undefined_behaviour
  else .ok st

/-- The second loop `for (i = 0; i < 7; i++)` of `set_default_reg_flags`, whose body
advances `i` as well; the first argument bounds the number of iterations. -/
def setDefaultFlagsLoop (OPTION_FLAGS : Nat) : Nat → Nat → List Nat → Res (List Nat)
  | 0, _, _ => .fail .out_of_fuel
  | cnt + 1, i, table =>
    if i < 7 then do
      let st ← setDefaultFlag OPTION_FLAGS REG_GLOBAL (i, table)
      let st ← setDefaultFlag OPTION_FLAGS REG_EXTENDED st
      let st ← setDefaultFlag OPTION_FLAGS REG_ICASE st
      let st ← setDefaultFlag OPTION_FLAGS REG_NEWLINE st
      let st ← setDefaultFlag OPTION_FLAGS REG_NOSUB st
      let st ← setDefaultFlag OPTION_FLAGS REG_MULTILINE st
      let st ← setDefaultFlag OPTION_FLAGS REG_NOSUBEXP st
      setDefaultFlagsLoop OPTION_FLAGS cnt (st.1 + 1) st.2
    else .ok table

/-- The function `set_default_reg_flags` on the table `DEFAULT_REG_FLAGS` (seven
entries in `compact-regex.h`): the table after the call. The first loop zeroes the
entries 0..6; the second loop runs at most seven times, since every iteration adds
at least one to `i`. -/
def set_default_reg_flags (table : List Nat) (OPTION_FLAGS : Nat) : Res (List Nat) :=
  setDefaultFlagsLoop OPTION_FLAGS 8 0 ((List.range 7).foldl (fun t i => t.set i 0) table)

/-! ## Reference function for the expansion of backreferences -/

/-- Spec words: the participating slots (those with `rm_so ≠ -1`) among the `cnt`
slots from the slot `i` on, in slot order, each with its position in the array. -/
def participatingSlots (slots : List regmatch_t) : Nat → Nat → List (Nat × regmatch_t)
  | 0, _ => []
  | cnt + 1, i =>
    if (slots.getD i ⟨-1, -1⟩).rm_so ≠ -1 then
      (i, slots.getD i ⟨-1, -1⟩) :: participatingSlots slots cnt (i + 1)
    else participatingSlots slots cnt (i + 1)

/-- Spec words: among the `cnt` slots from the slot `i` on, no non-participating slot
precedes a participating one, so the participating slots form a gap-free prefix. -/
def gapFreeFrom (slots : List regmatch_t) : Nat → Nat → Bool
  | 0, _ => true
  | cnt + 1, i =>
    if (slots.getD i ⟨-1, -1⟩).rm_so ≠ -1 then gapFreeFrom slots cnt (i + 1)
    else (participatingSlots slots cnt (i + 1)).isEmpty

/-- A record as the specification describes it: the occurrence index, the position
of the slot it comes from, its offsets in the whole text, and whether the
participating slots of its invocation form a gap-free prefix. -/
structure expectedRecord where
  occurrence : Int
  slot : Nat
  start : Int
  end_ : Int
  gapFree : Bool
  deriving DecidableEq, Repr

/-- Spec words: the records that one successful invocation contributes, with the
occurrence index `k`, for the `pmatch` array `slots` that the matcher filled on the
suffix of the text from the read offset `r` on: one record for each participating
slot `0..nsub`, in slot order, with the offsets of the matcher plus `r`. -/
def invocationRecords (slots : List regmatch_t) (nsub : Nat) (k r : Int) :
    List expectedRecord :=
  (participatingSlots slots (nsub + 1) 0).map (fun p =>
    { occurrence := k, slot := p.1, start := p.2.rm_so + r, end_ := p.2.rm_eo + r,
      gapFree := gapFreeFrom slots (nsub + 1) 0 })

/-- Spec words: the records of a global search from the occurrence index `k` and the
read offset `r` on, for at most `n` invocations of the matcher. Each successful
invocation runs on the suffix of the text from the read offset on; the next read
offset is the end of the whole match in the offsets of the whole text. The search
ends at an unsuccessful invocation, and after a whole match that is empty or ends at
the end of the text. -/
def globalRecords (re : regex_t) (nsub : Nat) (text : CStr) :
    Nat → Int → Int → List expectedRecord
  | 0, _, _ => []
  | n + 1, k, r =>
    let res := re.regexec (text.drop r.toNat)
    if res.1 = REGEX_MATCH_SUCCESS then
      let whole := res.2.getD 0 ⟨-1, -1⟩
      if whole.rm_eo + r = (text.length : Int) ∨ whole.rm_so = whole.rm_eo then
        invocationRecords res.2 nsub k r
      else
        invocationRecords res.2 nsub k r ++
          globalRecords re nsub text n (k + 1) (whole.rm_eo + r)
    else []

/-- The occurrence index, the submatch index and the offsets of the records written
so far: `matches[i]` and `match_offsets[i]` for `i < num_matches`. -/
def writtenRecords (rd : compact_regex_t) : List (Option Int × Option Int × Option regmatch_t) :=
  (List.range rd.num_matches).map (fun i =>
    ((cellAt rd.matches_ i).number_match, (cellAt rd.matches_ i).number_submatch,
      rd.match_offsets.getD i none))

/-- A written record agrees with an expected one: same occurrence index and offsets,
and the submatch index is the position of the slot when the participating slots of
the invocation form a gap-free prefix. -/
def recordAgrees (c : Option Int × Option Int × Option regmatch_t) (x : expectedRecord) : Prop :=
  c.1 = some x.occurrence ∧ c.2.2 = some ⟨x.start, x.end_⟩ ∧
  (x.gapFree = true → c.2.1 = some (x.slot : Int))

/-- A record of the session agrees with an expected one: same occurrence index, start
and end, and the submatch index is the position of the slot when the participating
slots of the invocation form a gap-free prefix. -/
def sessionRecordAgrees (c : cregmatches_t) (x : expectedRecord) : Prop :=
  c.number_match = some x.occurrence ∧ c.start = some x.start ∧ c.end_ = some x.end_ ∧
  (x.gapFree = true → c.number_submatch = some (x.slot : Int))

/-! ## A table-driven stand-in for `regexec`

The concrete scenarios below fix what the underlying matcher reports on the
input text. `tableRegexec` turns such a report into a `regexec`: the table lists
the occurrences in text order, each as its `pmatch` array in offsets of the whole
text; called on the suffix that starts at offset `r`, it reports the first
occurrence whose whole match starts at or after `r`, in offsets of the suffix. -/

/-- Shift the participating slots of a `pmatch` array by `-r`. -/
def shiftSlots (r : Int) (slots : List regmatch_t) : List regmatch_t :=
  slots.map (fun s => if s.rm_so = -1 then s else ⟨s.rm_so - r, s.rm_eo - r⟩)

/-- The table-driven `regexec`; `len` is the length of the whole text. -/
def tableRegexec (len : Nat) (table : List (List regmatch_t)) (s : CStr) :
    Int × List regmatch_t :=
  let r : Int := (len : Int) - s.length
  match table.find? (fun slots => decide (r ≤ (slots.getD 0 ⟨-1, -1⟩).rm_so)) with
  | some slots => (REGEX_MATCH_SUCCESS, shiftSlots r slots)
  | none => (REG_NOMATCH, [])

/-- A `<regex.h>` whose `regcomp` accepts every pattern, reports `nsub`
sub-expressions and matches according to the table. -/
def tableLib (nsub len : Nat) (table : List (List regmatch_t)) : RegLib :=
  { regcomp := fun _ _ => (REGEX_COMP_SUCCESS, { re_nsub := nsub, regexec := tableRegexec len table }) }

/-- The error code `REG_ESPACE` of `<regex.h>` (glibc): the matcher ran out of memory. -/
def REG_ESPACE : Int := 12

/-- A table-driven `regexec` that fails with the code `fault`, instead of reporting
`REG_NOMATCH`, once the table holds no further occurrence. -/
def tableRegexecFault (fault : Int) (len : Nat) (table : List (List regmatch_t)) (s : CStr) :
    Int × List regmatch_t :=
  if (tableRegexec len table s).1 = REGEX_MATCH_SUCCESS then tableRegexec len table s
  else (fault, [])

/-- A `<regex.h>` whose `regcomp` accepts every pattern and whose `regexec` is
`tableRegexecFault`. -/
def faultLib (fault : Int) (nsub len : Nat) (table : List (List regmatch_t)) : RegLib :=
  { regcomp := fun _ _ =>
      (REGEX_COMP_SUCCESS, { re_nsub := nsub, regexec := tableRegexecFault fault len table }) }

/-! # Theorems -/

/-! ## Basic facts about the result monad and the fuel of the global search -/

@[simp] theorem Res.bind_ok {α β : Type} (a : α) (k : α → Res β) :
    Res.bind (.ok a) k = k a := rfl

@[simp] theorem Res.bind_fail {α β : Type} (f : Fault) (k : α → Res β) :
    Res.bind (.fail f : Res α) k = .fail f := rfl

@[simp] theorem Res.bind_eq {α β : Type} (r : Res α) (k : α → Res β) :
    (r >>= k) = Res.bind r k := rfl

@[simp] theorem Res.pure_eq {α : Type} (a : α) : (pure a : Res α) = .ok a := rfl

theorem Res.bind_eq_ok {α β : Type} {r : Res α} {k : α → Res β} {b : β}
    (h : Res.bind r k = .ok b) : ∃ a, r = .ok a ∧ k a = .ok b := by
  cases r with
  | ok a => exact ⟨a, rfl, h⟩
  | fail f => simp at h

theorem searchGlobalLoop_fuel_succ (lim : Limits) (text : CStr) :
    ∀ (fuel : Nat) (v v' : GlobalVars),
      searchGlobalLoop lim text fuel v = .ok v' →
      searchGlobalLoop lim text (fuel + 1) v = .ok v' := by
  intro fuel
  induction fuel with
  | zero => intro v v' h; simp [searchGlobalLoop] at h
  | succ n ih =>
    intro v v' h
    rw [searchGlobalLoop] at h ⊢
    cases hb : searchGlobalBody lim text v with
    | fail f => rw [hb] at h; simp at h
    | ok p =>
      obtain ⟨b, w⟩ := p
      rw [hb] at h
      cases b with
      | true => simpa using h
      | false => exact ih w v' h

theorem searchGlobalLoop_fuel_add (lim : Limits) (text : CStr) (fuel k : Nat)
    (v v' : GlobalVars) (h : searchGlobalLoop lim text fuel v = .ok v') :
    searchGlobalLoop lim text (fuel + k) v = .ok v' := by
  induction k with
  | zero => exact h
  | succ k ih => exact searchGlobalLoop_fuel_succ lim text (fuel + k) v v' ih

theorem regex_exec_fuel_add (lim : Limits) (text : CStr) (rd : compact_regex_t)
    (fuel k : Nat) (r : Int × compact_regex_t)
    (h : regex_exec fuel lim text rd = .ok r) :
    regex_exec (fuel + k) lim text rd = .ok r := by
  unfold regex_exec at h ⊢
  simp only [Res.bind_eq] at h ⊢
  obtain ⟨u, hu, h⟩ := Res.bind_eq_ok h
  rw [hu]
  simp only [Res.bind_ok] at h ⊢
  split_ifs at h ⊢
  all_goals first
    | exact h
    | (unfold _EXEC__SEARCH_GLOBAL at h ⊢
       simp only [Res.bind_eq] at h ⊢
       obtain ⟨v, hv, h⟩ := Res.bind_eq_ok h
       rw [searchGlobalLoop_fuel_add lim text fuel k _ v hv]
       exact h)

theorem regex_replace_fuel_add (lim : Limits) (defaults : List Nat) (lib : RegLib)
    (text pattern template : CStr) (flags fuel k : Nat) (out : CStr)
    (h : regex_replace fuel lim defaults lib text pattern template flags = .ok out) :
    regex_replace (fuel + k) lim defaults lib text pattern template flags = .ok out := by
  unfold regex_replace at h ⊢
  simp only [Res.bind_eq] at h ⊢
  obtain ⟨rd, hrd, h⟩ := Res.bind_eq_ok h
  rw [hrd]
  simp only [Res.bind_ok] at h ⊢
  obtain ⟨u1, hu1, h⟩ := Res.bind_eq_ok h
  rw [hu1]
  simp only [Res.bind_ok] at h ⊢
  obtain ⟨u2, hu2, h⟩ := Res.bind_eq_ok h
  rw [hu2]
  simp only [Res.bind_ok] at h ⊢
  obtain ⟨u3, _, h⟩ := Res.bind_eq_ok h
  split_ifs at h ⊢
  obtain ⟨r, hr, h⟩ := Res.bind_eq_ok h
  rw [regex_exec_fuel_add lim text rd fuel k r hr]
  exact h

/-! ## Frame properties of the slot loops of the global search -/

theorem aheadLoop_frame (lim : Limits) (i : Nat) :
    ∀ (cnt j : Nat) (v v' : GlobalVars), aheadLoop lim i cnt j v = .ok v' →
      v'.match_iteration = v.match_iteration ∧ v'.READ_POS_OFFSET = v.READ_POS_OFFSET ∧
      v'.invocations = v.invocations ∧ v'.regex_data = v.regex_data := by
  intro cnt
  induction cnt with
  | zero =>
    intro j v v' h
    simp only [aheadLoop, Res.ok.injEq] at h
    subst h
    exact ⟨rfl, rfl, rfl, rfl⟩
  | succ n ih =>
    intro j v v' h
    rw [aheadLoop] at h
    simp only [Res.bind_eq, Res.pure_eq] at h
    obtain ⟨slot, hslot, h⟩ := Res.bind_eq_ok h
    split_ifs at h
    all_goals first
      | (simp only [Res.ok.injEq] at h; subst h; exact ⟨rfl, rfl, rfl, rfl⟩)
      | (have hh := ih _ _ _ h; exact hh)

theorem slotLoop_frame (lim : Limits) :
    ∀ (cnt i : Nat) (v v' : GlobalVars), slotLoop lim cnt i v = .ok v' →
      v'.READ_POS_OFFSET = v.READ_POS_OFFSET ∧ v'.invocations = v.invocations ∧
      v'.regex_data.compiled_regex = v.regex_data.compiled_regex ∧
      v'.regex_data.num_pattern_subexpr = v.regex_data.num_pattern_subexpr ∧
      (0 < i → v'.match_iteration.getD 0 ⟨-1, -1⟩ = v.match_iteration.getD 0 ⟨-1, -1⟩) ∧
      (v'.regex_data.return_code = v.regex_data.return_code ∨
        v'.return_code_local = REGEX_ERROR) := by
  intro cnt
  induction cnt with
  | zero =>
    intro i v v' h
    simp only [slotLoop, Res.ok.injEq] at h
    subst h
    exact ⟨rfl, rfl, rfl, rfl, fun _ => rfl, Or.inl rfl⟩
  | succ n ih =>
    intro i v v' h
    rw [slotLoop] at h
    simp only [Res.bind_eq, Res.pure_eq] at h
    obtain ⟨v1, hv1, h⟩ := Res.bind_eq_ok h
    obtain ⟨hmi, hrpo, hinv, hrd⟩ := aheadLoop_frame lim i _ _ _ _ hv1
    obtain ⟨slot, hslot, h⟩ := Res.bind_eq_ok h
    have hset : ∀ (s : regmatch_t), 0 < i →
        (v1.match_iteration.set i s).getD 0 ⟨-1, -1⟩ = v.match_iteration.getD 0 ⟨-1, -1⟩ := by
      intro s hi
      rw [hmi]
      cases hl : v.match_iteration with
      | nil => simp
      | cons a l =>
        obtain ⟨k, rfl⟩ : ∃ k, i = k + 1 := ⟨i - 1, by omega⟩
        simp
    split_ifs at h
    all_goals first
      | (simp only [Res.ok.injEq] at h
         subst h
         exact ⟨hrpo, hinv, by simp [hrd], by simp [hrd],
           fun hi => by first | exact hset _ hi | rw [hmi],
           by first | exact Or.inr rfl | (left; simp [hrd])⟩)
      | (obtain ⟨h1, h2, h3, h4, h5, h6⟩ := ih _ _ _ h
         refine ⟨h1.trans hrpo, h2.trans hinv, h3.trans (by simp [hrd]),
           h4.trans (by simp [hrd]), ?_, ?_⟩
         · intro hi
           rw [h5 (by omega)]
           first | exact hset _ hi | rw [hmi]
         · rcases h6 with h6 | h6
           · left; rw [h6]; simp [hrd]
           · right; exact h6)

theorem slotLoop_slot0 (lim : Limits) (n : Nat) (v v' : GlobalVars)
    (h : slotLoop lim (n + 1) 0 v = .ok v')
    (hv : (v.match_iteration.getD 0 ⟨-1, -1⟩).rm_so ≠ -1) :
    v'.match_iteration.getD 0 ⟨-1, -1⟩ =
      ⟨(v.match_iteration.getD 0 ⟨-1, -1⟩).rm_so + v.READ_POS_OFFSET,
       (v.match_iteration.getD 0 ⟨-1, -1⟩).rm_eo + v.READ_POS_OFFSET⟩ := by
  rw [slotLoop] at h
  simp only [Res.bind_eq, Res.pure_eq] at h
  obtain ⟨v1, hv1, h⟩ := Res.bind_eq_ok h
  obtain ⟨hmi, hrpo, hinv, hrd⟩ := aheadLoop_frame lim 0 _ _ _ _ hv1
  obtain ⟨slot, hslot, h⟩ := Res.bind_eq_ok h
  have hslot' : slot = v.match_iteration.getD 0 ⟨-1, -1⟩ := by
    unfold slotAt at hslot
    split_ifs at hslot
    simp only [Res.ok.injEq] at hslot
    rw [← hslot, hmi]
  have hne : v.match_iteration ≠ [] := by
    intro hnil
    rw [hnil] at hv
    simp at hv
  have hset : ∀ (s : regmatch_t), (v1.match_iteration.set 0 s).getD 0 ⟨-1, -1⟩ = s := by
    intro s
    rw [hmi]
    cases hl : v.match_iteration with
    | nil => exact absurd hl hne
    | cons a l => simp
  rw [hslot', if_neg (fun hc => hv hc.1), if_pos hv] at h
  split_ifs at h
  all_goals first
    | (simp only [Res.ok.injEq] at h
       subst h
       simp only [hset, hrpo])
    | (obtain ⟨h1, h2, h3, h4, h5, h6⟩ := slotLoop_frame lim _ _ _ _ h
       rw [h5 (by omega)]
       simp only [hset, hrpo])

/-! ## Termination of the global search -/

theorem slotAt_zero_eq (lim : Limits) (mi : List regmatch_t) (s : regmatch_t)
    (h : slotAt lim mi 0 = .ok s) : s = mi.getD 0 ⟨-1, -1⟩ := by
  unfold slotAt at h
  split_ifs at h
  simp only [Res.ok.injEq] at h
  exact h.symm

theorem searchGlobalBody_step (lim : Limits) (text : CStr) (v v' : GlobalVars) (b : Bool)
    (hinv : searchGlobalInv text v) (h : searchGlobalBody lim text v = .ok (b, v')) :
    v'.invocations ≤ v.invocations + 1 ∧
    v'.regex_data.num_pattern_subexpr = v.regex_data.num_pattern_subexpr ∧
    (b = false → searchGlobalInv text v' ∧ v.READ_POS_OFFSET < v'.READ_POS_OFFSET ∧
      v'.READ_POS_OFFSET < (text.length : Int)) := by
  obtain ⟨h0, hlen, hwf, hrcl⟩ := hinv
  unfold searchGlobalBody at h
  simp only [Res.bind_eq, Res.pure_eq] at h
  by_cases hrc : v.regex_data.return_code = REGEX_ERROR
  · -- no invocation: the loop ends
    have hl := hrcl hrc
    simp only [hrc, ne_eq, not_true_eq_false, if_false, Res.bind_ok, hl] at h
    simp only [Res.ok.injEq, Prod.mk.injEq] at h
    obtain ⟨hb, hv⟩ := h
    subst hv
    subst hb
    exact ⟨by omega, rfl, by simp⟩
  · have hrange : ¬ (v.READ_POS_OFFSET < 0 ∨ (text.length : Int) < v.READ_POS_OFFSET) := by omega
    simp only [ne_eq, hrc, not_false_eq_true, if_true, hrange, if_false, Res.bind_ok] at h
    by_cases hs : (v.regex_data.compiled_regex.regexec
        (List.drop v.READ_POS_OFFSET.toNat text)).1 = REGEX_MATCH_SUCCESS
    · simp only [hs, if_true] at h
      obtain ⟨v3, hv3, h⟩ := Res.bind_eq_ok h
      obtain ⟨slot0, hslot0, h⟩ := Res.bind_eq_ok h
      obtain ⟨w0, w1, w2⟩ := hwf _ hs
      have hslot := slotAt_zero_eq _ _ _ hslot0
      obtain ⟨f1, f2, f3, f4, f5, f6⟩ := slotLoop_frame lim _ _ _ _ hv3
      have hz := slotLoop_slot0 lim _ _ _ hv3 (by simp only; omega)
      simp only at hz f1 f2 f3 f4 f6
      rw [hz] at hslot
      have hdl : ((List.drop v.READ_POS_OFFSET.toNat text).length : Int)
          = (text.length : Int) - v.READ_POS_OFFSET := by
        rw [List.length_drop]
        omega
      rw [hdl] at w2
      split_ifs at h with hbr
      · simp only [Res.ok.injEq, Prod.mk.injEq] at h
        obtain ⟨hb, hv⟩ := h
        subst hv
        subst hb
        exact ⟨by simp only; omega, f4, by simp⟩
      · simp only [Res.ok.injEq, Prod.mk.injEq] at h
        obtain ⟨hb, hv⟩ := h
        subst hv
        subst hb
        rw [hslot] at hbr
        simp only [f1] at hbr
        refine ⟨by simp only; omega, f4, fun _ => ⟨⟨?_, ?_, ?_, ?_⟩, ?_, ?_⟩⟩
        · simp only [hslot, f1]; omega
        · simp only [hslot, f1]; omega
        · simp only [f3]; exact hwf
        · simp only
          intro he
          rcases f6 with f6 | f6
          · rw [f6] at he; exact absurd he hrc
          · rw [f6]; decide
        · simp only [hslot, f1]; omega
        · simp only [hslot, f1]; omega
    · simp only [hs, if_false] at h
      simp only [Res.ok.injEq, Prod.mk.injEq] at h
      obtain ⟨hb, hv⟩ := h
      subst hv
      subst hb
      exact ⟨by simp, rfl, by simp⟩

theorem Res.bind_eq_fail {α β : Type} {r : Res α} {k : α → Res β} {f : Fault}
    (h : Res.bind r k = .fail f) : r = .fail f ∨ ∃ a, r = .ok a ∧ k a = .fail f := by
  cases r with
  | ok a => exact Or.inr ⟨a, rfl, h⟩
  | fail g =>
    simp only [Res.bind_fail, Res.fail.injEq] at h
    exact Or.inl (by rw [h])

theorem slotAt_fail (lim : Limits) (mi : List regmatch_t) (j : Nat) (f : Fault)
    (h : slotAt lim mi j = .fail f) : f = .undefined_behaviour ∧ lim.MAX_NUM_MATCHES ≤ j := by
  unfold slotAt at h
  split_ifs at h with hj
  simp only [Res.fail.injEq] at h
  exact ⟨h.symm, by omega⟩

theorem aheadLoop_fail (lim : Limits) (i : Nat) :
    ∀ (cnt j : Nat) (v : GlobalVars) (f : Fault), aheadLoop lim i cnt j v = .fail f →
      f = .undefined_behaviour ∧ lim.MAX_NUM_MATCHES < j + cnt := by
  intro cnt
  induction cnt with
  | zero => intro j v f h; simp [aheadLoop] at h
  | succ n ih =>
    intro j v f h
    rw [aheadLoop] at h
    simp only [Res.bind_eq, Res.pure_eq] at h
    rcases Res.bind_eq_fail h with h | ⟨slot, _, h⟩
    · obtain ⟨h1, h2⟩ := slotAt_fail _ _ _ _ h
      exact ⟨h1, by omega⟩
    · split_ifs at h
      all_goals first
        | (obtain ⟨h1, h2⟩ := ih _ _ _ h; exact ⟨h1, by omega⟩)

theorem slotLoop_fail (lim : Limits) :
    ∀ (cnt i : Nat) (v : GlobalVars) (f : Fault), slotLoop lim cnt i v = .fail f →
      f = .undefined_behaviour ∧
      (lim.MAX_NUM_MATCHES ≤ v.regex_data.num_pattern_subexpr ∨
        lim.MAX_NUM_MATCHES < i + cnt) := by
  intro cnt
  induction cnt with
  | zero => intro i v f h; simp [slotLoop] at h
  | succ n ih =>
    intro i v f h
    rw [slotLoop] at h
    simp only [Res.bind_eq, Res.pure_eq] at h
    rcases Res.bind_eq_fail h with h | ⟨v1, hv1, h⟩
    · obtain ⟨h1, h2⟩ := aheadLoop_fail _ _ _ _ _ _ h
      exact ⟨h1, by omega⟩
    · obtain ⟨hmi, hrpo, hinv, hrd⟩ := aheadLoop_frame lim i _ _ _ _ hv1
      rcases Res.bind_eq_fail h with h | ⟨slot, _, h⟩
      · obtain ⟨h1, h2⟩ := slotAt_fail _ _ _ _ h
        exact ⟨h1, by omega⟩
      · split_ifs at h
        all_goals first
          | (obtain ⟨h1, h2⟩ := ih _ _ _ h
             simp only [hrd] at h2
             exact ⟨h1, by omega⟩)

theorem searchGlobalBody_fail (lim : Limits) (text : CStr) (v : GlobalVars) (f : Fault)
    (hinv : searchGlobalInv text v) (h : searchGlobalBody lim text v = .fail f) :
    f = .undefined_behaviour ∧ lim.MAX_NUM_MATCHES ≤ v.regex_data.num_pattern_subexpr := by
  obtain ⟨h0, hlen, hwf, hrcl⟩ := hinv
  unfold searchGlobalBody at h
  simp only [Res.bind_eq, Res.pure_eq] at h
  by_cases hrc : v.regex_data.return_code = REGEX_ERROR
  · have hl := hrcl hrc
    simp [hrc, hl] at h
  · have hrange : ¬ (v.READ_POS_OFFSET < 0 ∨ (text.length : Int) < v.READ_POS_OFFSET) := by omega
    simp only [ne_eq, hrc, not_false_eq_true, if_true, hrange, if_false, Res.bind_ok] at h
    by_cases hs : (v.regex_data.compiled_regex.regexec
        (List.drop v.READ_POS_OFFSET.toNat text)).1 = REGEX_MATCH_SUCCESS
    · simp only [hs, if_true] at h
      rcases Res.bind_eq_fail h with h | ⟨v3, hv3, h⟩
      · obtain ⟨h1, h2⟩ := slotLoop_fail _ _ _ _ _ h
        simp only at h2
        exact ⟨h1, by omega⟩
      · obtain ⟨f1, f2, f3, f4, f5, f6⟩ := slotLoop_frame lim _ _ _ _ hv3
        simp only at f4
        rcases Res.bind_eq_fail h with h | ⟨slot0, _, h⟩
        · obtain ⟨h1, h2⟩ := slotAt_fail _ _ _ _ h
          exact ⟨h1, by omega⟩
        · split_ifs at h
    · simp [hs] at h

theorem searchGlobalLoop_bound (lim : Limits) (text : CStr) :
    ∀ (fuel : Nat) (v : GlobalVars), searchGlobalInv text v →
      ((text.length : Int) - v.READ_POS_OFFSET).toNat + 1 ≤ fuel →
      (∀ f, searchGlobalLoop lim text fuel v = .fail f →
        f = .undefined_behaviour ∧ lim.MAX_NUM_MATCHES ≤ v.regex_data.num_pattern_subexpr) ∧
      (∀ v', searchGlobalLoop lim text fuel v = .ok v' →
        v'.invocations ≤ v.invocations + ((text.length : Int) - v.READ_POS_OFFSET).toNat + 1) := by
  intro fuel
  induction fuel with
  | zero => intro v _ hf; omega
  | succ n ih =>
    intro v hinv hf
    rw [searchGlobalLoop]
    cases hb : searchGlobalBody lim text v with
    | fail f =>
      have := searchGlobalBody_fail lim text v f hinv hb
      exact ⟨fun g hg => by simp only [Res.fail.injEq] at hg; subst hg; exact this,
        fun v' hv' => by simp at hv'⟩
    | ok p =>
      obtain ⟨b, w⟩ := p
      obtain ⟨s1, s3, s2⟩ := searchGlobalBody_step lim text v w b hinv hb
      cases b with
      | true =>
        refine ⟨fun g hg => by simp at hg, fun v' hv' => ?_⟩
        simp only [Res.ok.injEq] at hv'
        subst hv'
        omega
      | false =>
        obtain ⟨hinvw, hlt, hlt'⟩ := s2 rfl
        obtain ⟨i1, i2⟩ := ih w hinvw (by omega)
        simp only
        refine ⟨fun g hg => ?_, fun v' hv' => ?_⟩
        · obtain ⟨a1, a2⟩ := i1 g hg
          exact ⟨a1, by omega⟩
        · have := i2 v' hv'
          omega

/-! ## Facts about compilation and about a search that finds nothing -/

theorem assertParam_ok (s : CStr) (h : s ≠ []) : __ASSERT_PARAM s ASSERT_TYPE_PTR = .ok () := by
  unfold __ASSERT_PARAM
  have : s.length ≠ 0 := by
    intro hl
    exact h (List.length_eq_zero.mp hl)
  simp [this]

theorem init_regex_fields (defaults : List Nat) (pattern : CStr) (flags : Nat)
    (rd0 : compact_regex_t) (h : _COMPILE__INIT_REGEX defaults pattern flags = .ok rd0) :
    rd0.num_matches = 0 ∧
    rd0.flags.GLOBAL = decide ((addDefaultFlags flags defaults &&& REG_GLOBAL) = REG_GLOBAL) := by
  unfold _COMPILE__INIT_REGEX at h
  simp only [Res.bind_eq, Res.pure_eq] at h
  obtain ⟨_, _, h⟩ := Res.bind_eq_ok h
  simp only [Res.ok.injEq] at h
  rw [← h]
  exact ⟨rfl, rfl⟩

theorem checkPatternLimit_fields (lim : Limits) (rd : compact_regex_t) :
    (checkPatternLimit lim rd).num_matches = rd.num_matches ∧
    (checkPatternLimit lim rd).flags = rd.flags := by
  unfold checkPatternLimit
  split_ifs <;> exact ⟨rfl, rfl⟩

theorem compilePattern_fields (lim : Limits) (lib : RegLib) (pattern : CStr)
    (rd rd' : compact_regex_t) (h : compilePattern lim lib pattern rd = .ok rd') :
    rd'.num_matches = rd.num_matches ∧ rd'.flags = rd.flags := by
  unfold compilePattern at h
  split_ifs at h
  · simp only [Res.bind_eq, Res.pure_eq] at h
    obtain ⟨c, _, h⟩ := Res.bind_eq_ok h
    simp only [Res.ok.injEq] at h
    rw [← h]
    exact ⟨rfl, rfl⟩
  · simp only [Res.pure_eq, Res.ok.injEq] at h
    rw [← h]
    exact ⟨rfl, rfl⟩

theorem rejectEmptyPattern_fields (pattern : CStr) (rd : compact_regex_t) :
    (rejectEmptyPattern pattern rd).num_matches = rd.num_matches ∧
    (rejectEmptyPattern pattern rd).flags = rd.flags := by
  unfold rejectEmptyPattern
  split_ifs <;> exact ⟨rfl, rfl⟩

theorem setReglibStatus_fields (rd : compact_regex_t) :
    (setReglibStatus rd).num_matches = rd.num_matches ∧
    (setReglibStatus rd).flags = rd.flags := by
  unfold setReglibStatus
  split_ifs <;> exact ⟨rfl, rfl⟩

theorem regex_compile_fields (lim : Limits) (defaults : List Nat) (lib : RegLib)
    (pattern : CStr) (flags : Nat) (rd : compact_regex_t)
    (h : regex_compile lim defaults lib pattern flags = .ok rd) :
    rd.num_matches = 0 ∧
    rd.flags.GLOBAL = decide ((addDefaultFlags flags defaults &&& REG_GLOBAL) = REG_GLOBAL) := by
  unfold regex_compile at h
  simp only [Res.bind_eq, Res.pure_eq] at h
  obtain ⟨rd0, hrd0, h⟩ := Res.bind_eq_ok h
  obtain ⟨i1, i2⟩ := init_regex_fields _ _ _ _ hrd0
  obtain ⟨_, _, h⟩ := Res.bind_eq_ok h
  obtain ⟨c1, c2⟩ := checkPatternLimit_fields lim rd0
  split_ifs at h
  · obtain ⟨rd2, hrd2, h⟩ := Res.bind_eq_ok h
    obtain ⟨p1, p2⟩ := compilePattern_fields _ _ _ _ _ hrd2
    obtain ⟨r1, r2⟩ := rejectEmptyPattern_fields pattern rd2
    obtain ⟨s1, s2⟩ := setReglibStatus_fields (rejectEmptyPattern pattern rd2)
    simp only [Res.ok.injEq] at h
    rw [← h]
    exact ⟨by rw [s1, r1, p1, c1, i1], by rw [s2, r2, p2, c2, i2]⟩
  · simp only [Res.ok.injEq] at h
    rw [← h]
    exact ⟨by rw [c1, i1], by rw [c2, i2]⟩

theorem checkMatchLimit_fields (lim : Limits) (rd : compact_regex_t) :
    (checkMatchLimit lim rd).num_matches = rd.num_matches ∧
    (checkMatchLimit lim rd).flags = rd.flags ∧
    (checkMatchLimit lim rd).compiled_regex = rd.compiled_regex ∧
    ((checkMatchLimit lim rd).return_code = REGEX_COMP_SUCCESS →
      rd.return_code = REGEX_COMP_SUCCESS) := by
  unfold checkMatchLimit
  split_ifs
  · refine ⟨rfl, rfl, rfl, ?_⟩
    intro h
    have h' : REGEX_ERROR = REGEX_COMP_SUCCESS := h
    exact absurd h' (by decide)
  · exact ⟨rfl, rfl, rfl, id⟩

/-- When `regexec` reports no match on the text, `regex_exec` leaves the number of
records untouched. -/
theorem regex_exec_no_match (lim : Limits) (text : CStr) (rd : compact_regex_t) (extra : Nat)
    (htext : text ≠ [])
    (hnm : (rd.compiled_regex.regexec text).1 ≠ REGEX_MATCH_SUCCESS) :
    ∃ r, regex_exec (1 + extra) lim text rd = .ok r ∧ r.2.num_matches = rd.num_matches := by
  unfold regex_exec
  simp only [Res.bind_eq, Res.pure_eq, assertParam_ok text htext, Res.bind_ok]
  obtain ⟨m1, m2, m3, m4⟩ := checkMatchLimit_fields lim rd
  generalize checkMatchLimit lim rd = rd1 at m1 m2 m3 m4 ⊢
  split_ifs with hc hg
  · -- local mode
    unfold _EXEC__SEARCH_LOCAL
    simp only [Res.bind_eq, Res.pure_eq]
    rw [if_neg (by simp only [m3]; exact hnm)]
    exact ⟨_, rfl, m1⟩
  · -- global mode
    unfold _EXEC__SEARCH_GLOBAL
    have hloop : ∃ v, searchGlobalLoop lim text (1 + extra)
        (searchGlobalInit { rd1 with text := text }) = .ok v ∧
        v.return_code_global = -1 ∧ v.regex_data.num_matches = rd.num_matches := by
      rw [Nat.add_comm, searchGlobalLoop]
      unfold searchGlobalBody
      have h0 : (searchGlobalInit { rd1 with text := text }).regex_data.return_code
          ≠ REGEX_ERROR := by
        simp only [searchGlobalInit, hc.2]
        decide
      simp only [Res.bind_eq, Res.pure_eq, ne_eq, h0, not_false_eq_true, if_true]
      simp only [searchGlobalInit, Int.toNat_zero, List.drop_zero, m3]
      have hr : ¬ ((0 : Int) < 0 ∨ (text.length : Int) < 0) := by omega
      simp only [hr, if_false, Res.bind_ok, hnm]
      exact ⟨_, rfl, rfl, m1⟩
    obtain ⟨v, hv, hg1, hg2⟩ := hloop
    simp only [Res.bind_eq, Res.pure_eq, hv, Res.bind_ok]
    rw [if_neg]
    · exact ⟨_, rfl, hg2⟩
    · rw [hg1]
      intro hh
      exact absurd hh.2 (by decide)
  · exact ⟨_, rfl, m1⟩

/-! ## From `regex_match` to `regex_replace` -/

/-- A session of `regex_match` that holds at least one record comes from a
successful compilation followed by `regex_exec`. -/
theorem regex_match_session (fuel : Nat) (lim : Limits) (defaults : List Nat) (lib : RegLib)
    (text pattern : CStr) (flags : Nat) (rd : compact_regex_t)
    (h : regex_match fuel lim defaults lib text pattern flags = .ok rd)
    (hn : 0 < rd.num_matches) :
    text ≠ [] ∧ ∃ rd0 r, regex_compile lim defaults lib pattern flags = .ok rd0 ∧
      rd0.return_code = REGEX_COMP_SUCCESS ∧ regex_exec fuel lim text rd0 = .ok r ∧ r.2 = rd := by
  unfold regex_match at h
  simp only [Res.bind_eq, Res.pure_eq] at h
  obtain ⟨_, ha, h⟩ := Res.bind_eq_ok h
  have htext : text ≠ [] := by
    intro hnil
    rw [hnil] at ha
    simp [__ASSERT_PARAM, ASSERT_TYPE_PTR] at ha
  obtain ⟨_, _, h⟩ := Res.bind_eq_ok h
  obtain ⟨rd0, hrd0, h⟩ := Res.bind_eq_ok h
  have h0 := (regex_compile_fields _ _ _ _ _ _ hrd0).1
  split_ifs at h with h1 h2
  · obtain ⟨r, hr, h⟩ := Res.bind_eq_ok h
    simp only [Res.ok.injEq] at h
    exact ⟨htext, rd0, r, hrd0, h2, hr, h⟩
  · simp only [Res.ok.injEq] at h
    rw [← h] at hn
    simp only [regex_error] at hn
    omega
  · simp only [Res.ok.injEq] at h
    rw [← h] at hn
    omega

/-- After a successful compilation and execution `regex_replace` is its loop over
the records of the session. -/
theorem regex_replace_eq_loop (fuel : Nat) (lim : Limits) (defaults : List Nat) (lib : RegLib)
    (text pattern template : CStr) (flags : Nat) (rd0 : compact_regex_t)
    (r : Int × compact_regex_t) (htext : text ≠ []) (htpl : template ≠ [])
    (hc : regex_compile lim defaults lib pattern flags = .ok rd0)
    (hok : rd0.return_code = REGEX_COMP_SUCCESS)
    (hx : regex_exec fuel lim text rd0 = .ok r) :
    regex_replace fuel lim defaults lib text pattern template flags =
      replaceLoop lim r.2 template r.2.num_matches 0 0 text := by
  unfold regex_replace
  simp only [Res.bind_eq, Res.pure_eq, hc, Res.bind_ok, assertParam_ok text htext,
    assertParam_ok template htpl, hok, if_true, hx]

/-! ## The array `matches` as a function of the index -/

theorem cellAt_cellUpdate (m : List cregmatches_t) (i : Nat)
    (f : cregmatches_t → cregmatches_t) (j : Nat) :
    cellAt (cellUpdate m i f) j = if j = i then f (cellAt m i) else cellAt m j := by
  unfold cellAt cellUpdate
  simp only [List.getD_eq_getElem?_getD]
  by_cases hi : i < m.length
  · rw [if_pos hi, List.getElem?_modify]
    by_cases hj : j = i
    · subst hj
      simp [List.getElem?_eq_getElem hi]
    · rw [if_neg hj]
      have : ¬ i = j := fun h => hj h.symm
      cases h : m[j]? <;> simp [this]
  · rw [if_neg hi]
    have hnone : m[i]? = none := List.getElem?_eq_none (by omega)
    by_cases hj : j = i
    · subst hj
      rw [if_pos rfl, hnone]
      rw [List.getElem?_append_right (by simp; omega)]
      have : j - (m ++ List.replicate (j - m.length) uninitialised).length = 0 := by
        simp
        omega
      rw [this]
      simp
    · rw [if_neg hj]
      by_cases hjl : j < m.length
      · rw [List.append_assoc, List.getElem?_append_left hjl]
      · have hjn : m[j]? = none := List.getElem?_eq_none (by omega)
        rw [hjn]
        by_cases hlt : j < i
        · rw [List.getElem?_append_left (by simp; omega),
            List.getElem?_append_right (by omega), List.getElem?_replicate]
          split_ifs <;> rfl
        · rw [List.getElem?_eq_none (by simp; omega)]

/-! ## The flag word and the local search -/

theorem and_two_pow_eq_iff (x k : Nat) : x &&& 2 ^ k = 2 ^ k ↔ x / 2 ^ k % 2 = 1 := by
  constructor
  · intro h
    have h1 : (x &&& 2 ^ k).testBit k = (2 ^ k).testBit k := by rw [h]
    rw [Nat.testBit_and, Nat.testBit_two_pow_self, Bool.and_true, Nat.testBit_to_div_mod] at h1
    exact of_decide_eq_true h1
  · intro h
    apply Nat.eq_of_testBit_eq
    intro i
    rw [Nat.testBit_and, Nat.testBit_two_pow]
    by_cases hki : k = i
    · subst hki
      rw [Nat.testBit_to_div_mod]
      simp [h]
    · simp [hki]

theorem add_flag_keeps_global (x d : Nat)
    (hd : d ∈ [0, REG_EXTENDED, REG_ICASE, REG_NEWLINE, REG_NOSUB, REG_MULTILINE,
      REG_NOSUBEXP, REG_SUBEXP])
    (hx : x &&& REG_GLOBAL ≠ REG_GLOBAL) :
    (if (x &&& d) ≠ d then x + d else x) &&& REG_GLOBAL ≠ REG_GLOBAL := by
  split_ifs with hc
  · have h16 : ¬ (x / 2 ^ 4 % 2 = 1) := fun h => hx ((and_two_pow_eq_iff x 4).mpr h)
    intro hcon
    have hcon' : (x + d) / 2 ^ 4 % 2 = 1 := (and_two_pow_eq_iff (x + d) 4).mp hcon
    simp only [List.mem_cons, List.mem_singleton, List.not_mem_nil, or_false] at hd
    rcases hd with rfl | rfl | rfl | rfl | rfl | rfl | rfl | rfl
    · simp at hc
    · have : ¬ (x / 2 ^ 0 % 2 = 1) := fun h => hc ((and_two_pow_eq_iff x 0).mpr h)
      simp only [REG_EXTENDED] at hcon'
      omega
    · have : ¬ (x / 2 ^ 1 % 2 = 1) := fun h => hc ((and_two_pow_eq_iff x 1).mpr h)
      simp only [REG_ICASE] at hcon'
      omega
    · have : ¬ (x / 2 ^ 2 % 2 = 1) := fun h => hc ((and_two_pow_eq_iff x 2).mpr h)
      simp only [REG_NEWLINE] at hcon'
      omega
    · have : ¬ (x / 2 ^ 3 % 2 = 1) := fun h => hc ((and_two_pow_eq_iff x 3).mpr h)
      simp only [REG_NOSUB] at hcon'
      omega
    · have : ¬ (x / 2 ^ 5 % 2 = 1) := fun h => hc ((and_two_pow_eq_iff x 5).mpr h)
      simp only [REG_MULTILINE] at hcon'
      omega
    · have : ¬ (x / 2 ^ 6 % 2 = 1) := fun h => hc ((and_two_pow_eq_iff x 6).mpr h)
      simp only [REG_NOSUBEXP] at hcon'
      omega
    · have : ¬ (x / 2 ^ 7 % 2 = 1) := fun h => hc ((and_two_pow_eq_iff x 7).mpr h)
      simp only [REG_SUBEXP] at hcon'
      omega
  · exact hx

theorem addDefaultFlags_keeps_global (defaults : List Nat) :
    ∀ (x : Nat),
      (∀ d ∈ defaults, d ∈ [0, REG_EXTENDED, REG_ICASE, REG_NEWLINE, REG_NOSUB, REG_MULTILINE,
        REG_NOSUBEXP, REG_SUBEXP]) →
      x &&& REG_GLOBAL ≠ REG_GLOBAL →
      addDefaultFlags x defaults &&& REG_GLOBAL ≠ REG_GLOBAL := by
  induction defaults with
  | nil => intro x _ hx; exact hx
  | cons d ds ih =>
    intro x hd hx
    unfold addDefaultFlags
    rw [List.foldl_cons]
    exact ih _ (fun e he => hd e (List.mem_cons_of_mem _ he))
      (add_flag_keeps_global x d (hd d (List.mem_cons_self _ _)) hx)

theorem getMatchedStringsLoop_numbers (text : CStr) (offs : List (Option regmatch_t)) :
    ∀ (cnt i : Nat) (m m' : List cregmatches_t),
      getMatchedStringsLoop text offs cnt i m = .ok m' →
      ∀ j, (cellAt m' j).number_match = (cellAt m j).number_match ∧
        (cellAt m' j).number_submatch = (cellAt m j).number_submatch := by
  intro cnt
  induction cnt with
  | zero =>
    intro i m m' h j
    simp only [getMatchedStringsLoop, Res.ok.injEq] at h
    rw [h]
    exact ⟨rfl, rfl⟩
  | succ n ih =>
    intro i m m' h j
    rw [getMatchedStringsLoop] at h
    split at h
    · simp at h
    · simp only at h
      split_ifs at h
      have := ih _ _ _ h j
      rw [cellAt_cellUpdate] at this
      split_ifs at this with hj
      · subst hj
        exact this
      · exact this

theorem slotAt_ok (lim : Limits) (mi : List regmatch_t) (j : Nat) (s : regmatch_t)
    (h : slotAt lim mi j = .ok s) : s = mi.getD j ⟨-1, -1⟩ ∧ j < lim.MAX_NUM_MATCHES := by
  unfold slotAt at h
  split_ifs at h with hj
  simp only [Res.ok.injEq] at h
  exact ⟨h.symm, hj⟩

theorem searchLocalLoop_numbers (lim : Limits) (mi : List regmatch_t) :
    ∀ (cnt i : Nat) (rd rd' : compact_regex_t),
      searchLocalLoop lim mi 1 cnt i rd = .ok rd' →
      (0 < i → (mi.getD (i - 1) ⟨-1, -1⟩).rm_so ≠ -1) →
      rd.num_matches ≤ i →
      (∀ j, j < i → (cellAt rd.matches_ j).number_match = some 1) →
      ∀ j, j < rd'.num_matches → (cellAt rd'.matches_ j).number_match = some 1 := by
  intro cnt
  induction cnt with
  | zero =>
    intro i rd rd' h _ hn hc j hj
    simp only [searchLocalLoop, Res.ok.injEq] at h
    subst h
    exact hc j (by omega)
  | succ n ih =>
    intro i rd rd' h hprev hn hc j hj
    rw [searchLocalLoop] at h
    simp only [Res.bind_eq, Res.pure_eq] at h
    obtain ⟨slot, hslot, h⟩ := Res.bind_eq_ok h
    obtain ⟨hs1, hs2⟩ := slotAt_ok _ _ _ _ hslot
    by_cases hv : slot.rm_so = -1
    · rw [if_pos hv] at h
      simp only [Res.ok.injEq] at h
      subst h
      exact hc j (by omega)
    · rw [if_neg hv] at h
      have hitem : (if 0 < i ∧ (mi.getD (i - 1) ⟨-1, -1⟩).rm_so = -1 then i - 1 else i) = i := by
        rw [if_neg]
        intro hh
        exact hprev hh.1 hh.2
      simp only [hitem] at h
      have hslotv : (mi.getD (i + 1 - 1) ⟨-1, -1⟩).rm_so ≠ -1 := by
        rw [Nat.add_sub_cancel, ← hs1]
        exact hv
      split_ifs at h
      all_goals
        refine ih _ _ _ h (fun _ => hslotv) (by simp only; omega) ?_ j hj
        intro k hk
        simp only [cellAt_cellUpdate]
        split_ifs with hki
        · rfl
        · exact hc k (by omega)

/-! ## The substitution primitive in the two ways `regex_replace` uses it -/

/-- A search text that does not occur leaves the input as it is. -/
theorem substitute_absent (lim : Limits) (s search rep : CStr) (sb ty : Nat)
    (hs : s.length ≤ lim.MAX_TEXT_LENGTH) (h : strstr s search = none) :
    __SUBSTITUTE_STRING lim s search rep sb ty 0 = .ok s := by
  unfold __SUBSTITUTE_STRING
  rw [if_pos (by omega), substituteLoop]
  simp [h]

theorem arrayWrite_getD {α : Type} (a : List (Option α)) (n : Nat) (x : α) (i : Nat) :
    (arrayWrite a n x).getD i none = if i = n then some x else a.getD i none := by
  unfold arrayWrite
  simp only [List.getD_eq_getElem?_getD]
  by_cases hn : n < a.length
  · rw [if_pos hn, List.getElem?_set]
    by_cases hi : i = n
    · subst hi
      simp [hn]
    · have : ¬ n = i := fun h => hi h.symm
      simp [this, hi]
  · rw [if_neg hn]
    by_cases hi : i = n
    · subst hi
      rw [if_pos rfl, List.getElem?_append_right (by simp; omega)]
      have : i - (a ++ List.replicate (i - a.length) none).length = 0 := by
        simp
        omega
      rw [this]
      simp
    · rw [if_neg hi]
      by_cases hil : i < a.length
      · rw [List.append_assoc, List.getElem?_append_left hil]
      · have hnone : a[i]? = none := List.getElem?_eq_none (by omega)
        rw [hnone]
        by_cases hlt : i < n
        · rw [List.getElem?_append_left (by simp; omega),
            List.getElem?_append_right (by omega), List.getElem?_replicate]
          split_ifs <;> rfl
        · rw [List.getElem?_eq_none (by simp; omega)]

theorem offsetsWithin_write (len : Nat) (offs : List (Option regmatch_t)) (n : Nat)
    (x : regmatch_t) (h : offsetsWithin len offs n)
    (hx : 0 ≤ x.rm_so ∧ x.rm_so ≤ x.rm_eo ∧ x.rm_eo ≤ (len : Int)) :
    offsetsWithin len (arrayWrite offs n x) (n + 1) := by
  intro i hi
  rw [arrayWrite_getD]
  by_cases hin : i = n
  · rw [if_pos hin]
    exact ⟨x, rfl, hx⟩
  · rw [if_neg hin]
    exact h i (by omega)

theorem offsetsWithin_write_past (len : Nat) (offs : List (Option regmatch_t)) (n : Nat)
    (x : regmatch_t) (h : offsetsWithin len offs n) :
    offsetsWithin len (arrayWrite offs n x) n := by
  intro i hi
  rw [arrayWrite_getD, if_neg (by omega)]
  exact h i hi

theorem getD_set_ne (l : List regmatch_t) (i j : Nat) (x d : regmatch_t) (h : j ≠ i) :
    (l.set i x).getD j d = l.getD j d := by
  simp only [List.getD_eq_getElem?_getD]
  rw [List.getElem?_set_ne (fun hh => h hh.symm)]

theorem searchLocalLoop_offsets (lim : Limits) (mi : List regmatch_t) (M : Int) (len : Nat)
    (hmi : ∀ j, (mi.getD j ⟨-1, -1⟩).rm_so ≠ -1 →
      0 ≤ (mi.getD j ⟨-1, -1⟩).rm_so ∧
      (mi.getD j ⟨-1, -1⟩).rm_so ≤ (mi.getD j ⟨-1, -1⟩).rm_eo ∧
      (mi.getD j ⟨-1, -1⟩).rm_eo ≤ (len : Int)) :
    ∀ (cnt i : Nat) (rd rd' : compact_regex_t),
      searchLocalLoop lim mi M cnt i rd = .ok rd' →
      offsetsWithin len rd.match_offsets rd.num_matches →
      offsetsWithin len rd'.match_offsets rd'.num_matches := by
  intro cnt
  induction cnt with
  | zero =>
    intro i rd rd' h hoff
    simp only [searchLocalLoop, Res.ok.injEq] at h
    subst h
    exact hoff
  | succ n ih =>
    intro i rd rd' h hoff
    rw [searchLocalLoop] at h
    simp only [Res.bind_eq, Res.pure_eq] at h
    obtain ⟨slot, hslot, h⟩ := Res.bind_eq_ok h
    obtain ⟨hs1, hs2⟩ := slotAt_ok _ _ _ _ hslot
    by_cases hv : slot.rm_so = -1
    · rw [if_pos hv] at h
      simp only [Res.ok.injEq] at h
      subst h
      exact hoff
    · rw [if_neg hv] at h
      have hb := hmi i (by rw [← hs1]; exact hv)
      rw [← hs1] at hb
      split_ifs at h
      all_goals first
        | exact ih _ _ _ h (offsetsWithin_write len _ _ slot hoff hb)
        | exact ih _ _ _ h hoff

theorem slotLoop_offsets (lim : Limits) (len : Nat) :
    ∀ (cnt i : Nat) (v v' : GlobalVars), slotLoop lim cnt i v = .ok v' →
      0 ≤ v.READ_POS_OFFSET →
      (∀ j, i ≤ j → (v.match_iteration.getD j ⟨-1, -1⟩).rm_so ≠ -1 →
        0 ≤ (v.match_iteration.getD j ⟨-1, -1⟩).rm_so ∧
        (v.match_iteration.getD j ⟨-1, -1⟩).rm_so ≤ (v.match_iteration.getD j ⟨-1, -1⟩).rm_eo ∧
        (v.match_iteration.getD j ⟨-1, -1⟩).rm_eo + v.READ_POS_OFFSET ≤ (len : Int)) →
      offsetsWithin len v.regex_data.match_offsets v.regex_data.num_matches →
      offsetsWithin len v'.regex_data.match_offsets v'.regex_data.num_matches := by
  intro cnt
  induction cnt with
  | zero =>
    intro i v v' h _ _ hoff
    simp only [slotLoop, Res.ok.injEq] at h
    subst h
    exact hoff
  | succ n ih =>
    intro i v v' h hr hslots hoff
    rw [slotLoop] at h
    simp only [Res.bind_eq, Res.pure_eq] at h
    obtain ⟨v1, hv1, h⟩ := Res.bind_eq_ok h
    obtain ⟨hmi, hrpo, hinv, hrd⟩ := aheadLoop_frame lim i _ _ _ _ hv1
    obtain ⟨slot, hslot, h⟩ := Res.bind_eq_ok h
    obtain ⟨hs1, hs2⟩ := slotAt_ok _ _ _ _ hslot
    rw [hmi] at hs1
    have hoff1 : offsetsWithin len v1.regex_data.match_offsets v1.regex_data.num_matches := by
      rw [hrd]; exact hoff
    have hnext : ∀ (s : regmatch_t) (j : Nat), i + 1 ≤ j →
        ((v1.match_iteration.set i s).getD j ⟨-1, -1⟩).rm_so ≠ -1 →
        0 ≤ ((v1.match_iteration.set i s).getD j ⟨-1, -1⟩).rm_so ∧
        ((v1.match_iteration.set i s).getD j ⟨-1, -1⟩).rm_so ≤
          ((v1.match_iteration.set i s).getD j ⟨-1, -1⟩).rm_eo ∧
        ((v1.match_iteration.set i s).getD j ⟨-1, -1⟩).rm_eo + v1.READ_POS_OFFSET
          ≤ (len : Int) := by
      intro s j hj
      rw [getD_set_ne _ _ _ _ _ (by omega), hmi, hrpo]
      exact hslots j (by omega)
    have hnext' : ∀ (j : Nat), i + 1 ≤ j →
        (v1.match_iteration.getD j ⟨-1, -1⟩).rm_so ≠ -1 →
        0 ≤ (v1.match_iteration.getD j ⟨-1, -1⟩).rm_so ∧
        (v1.match_iteration.getD j ⟨-1, -1⟩).rm_so ≤
          (v1.match_iteration.getD j ⟨-1, -1⟩).rm_eo ∧
        (v1.match_iteration.getD j ⟨-1, -1⟩).rm_eo + v1.READ_POS_OFFSET ≤ (len : Int) := by
      intro j hj
      rw [hmi, hrpo]
      exact hslots j (by omega)
    have hr1 : 0 ≤ v1.READ_POS_OFFSET := by rw [hrpo]; exact hr
    by_cases hbrk : slot.rm_so = -1 ∧ v1.BREAK = 1
    · rw [if_pos hbrk] at h
      simp only [Res.ok.injEq] at h
      subst h
      exact hoff1
    · rw [if_neg hbrk] at h
      by_cases hval : slot.rm_so ≠ -1
      · rw [if_pos hval] at h
        have hb := hslots i (Nat.le_refl i) (by rw [← hs1]; exact hval)
        rw [← hs1, ← hrpo] at hb
        have hshift : 0 ≤ (⟨slot.rm_so + v1.READ_POS_OFFSET,
              slot.rm_eo + v1.READ_POS_OFFSET⟩ : regmatch_t).rm_so ∧
            (⟨slot.rm_so + v1.READ_POS_OFFSET,
              slot.rm_eo + v1.READ_POS_OFFSET⟩ : regmatch_t).rm_so ≤
            (⟨slot.rm_so + v1.READ_POS_OFFSET,
              slot.rm_eo + v1.READ_POS_OFFSET⟩ : regmatch_t).rm_eo ∧
            (⟨slot.rm_so + v1.READ_POS_OFFSET,
              slot.rm_eo + v1.READ_POS_OFFSET⟩ : regmatch_t).rm_eo ≤ (len : Int) := by
          simp only
          omega
        split_ifs at h
        all_goals first
          | exact ih _ _ _ h hr1 (hnext _) (offsetsWithin_write len _ _ _ hoff1 hshift)
          | (simp only [Res.ok.injEq] at h
             subst h
             exact offsetsWithin_write_past len _ _ _ hoff1)
          | exact ih _ _ _ h hr1 (hnext _) hoff1
      · rw [if_neg hval] at h
        exact ih _ _ _ h hr1 hnext' hoff1

theorem aheadLoop_global_code (lim : Limits) (i : Nat) :
    ∀ (cnt j : Nat) (v v' : GlobalVars), aheadLoop lim i cnt j v = .ok v' →
      v'.return_code_global = v.return_code_global := by
  intro cnt
  induction cnt with
  | zero =>
    intro j v v' h
    simp only [aheadLoop, Res.ok.injEq] at h
    subst h
    rfl
  | succ n ih =>
    intro j v v' h
    rw [aheadLoop] at h
    simp only [Res.bind_eq, Res.pure_eq] at h
    obtain ⟨slot, hslot, h⟩ := Res.bind_eq_ok h
    split_ifs at h
    all_goals first
      | (simp only [Res.ok.injEq] at h; subst h; rfl)
      | (have hh := ih _ _ _ h; exact hh)

theorem slotLoop_global_code (lim : Limits) :
    ∀ (cnt i : Nat) (v v' : GlobalVars), slotLoop lim cnt i v = .ok v' →
      v'.return_code_global = v.return_code_global := by
  intro cnt
  induction cnt with
  | zero =>
    intro i v v' h
    simp only [slotLoop, Res.ok.injEq] at h
    subst h
    rfl
  | succ n ih =>
    intro i v v' h
    rw [slotLoop] at h
    simp only [Res.bind_eq, Res.pure_eq] at h
    obtain ⟨v1, hv1, h⟩ := Res.bind_eq_ok h
    have h1 := aheadLoop_global_code lim i _ _ _ _ hv1
    obtain ⟨slot, hslot, h⟩ := Res.bind_eq_ok h
    split_ifs at h
    all_goals first
      | (simp only [Res.ok.injEq] at h; subst h; exact h1)
      | (have hh := ih _ _ _ h; exact hh.trans h1)

/-- One iteration of the global loop keeps the recorded offsets inside the text. -/
theorem searchGlobalBody_offsets (lim : Limits) (text : CStr) (v v' : GlobalVars) (b : Bool)
    (hwf : slotsWellFormed v.regex_data.compiled_regex)
    (hrcl : v.regex_data.return_code = REGEX_ERROR → v.return_code_local ≠ REGEX_MATCH_SUCCESS)
    (hoff : offsetsWithin text.length v.regex_data.match_offsets v.regex_data.num_matches)
    (h : searchGlobalBody lim text v = .ok (b, v')) :
    slotsWellFormed v'.regex_data.compiled_regex ∧
    (v'.regex_data.return_code = REGEX_ERROR → v'.return_code_local ≠ REGEX_MATCH_SUCCESS) ∧
    offsetsWithin text.length v'.regex_data.match_offsets v'.regex_data.num_matches ∧
    (b = true → v'.return_code_local = REGEX_MATCH_SUCCESS →
      v'.return_code_global = REGEX_MATCH_SUCCESS) := by
  unfold searchGlobalBody at h
  simp only [Res.bind_eq, Res.pure_eq] at h
  by_cases hrc : v.regex_data.return_code = REGEX_ERROR
  · have hl := hrcl hrc
    simp only [hrc, ne_eq, not_true_eq_false, if_false, Res.bind_ok, hl] at h
    simp only [Res.ok.injEq, Prod.mk.injEq] at h
    obtain ⟨hb, hv⟩ := h
    subst hv
    exact ⟨hwf, hrcl, hoff, fun _ hs => absurd hs hl⟩
  · simp only [ne_eq, hrc, not_false_eq_true, if_true] at h
    by_cases hrange : v.READ_POS_OFFSET < 0 ∨ (text.length : Int) < v.READ_POS_OFFSET
    · simp [hrange] at h
    · simp only [hrange, if_false, Res.bind_ok] at h
      by_cases hs : (v.regex_data.compiled_regex.regexec
          (List.drop v.READ_POS_OFFSET.toNat text)).1 = REGEX_MATCH_SUCCESS
      · simp only [hs, if_true] at h
        obtain ⟨v3, hv3, h⟩ := Res.bind_eq_ok h
        obtain ⟨slot0, hslot0, h⟩ := Res.bind_eq_ok h
        obtain ⟨f1, f2, f3, f4, f5, f6⟩ := slotLoop_frame lim _ _ _ _ hv3
        have hg := slotLoop_global_code lim _ _ _ _ hv3
        simp only at f1 f2 f3 f4 f6 hg
        have hdl : ((List.drop v.READ_POS_OFFSET.toNat text).length : Int)
            = (text.length : Int) - v.READ_POS_OFFSET := by
          rw [List.length_drop]
          omega
        have hoff3 := slotLoop_offsets lim text.length _ _ _ _ hv3 (by simp only; omega)
          (by
            intro j _ hj
            have := hwf _ j hs hj
            simp only at hj ⊢
            rw [hdl] at this
            omega)
          hoff
        have hrc3 : v3.regex_data.return_code = REGEX_ERROR →
            v3.return_code_local ≠ REGEX_MATCH_SUCCESS := by
          intro he
          rcases f6 with f6 | f6
          · rw [f6] at he; exact absurd he hrc
          · rw [f6]; decide
        split_ifs at h
        all_goals
          simp only [Res.ok.injEq, Prod.mk.injEq] at h
          obtain ⟨hb, hv⟩ := h
          subst hv
          exact ⟨by simp only [f3]; exact hwf, hrc3, hoff3, fun _ _ => hg⟩
      · simp only [hs, if_false] at h
        simp only [Res.ok.injEq, Prod.mk.injEq] at h
        obtain ⟨hb, hv⟩ := h
        subst hv
        exact ⟨hwf, fun he => absurd he hrc, hoff, fun _ h0 => absurd h0 hs⟩

/-- The global loop keeps the recorded offsets inside the text; when it ends with
the local return code `REGEX_MATCH_SUCCESS`, the global one is set as well. -/
theorem searchGlobalLoop_offsets (lim : Limits) (text : CStr) :
    ∀ (fuel : Nat) (v v' : GlobalVars),
      slotsWellFormed v.regex_data.compiled_regex →
      (v.regex_data.return_code = REGEX_ERROR → v.return_code_local ≠ REGEX_MATCH_SUCCESS) →
      offsetsWithin text.length v.regex_data.match_offsets v.regex_data.num_matches →
      searchGlobalLoop lim text fuel v = .ok v' →
      offsetsWithin text.length v'.regex_data.match_offsets v'.regex_data.num_matches ∧
      (v'.return_code_local = REGEX_MATCH_SUCCESS →
        v'.return_code_global = REGEX_MATCH_SUCCESS) := by
  intro fuel
  induction fuel with
  | zero => intro v v' _ _ _ h; simp [searchGlobalLoop] at h
  | succ n ih =>
    intro v v' hwf hrcl hoff h
    rw [searchGlobalLoop] at h
    cases hb : searchGlobalBody lim text v with
    | fail f => rw [hb] at h; simp at h
    | ok p =>
      obtain ⟨b, w⟩ := p
      rw [hb] at h
      obtain ⟨a1, a2, a3, a4⟩ := searchGlobalBody_offsets lim text v w b hwf hrcl hoff hb
      cases b with
      | true =>
        simp only [Res.ok.injEq] at h
        subst h
        exact ⟨a3, a4 rfl⟩
      | false => exact ih w v' a1 a2 a3 h

/-- The function `_EXEC__GET_MATCHED_STRINGS` copies the offsets of the array
`match_offsets` into the records and slices the text between them. -/
theorem getMatchedStringsLoop_fields (text : CStr) (offs : List (Option regmatch_t)) :
    ∀ (cnt i : Nat) (m m' : List cregmatches_t),
      getMatchedStringsLoop text offs cnt i m = .ok m' →
      (∀ j, j < i → cellAt m' j = cellAt m j) ∧
      ∀ j, i ≤ j → j < i + cnt → ∃ off, offs.getD j none = some off ∧
        (cellAt m' j).start = some off.rm_so ∧ (cellAt m' j).end_ = some off.rm_eo ∧
        (cellAt m' j).string =
          some ((text.drop off.rm_so.toNat).take (off.rm_eo - off.rm_so).toNat) := by
  intro cnt
  induction cnt with
  | zero =>
    intro i m m' h
    simp only [getMatchedStringsLoop, Res.ok.injEq] at h
    subst h
    exact ⟨fun _ _ => rfl, fun j h1 h2 => absurd h2 (by omega)⟩
  | succ n ih =>
    intro i m m' h
    rw [getMatchedStringsLoop] at h
    cases ho : offs.getD i none with
    | none => rw [ho] at h; simp at h
    | some off =>
      rw [ho] at h
      simp only at h
      split_ifs at h
      obtain ⟨i1, i2⟩ := ih _ _ _ h
      constructor
      · intro j hj
        rw [i1 j (by omega), cellAt_cellUpdate, if_neg (by omega)]
      · intro j h1 h2
        by_cases hji : j = i
        · subst hji
          refine ⟨off, ho, ?_⟩
          rw [i1 j (by omega), cellAt_cellUpdate, if_pos rfl]
          exact ⟨rfl, rfl, rfl⟩
        · exact i2 j (by omega) (by omega)

/-- The records of a successful `regex_exec` on a freshly compiled pattern: each
holds offsets inside the text and the slice of the text between them. -/
theorem regex_exec_records (fuel : Nat) (lim : Limits) (text : CStr) (rd0 : compact_regex_t)
    (r : Int × compact_regex_t) (hwf : slotsWellFormed rd0.compiled_regex)
    (hn : rd0.num_matches = 0) (hx : regex_exec fuel lim text rd0 = .ok r)
    (hs : r.1 = REGEX_MATCH_SUCCESS) :
    ∀ i, i < r.2.num_matches → ∃ off : regmatch_t,
      0 ≤ off.rm_so ∧ off.rm_so ≤ off.rm_eo ∧ off.rm_eo ≤ (text.length : Int) ∧
      (cellAt r.2.matches_ i).start = some off.rm_so ∧
      (cellAt r.2.matches_ i).end_ = some off.rm_eo ∧
      (cellAt r.2.matches_ i).string =
        some ((text.drop off.rm_so.toNat).take (off.rm_eo - off.rm_so).toNat) := by
  unfold regex_exec at hx
  simp only [Res.bind_eq, Res.pure_eq] at hx
  obtain ⟨_, _, hx⟩ := Res.bind_eq_ok hx
  obtain ⟨m1, m2, m3, m4⟩ := checkMatchLimit_fields lim rd0
  rw [hn] at m1
  rw [← m3] at hwf
  generalize checkMatchLimit lim rd0 = rd1 at m1 m3 hwf hx
  have hfin : ∀ (rdA rdB : compact_regex_t),
      offsetsWithin text.length rdA.match_offsets rdA.num_matches →
      _EXEC__GET_MATCHED_STRINGS text rdA = .ok rdB →
      ∀ i, i < rdB.num_matches → ∃ off : regmatch_t,
        0 ≤ off.rm_so ∧ off.rm_so ≤ off.rm_eo ∧ off.rm_eo ≤ (text.length : Int) ∧
        (cellAt rdB.matches_ i).start = some off.rm_so ∧
        (cellAt rdB.matches_ i).end_ = some off.rm_eo ∧
        (cellAt rdB.matches_ i).string =
          some ((text.drop off.rm_so.toNat).take (off.rm_eo - off.rm_so).toNat) := by
    intro rdA rdB hoff hg i hi
    unfold _EXEC__GET_MATCHED_STRINGS at hg
    simp only [Res.bind_eq, Res.pure_eq] at hg
    obtain ⟨m, hm, hg⟩ := Res.bind_eq_ok hg
    simp only [Res.ok.injEq] at hg
    rw [← hg] at hi ⊢
    simp only at hi ⊢
    obtain ⟨_, g2⟩ := getMatchedStringsLoop_fields _ _ _ _ _ _ hm
    obtain ⟨off, o1, o2, o3, o4⟩ := g2 i (Nat.zero_le i) (by omega)
    obtain ⟨off', p1, p2, p3, p4⟩ := hoff i hi
    rw [o1] at p1
    simp only [Option.some.injEq] at p1
    subst p1
    exact ⟨off, p2, p3, p4, o2, o3, o4⟩
  split_ifs at hx with hc hg
  · -- local mode
    unfold _EXEC__SEARCH_LOCAL at hx
    simp only [Res.bind_eq, Res.pure_eq] at hx
    split_ifs at hx with hok
    · obtain ⟨rd2, hrd2, hx⟩ := Res.bind_eq_ok hx
      obtain ⟨rd3, hrd3, hx⟩ := Res.bind_eq_ok hx
      simp only [Res.ok.injEq] at hx
      have hoff2 := searchLocalLoop_offsets lim _ 1 text.length
        (fun j hj => hwf text j hok hj) _ _ _ _ hrd2
        (by intro i hi; simp only at hi; omega)
      have := hfin rd2 rd3 hoff2 hrd3
      rw [← hx]
      exact this
    · simp only [Res.ok.injEq] at hx
      rw [← hx] at hs
      exact absurd hs hok
  · -- global mode
    unfold _EXEC__SEARCH_GLOBAL at hx
    simp only [Res.bind_eq, Res.pure_eq] at hx
    obtain ⟨v, hv, hx⟩ := Res.bind_eq_ok hx
    obtain ⟨g1, g2⟩ := searchGlobalLoop_offsets lim text fuel _ v
      (by simp only [searchGlobalInit]; exact hwf)
      (by
        intro he
        simp only [searchGlobalInit] at he ⊢
        decide)
      (by intro i hi; simp only [searchGlobalInit] at hi; omega)
      hv
    split_ifs at hx with hcond
    · obtain ⟨rd3, hrd3, hx⟩ := Res.bind_eq_ok hx
      simp only [Res.ok.injEq] at hx
      have := hfin v.regex_data rd3 g1 hrd3
      rw [← hx]
      exact this
    · simp only [Res.ok.injEq] at hx
      rw [← hx] at hs
      simp only at hs
      exfalso
      apply hcond
      exact ⟨by rw [hs]; decide, g2 hs⟩
  · simp only [Res.ok.injEq] at hx
    rw [← hx] at hs
    have hs' : (-1 : Int) = REGEX_MATCH_SUCCESS := hs
    exact absurd hs' (by decide)

/-! ## The capacity of the arrays of the global search -/

theorem bracketPass_cons (c : Char) (cls : CStr) (q : Option Char) (x : Char) (l : CStr)
    (h : ¬ (x = '\\' ∧ l.head? = some c)) :
    bracketPass c cls q (x :: l) = x :: bracketPass c cls (some x) l := by
  cases l with
  | nil => simp [bracketPass]
  | cons y r =>
    rw [bracketPass, if_neg]
    intro hh
    exact h ⟨hh.1, by simp [hh.2]⟩

theorem bracketPass_token (c : Char) (cls : CStr) (q : Option Char) (rest : CStr) :
    bracketPass c cls q ('\\' :: c :: rest) =
      if q = some '[' ∨ q = some '|' then cls ++ bracketPass c cls (lastOr q cls) rest
      else '[' :: cls ++ ']' :: bracketPass c cls (some ']') rest := by
  rw [bracketPass, if_pos ⟨rfl, rfl⟩]

theorem expandTokens_cons (T : Char → Option CStr) (p : Option Char) (x : Char) (l : CStr)
    (h : x ≠ '\\') : expandTokens T p (x :: l) = x :: expandTokens T (some x) l := by
  cases l with
  | nil => simp [expandTokens]
  | cons y r => rw [expandTokens, if_neg h]

theorem expandTokens_token (T : Char → Option CStr) (p : Option Char) (y : Char) (cl rest : CStr)
    (h : T y = some cl) :
    expandTokens T p ('\\' :: y :: rest) =
      (if p = some '[' ∨ p = some '|' then cl else '[' :: cl ++ [']']) ++
        expandTokens T (some y) rest := by
  rw [expandTokens, if_pos rfl, h]

theorem expandTokens_plain (T : Char → Option CStr) (p : Option Char) (y : Char) (rest : CStr)
    (h : T y = none) :
    expandTokens T p ('\\' :: y :: rest) = '\\' :: expandTokens T (some '\\') (y :: rest) := by
  rw [expandTokens, if_pos rfl, h]

theorem lastOr_cons (q : Option Char) (x : Char) (l : CStr) :
    lastOr q (x :: l) = lastOr (some x) l := by
  unfold lastOr
  cases l with
  | nil => simp
  | cons y r =>
    rw [List.getLast?_cons_cons, List.getLast?_eq_getLast _ (List.cons_ne_nil y r)]

theorem lastOr_append (q : Option Char) (a b : CStr) :
    lastOr q (a ++ b) = lastOr (lastOr q a) b := by
  induction a generalizing q with
  | nil => simp [lastOr]
  | cons x a ih => rw [List.cons_append, lastOr_cons, lastOr_cons, ih]

theorem lastOr_getLast (a b : CStr) : lastOr a.getLast? b = (a ++ b).getLast? := by
  unfold lastOr
  cases hb : b.getLast? with
  | none =>
    have : b = [] := List.getLast?_eq_none_iff.mp hb
    subst this
    simp
  | some l =>
    have hne : b ≠ [] := by
      intro h
      subst h
      simp at hb
    rw [List.getLast?_append_of_ne_nil _ hne, hb]

/-- When the search text `\c` does not occur, the pass changes nothing. -/
theorem bracketPass_absent (c : Char) (cls : CStr) :
    ∀ (hay : CStr) (q : Option Char), strstr hay ['\\', c] = none →
      bracketPass c cls q hay = hay := by
  intro hay
  induction hay with
  | nil => intro q _; rfl
  | cons h t ih =>
    intro q hs
    rw [strstr] at hs
    split_ifs at hs with hp
    have ht : strstr t ['\\', c] = none := by
      cases hst : strstr t ['\\', c] with
      | none => rfl
      | some k => rw [hst] at hs; simp at hs
    rw [bracketPass_cons, ih _ ht]
    intro hh
    apply hp
    cases t with
    | nil => simp at hh
    | cons y r =>
      simp only [List.head?_cons, Option.some.injEq] at hh
      simp [List.isPrefixOf, hh.1, hh.2]

/-- The pass up to and including the first occurrence of the search text. -/
theorem bracketPass_first (c : Char) (cls : CStr) :
    ∀ (hay : CStr) (q : Option Char) (k : Nat), strstr hay ['\\', c] = some k →
      k + 2 ≤ hay.length ∧
      hay.drop k = '\\' :: c :: hay.drop (k + 2) ∧
      bracketPass c cls q hay =
        hay.take k ++
          (if lastOr q (hay.take k) = some '[' ∨ lastOr q (hay.take k) = some '|' then
            cls ++ bracketPass c cls (lastOr (lastOr q (hay.take k)) cls) (hay.drop (k + 2))
          else '[' :: cls ++ ']' :: bracketPass c cls (some ']') (hay.drop (k + 2))) := by
  intro hay
  induction hay with
  | nil =>
    intro q k hs
    simp [strstr, List.isPrefixOf] at hs
  | cons h t ih =>
    intro q k hs
    rw [strstr] at hs
    split_ifs at hs with hp
    · simp only [Option.some.injEq] at hs
      subst hs
      cases t with
      | nil => simp [List.isPrefixOf] at hp
      | cons y r =>
        simp only [List.isPrefixOf, Bool.and_true, Bool.and_eq_true, beq_iff_eq] at hp
        obtain ⟨h1, h2⟩ := hp
        subst h1
        subst h2
        refine ⟨by simp, by simp, ?_⟩
        simp only [List.take_zero, List.nil_append, List.drop_succ_cons, List.drop_zero]
        rw [bracketPass_token]
        rfl
    · cases hst : strstr t ['\\', c] with
      | none => rw [hst] at hs; simp at hs
      | some k' =>
        rw [hst] at hs
        simp only [Option.map_some', Option.some.injEq] at hs
        subst hs
        obtain ⟨i1, i2, i3⟩ := ih (some h) k' hst
        refine ⟨by simp only [List.length_cons]; omega, by simpa using i2, ?_⟩
        rw [bracketPass_cons, i3]
        · simp only [List.take_succ_cons, List.cons_append, List.drop_succ_cons, lastOr_cons]
        · intro hh
          apply hp
          cases t with
          | nil => simp at hh
          | cons y r =>
            simp only [List.head?_cons, Option.some.injEq] at hh
            simp [List.isPrefixOf, hh.1, hh.2]

theorem inList_value (done todo : CStr) (k : Nat) (INL : Bool) (hk : k ≤ todo.length) :
    (if 1 ≠ 0 ∧ ((done.length : Int) + (k : Int)) = 0 then true
      else if 0 < ((done.length : Int) + (k : Int)) then
        (List.getD (done ++ todo) ((done.length : Int) + (k : Int) - 1).toNat ' ' != '[' &&
          List.getD (done ++ todo) ((done.length : Int) + (k : Int) - 1).toNat ' ' != '|')
      else INL) =
    !decide (lastOr done.getLast? (todo.take k) = some '[' ∨
      lastOr done.getLast? (todo.take k) = some '|') := by
  rw [lastOr_getLast]
  by_cases hz : (done.length : Int) + (k : Int) = 0
  · have h1 : done = [] := List.length_eq_zero.mp (by omega)
    have h2 : k = 0 := by omega
    subst h1
    subst h2
    simp
  · rw [if_neg (fun h => hz h.2), if_pos (by omega)]
    have hj : ((done.length : Int) + (k : Int) - 1).toNat = (done ++ todo.take k).length - 1 := by
      rw [List.length_append, List.length_take, Nat.min_eq_left hk]
      omega
    have hsplit : done ++ todo = (done ++ todo.take k) ++ todo.drop k := by
      rw [List.append_assoc, List.take_append_drop]
    have hne : (done ++ todo.take k).length ≠ 0 := by
      rw [List.length_append, List.length_take, Nat.min_eq_left hk]
      omega
    rw [hj, hsplit, List.getD_eq_getElem?_getD,
      List.getElem?_append_left (by omega), List.getLast?_eq_getElem?]
    generalize (done ++ todo.take k) = pre at hne ⊢
    have : pre.length - 1 < pre.length := by omega
    rw [List.getElem?_eq_getElem this]
    simp only [Option.getD_some, Option.some.injEq]
    generalize pre[pre.length - 1] = x
    by_cases h1 : x = '[' <;> by_cases h2 : x = '|' <;> simp [h1, h2]

theorem substituteLoop_bracketPass (c : Char) (cls : CStr) :
    ∀ (fuel : Nat) (todo done : CStr) (index : Int) (INL : Bool),
      todo.length < fuel →
      ((index = -1 ∧ done = []) ∨
        (index ≠ -1 ∧ index + (cls.length : Int) = (done.length : Int))) →
      substituteLoop ['\\', c] cls REPLACE_GLOBAL 0 fuel (done ++ todo) index 1 INL
        = .ok (done ++ bracketPass c cls done.getLast? todo) := by
  intro fuel
  induction fuel with
  | zero => intro todo done index INL h; omega
  | succ n ih =>
    intro todo done index INL hfuel hinv
    have hidx : (if index = -1 then (0 : Int) else index + (cls.length : Int))
        = (done.length : Int) := by
      rcases hinv with ⟨h1, h2⟩ | ⟨h1, h2⟩
      · rw [if_pos h1, h2]; rfl
      · rw [if_neg h1, h2]
    rw [substituteLoop]
    simp only [hidx]
    have hr : ¬ ((done.length : Int) < 0 ∨ ((done ++ todo).length : Int) < (done.length : Int)) := by
      rw [List.length_append]
      omega
    rw [if_neg hr]
    have hd : (done ++ todo).drop (done.length : Int).toNat = todo := by
      rw [Int.toNat_ofNat, List.drop_left]
    rw [hd]
    cases hst : strstr todo ['\\', c] with
    | none =>
      simp only
      rw [bracketPass_absent c cls todo _ hst]
    | some k =>
      obtain ⟨i1, i2, i3⟩ := bracketPass_first c cls todo done.getLast? k hst
      have hk : k ≤ todo.length := by omega
      have htake : List.take ((done.length : Int) + (k : Int)).toNat (done ++ todo)
          = done ++ todo.take k := by
        have : ((done.length : Int) + (k : Int)).toNat = done.length + k := by omega
        rw [this, List.take_append]
      have hdrop : List.drop ((done.length : Int) + (k : Int) + 2).toNat (done ++ todo)
          = todo.drop (k + 2) := by
        have : ((done.length : Int) + (k : Int) + 2).toNat = done.length + (k + 2) := by omega
        rw [this, List.drop_append]
      have hlen : (todo.drop (k + 2)).length < n := by
        rw [List.length_drop]
        omega
      have hglob : ¬ (REPLACE_GLOBAL ≠ REPLACE_GLOBAL) := by simp
      simp only [Int.toNat_ofNat, inList_value done todo k INL hk, List.length_cons,
        List.length_nil, List.length_append, hglob, if_false]
      rw [i3]
      have h2 : ((0 + 1 + 1 : Nat) : Int) = 2 := rfl
      have hn12 : ¬ ((1 : Nat) = 2) := by decide
      have hcond : ¬ ((done.length : Int) + (k : Int) + 2 < 0 ∨
          ((done.length + todo.length : Nat) : Int) < (done.length : Int) + (k : Int) + 2) := by
        push_cast
        omega
      by_cases hin : lastOr done.getLast? (todo.take k) = some '[' ∨
          lastOr done.getLast? (todo.take k) = some '|'
      · simp only [hin, decide_True, Bool.not_true, Bool.false_eq_true, and_false, if_false,
          if_true, hn12, h2, hcond, htake, hdrop]
        rw [ih (todo.drop (k + 2)) (done ++ todo.take k ++ cls) _ _ hlen
          (Or.inr ⟨by omega, by
            simp only [List.length_append, List.length_take, Nat.min_eq_left hk]
            push_cast
            omega⟩)]
        rw [lastOr_getLast, lastOr_getLast]
        simp only [List.append_assoc]
      · simp only [hin, decide_False, Bool.not_false, and_self, if_true, h2, htake]
        have hsub : (done.length : Int) + (k : Int) + 1 - 1 = (done.length : Int) + (k : Int) := by
          omega
        simp only [hsub, hcond, if_false, hdrop]
        rw [ih (todo.drop (k + 2)) (done ++ todo.take k ++ ['['] ++ cls ++ [']']) _ _ hlen
          (Or.inr ⟨by omega, by
            simp only [List.length_append, List.length_take, Nat.min_eq_left hk,
              List.length_cons, List.length_nil]
            push_cast
            omega⟩)]
        have hl : (done ++ todo.take k ++ ['['] ++ cls ++ [']']).getLast? = some ']' :=
          List.getLast?_concat _
        rw [hl]
        simp only [List.append_assoc, List.cons_append, List.nil_append]

/-- A call of `__SUBSTITUTE_STRING` in bracket mode and global scope for a search
text `\c` is the scan `bracketPass`. -/
theorem substitute_bracketPass (lim : Limits) (s : CStr) (c : Char) (cls : CStr)
    (hs : s.length ≤ lim.MAX_TEXT_LENGTH) :
    __SUBSTITUTE_STRING lim s ['\\', c] cls REPLACE_SET_BRACKETS REPLACE_GLOBAL 0
      = .ok (bracketPass c cls none s) := by
  unfold __SUBSTITUTE_STRING
  rw [if_pos (by omega)]
  exact substituteLoop_bracketPass c cls (s.length + 1) s [] (-1) false (by omega)
    (Or.inl ⟨rfl, rfl⟩)

/-! ## The passes of `_COMPILE__CONVERT_SEQUENCES` one after the other -/

theorem bracketPass_skip (c : Char) (cls : CStr) :
    ∀ (E : CStr), '\\' ∉ E → ∀ (q : Option Char) (l : CStr),
      bracketPass c cls q (E ++ l) = E ++ bracketPass c cls (lastOr q E) l := by
  intro E
  induction E with
  | nil => intro _ q l; rfl
  | cons e E ih =>
    intro hE q l
    have he : e ≠ '\\' := fun h => hE (by rw [h]; exact List.mem_cons_self _ _)
    rw [List.cons_append, bracketPass_cons _ _ _ _ _ (fun hh => he hh.1),
      ih (fun h => hE (List.mem_cons_of_mem _ h)), lastOr_cons, List.cons_append]

theorem expandTokens_head (T : Char → Option CStr) (c y : Char) (rest : CStr)
    (hy : y ≠ c) (hc2 : c ≠ '[') :
    (expandTokens T (some '\\') (y :: rest)).head? ≠ some c := by
  by_cases hyb : y = '\\'
  · subst hyb
    cases rest with
    | nil =>
      simp only [expandTokens, List.head?_cons, ne_eq, Option.some.injEq]
      exact hy
    | cons z r =>
      cases hT : T z with
      | none =>
        rw [expandTokens_plain T _ z r hT]
        simp only [List.head?_cons, ne_eq, Option.some.injEq]
        exact hy
      | some cl =>
        rw [expandTokens_token T _ z cl r hT]
        have hp : ¬ ((some '\\' : Option Char) = some '[' ∨
            (some '\\' : Option Char) = some '|') := by decide
        rw [if_neg hp]
        simp only [List.cons_append, List.head?_cons, ne_eq, Option.some.injEq]
        exact fun h => hc2 h.symm
  · rw [expandTokens_cons T _ y rest hyb]
    simp only [List.head?_cons, ne_eq, Option.some.injEq]
    exact hy

theorem withClass_same (T : Char → Option CStr) (c : Char) (cls : String) :
    withClass T c cls c = some cls.toList := by
  simp [withClass]

theorem withClass_other (T : Char → Option CStr) (c : Char) (cls : String) (y : Char)
    (h : y ≠ c) : withClass T c cls y = T y := by
  simp [withClass, h]

/-- A pass for a further token after the tokens of the table `T` were expanded
gives the expansion for the extended table. -/
theorem bracketPass_expandTokens (T : Char → Option CStr) (c : Char) (cls : String)
    (hT : goodTable T) (hc : T c = none) (hc1 : c ≠ '\\') (hc2 : c ≠ '[') (hc3 : c ≠ '|')
    (hcls : cls.toList ≠ [] ∧ cls.toList.getLast? ≠ some '[' ∧ cls.toList.getLast? ≠ some '|') :
    ∀ (n : Nat) (s : CStr) (p q : Option Char), s.length ≤ n →
      ((p = some '[' ∨ p = some '|') ↔ (q = some '[' ∨ q = some '|')) →
      bracketPass c cls.toList q (expandTokens T p s) = expandTokens (withClass T c cls) p s := by
  have hlast : ∀ (q : Option Char) (E : CStr), E ≠ [] → lastOr q E = E.getLast? := by
    intro q E hE
    unfold lastOr
    rw [List.getLast?_eq_getLast _ hE]
  intro n
  induction n with
  | zero =>
    intro s p q hs _
    have : s = [] := List.length_eq_zero.mp (by omega)
    subst this
    rfl
  | succ n ih =>
    intro s p q hs hR
    match s, hs with
    | [], _ => rfl
    | [x], _ => simp [expandTokens, bracketPass]
    | x :: y :: rest, hs =>
      simp only [List.length_cons] at hs
      by_cases hx : x = '\\'
      · subst hx
        cases hTy : T y with
        | none =>
          by_cases hy : y = c
          · subst hy
            rw [expandTokens_plain T p y rest hTy, expandTokens_cons T _ y rest hc1,
              bracketPass_token, expandTokens_token _ p y cls.toList rest (withClass_same T y cls)]
            have hR' : ((some y : Option Char) = some '[' ∨ (some y : Option Char) = some '|') ↔
                (lastOr q cls.toList = some '[' ∨ lastOr q cls.toList = some '|') := by
              rw [hlast q _ hcls.1]
              constructor
              · intro h
                rcases h with h | h
                · exact absurd (Option.some.inj h) hc2
                · exact absurd (Option.some.inj h) hc3
              · intro h
                rcases h with h | h
                · exact absurd h hcls.2.1
                · exact absurd h hcls.2.2
            have hR'' : ((some y : Option Char) = some '[' ∨ (some y : Option Char) = some '|') ↔
                ((some ']' : Option Char) = some '[' ∨ (some ']' : Option Char) = some '|') := by
              constructor
              · intro h
                rcases h with h | h
                · exact absurd (Option.some.inj h) hc2
                · exact absurd (Option.some.inj h) hc3
              · intro h
                exact absurd h (by decide)
            by_cases hp : p = some '[' ∨ p = some '|'
            · rw [if_pos hp, if_pos (hR.mp hp), ih rest _ _ (by omega) hR']
            · rw [if_neg hp, if_neg (fun h => hp (hR.mpr h)), ih rest _ _ (by omega) hR'']
              simp only [List.cons_append, List.append_assoc, List.nil_append]
          · rw [expandTokens_plain T p y rest hTy,
              bracketPass_cons _ _ _ _ _ (fun hh => expandTokens_head T c y rest hy hc2 hh.2),
              ih (y :: rest) _ _ (by simp only [List.length_cons]; omega) Iff.rfl,
              expandTokens_plain _ p y rest (by rw [withClass_other T c cls y hy]; exact hTy)]
        | some cl =>
          have hyc : y ≠ c := by
            intro h
            rw [h, hc] at hTy
            exact absurd hTy (by simp)
          obtain ⟨g1, g2, g3, g4, g5, g6, g7, g8⟩ := hT y cl hTy
          rw [expandTokens_token T p y cl rest hTy,
            expandTokens_token _ p y cl rest (by rw [withClass_other T c cls y hyc]; exact hTy)]
          by_cases hp : p = some '[' ∨ p = some '|'
          · rw [if_pos hp, bracketPass_skip _ _ cl g5, ih rest _ _ (by omega)]
            rw [hlast q _ g4]
            constructor
            · intro h
              rcases h with h | h
              · exact absurd (Option.some.inj h) g2
              · exact absurd (Option.some.inj h) g3
            · intro h
              rcases h with h | h
              · exact absurd h g6
              · exact absurd h g7
          · rw [if_neg hp]
            have hfree : '\\' ∉ '[' :: cl ++ [']'] := by
              simp only [List.cons_append, List.mem_cons, List.mem_append, List.mem_singleton,
                List.not_mem_nil, or_false, not_or]
              exact ⟨by decide, g5, by decide⟩
            rw [bracketPass_skip _ _ _ hfree, ih rest _ _ (by omega)]
            have : lastOr q ('[' :: cl ++ [']']) = some ']' := by
              rw [hlast q _ (by simp)]
              exact List.getLast?_concat _
            rw [this]
            constructor
            · intro h
              rcases h with h | h
              · exact absurd (Option.some.inj h) g2
              · exact absurd (Option.some.inj h) g3
            · intro h
              exact absurd h (by decide)
      · rw [expandTokens_cons T p x _ hx, expandTokens_cons _ p x _ hx,
          bracketPass_cons _ _ _ _ _ (fun hh => hx hh.1),
          ih (y :: rest) _ _ (by simp only [List.length_cons]; omega) Iff.rfl]

theorem expandTokens_empty_table :
    ∀ (n : Nat) (s : CStr) (p : Option Char), s.length ≤ n →
      expandTokens (fun _ => none) p s = s := by
  intro n
  induction n with
  | zero =>
    intro s p hs
    have : s = [] := List.length_eq_zero.mp (by omega)
    subst this
    rfl
  | succ n ih =>
    intro s p hs
    match s, hs with
    | [], _ => rfl
    | [x], _ => rfl
    | x :: y :: rest, hs =>
      simp only [List.length_cons] at hs
      have hi := fun q => ih (y :: rest) q (by simp only [List.length_cons]; omega)
      by_cases hx : x = '\\'
      · subst hx
        rw [expandTokens_plain _ p y rest rfl, hi]
      · rw [expandTokens_cons _ p x _ hx, hi]

theorem expandTokens_length (T : Char → Option CStr) (hT : goodTable T) :
    ∀ (n : Nat) (s : CStr) (p : Option Char), s.length ≤ n →
      (expandTokens T p s).length ≤ 7 * s.length := by
  intro n
  induction n with
  | zero =>
    intro s p hs
    have : s = [] := List.length_eq_zero.mp (by omega)
    subst this
    simp [expandTokens]
  | succ n ih =>
    intro s p hs
    match s, hs with
    | [], _ => simp [expandTokens]
    | [x], _ => simp [expandTokens]
    | x :: y :: rest, hs =>
      simp only [List.length_cons] at hs ⊢
      by_cases hx : x = '\\'
      · subst hx
        cases hTy : T y with
        | none =>
          rw [expandTokens_plain T p y rest hTy]
          have := ih (y :: rest) (some '\\') (by simp only [List.length_cons]; omega)
          simp only [List.length_cons] at this ⊢
          omega
        | some cl =>
          obtain ⟨_, _, _, _, _, _, _, g8⟩ := hT y cl hTy
          rw [expandTokens_token T p y cl rest hTy]
          have := ih rest (some y) (by omega)
          rw [List.length_append]
          split_ifs
          · omega
          · simp only [List.length_cons, List.length_append, List.length_nil]
            omega
      · rw [expandTokens_cons T p x _ hx]
        have := ih (y :: rest) (some x) (by simp only [List.length_cons]; omega)
        simp only [List.length_cons] at this ⊢
        omega

theorem hasSeq_cons (b x : Char) (l : CStr) :
    hasSeq b (x :: l) = ((decide (x = '\\') && decide (l.head? = some b)) || hasSeq b l) := by
  cases l with
  | nil => simp [hasSeq]
  | cons y r =>
    rw [hasSeq]
    simp only [List.head?_cons, Option.some.injEq, beq_iff_eq]
    by_cases h1 : x = '\\' <;> by_cases h2 : y = b <;> simp [h1, h2]

theorem hasSeq_skip (b : Char) :
    ∀ (E l : CStr), '\\' ∉ E → hasSeq b (E ++ l) = hasSeq b l := by
  intro E
  induction E with
  | nil => intro l _; rfl
  | cons e E ih =>
    intro l hE
    have he : e ≠ '\\' := fun h => hE (by rw [h]; exact List.mem_cons_self _ _)
    rw [List.cons_append, hasSeq_cons, ih l (fun h => hE (List.mem_cons_of_mem _ h))]
    simp [he]

/-- Expanding tokens does not produce a backslash followed by `b` where the
pattern has none. -/
theorem hasSeq_expandTokens (T : Char → Option CStr) (b : Char) (hT : goodTable T)
    (hb1 : b ≠ '\\') (hb2 : b ≠ '[') :
    ∀ (n : Nat) (s : CStr) (p : Option Char), s.length ≤ n →
      hasSeq b s = false → hasSeq b (expandTokens T p s) = false := by
  intro n
  induction n with
  | zero =>
    intro s p hs _
    have : s = [] := List.length_eq_zero.mp (by omega)
    subst this
    rfl
  | succ n ih =>
    intro s p hs hseq
    match s, hs, hseq with
    | [], _, _ => rfl
    | [x], _, _ => rfl
    | x :: y :: rest, hs, hseq =>
      simp only [List.length_cons] at hs
      have hseq' := hseq
      rw [hasSeq_cons, Bool.or_eq_false_iff] at hseq'
      obtain ⟨s1, s2⟩ := hseq'
      by_cases hx : x = '\\'
      · subst hx
        have hyb : y ≠ b := by
          intro h
          subst h
          simp at s1
        cases hTy : T y with
        | none =>
          rw [expandTokens_plain T p y rest hTy, hasSeq_cons,
            ih (y :: rest) _ (by simp only [List.length_cons]; omega) s2]
          have := expandTokens_head T b y rest hyb hb2
          simp [this]
        | some cl =>
          obtain ⟨g1, g2, g3, g4, g5, g6, g7, g8⟩ := hT y cl hTy
          have hrest : hasSeq b rest = false := by
            cases rest with
            | nil => rfl
            | cons z r =>
              rw [hasSeq_cons, Bool.or_eq_false_iff] at s2
              exact s2.2
          rw [expandTokens_token T p y cl rest hTy]
          split_ifs
          · rw [hasSeq_skip b _ _ g5]
            exact ih rest _ (by omega) hrest
          · have hfree : '\\' ∉ '[' :: cl ++ [']'] := by
              simp only [List.cons_append, List.mem_cons, List.mem_append, List.mem_singleton,
                List.not_mem_nil, or_false, not_or]
              exact ⟨by decide, g5, by decide⟩
            rw [hasSeq_skip b _ _ hfree]
            exact ih rest _ (by omega) hrest
      · rw [expandTokens_cons T p x _ hx, hasSeq_cons,
          ih (y :: rest) _ (by simp only [List.length_cons]; omega) s2]
        simp [hx]

/-- A text without a backslash followed by `b` holds no search text that starts
with these two characters. -/
theorem strstr_of_hasSeq (b : Char) (more : CStr) :
    ∀ (s : CStr), hasSeq b s = false → strstr s ('\\' :: b :: more) = none := by
  intro s
  induction s with
  | nil => intro _; simp [strstr, List.isPrefixOf]
  | cons h t ih =>
    intro hseq
    rw [hasSeq_cons, Bool.or_eq_false_iff] at hseq
    obtain ⟨s1, s2⟩ := hseq
    rw [strstr, if_neg, ih s2]
    · rfl
    · intro hp
      cases t with
      | nil => simp [List.isPrefixOf] at hp
      | cons y r =>
        simp only [List.isPrefixOf, Bool.and_eq_true, beq_iff_eq] at hp
        obtain ⟨h1, h2, _⟩ := hp
        subst h1
        subst h2
        simp at s1

theorem foldlM_unchanged {α : Type} (f : CStr → α → Res CStr) (s : CStr) :
    ∀ (l : List α), (∀ i ∈ l, f s i = .ok s) → l.foldlM f s = .ok s := by
  intro l
  induction l with
  | nil => intro _; rfl
  | cons a l ih =>
    intro h
    rw [List.foldlM_cons]
    show Res.bind (f s a) _ = _
    rw [h a (List.mem_cons_self _ _), Res.bind_ok]
    exact ih (fun i hi => h i (List.mem_cons_of_mem _ hi))

theorem goodTable_empty : goodTable (fun _ => none) := by
  intro x cl h
  simp at h

theorem goodTable_withClass (T : Char → Option CStr) (c : Char) (cls : String)
    (hT : goodTable T)
    (h : c ≠ '\\' ∧ c ≠ '[' ∧ c ≠ '|' ∧ cls.toList ≠ [] ∧ '\\' ∉ cls.toList ∧
      cls.toList.getLast? ≠ some '[' ∧ cls.toList.getLast? ≠ some '|' ∧
      cls.toList.length ≤ 11) :
    goodTable (withClass T c cls) := by
  intro x cl hx
  unfold withClass at hx
  split_ifs at hx with hxc
  · simp only [Option.some.injEq] at hx
    subst hx
    subst hxc
    exact h
  · exact hT x cl hx

/-- The pass for the token `\c` on a pattern in which the tokens of the table `T`
are expanded. -/
theorem convert_step (lim : Limits) (T : Char → Option CStr) (c : Char) (cls : String)
    (pattern : CStr) (hT : goodTable T) (hc : T c = none)
    (h : c ≠ '\\' ∧ c ≠ '[' ∧ c ≠ '|' ∧ cls.toList ≠ [] ∧ '\\' ∉ cls.toList ∧
      cls.toList.getLast? ≠ some '[' ∧ cls.toList.getLast? ≠ some '|' ∧
      cls.toList.length ≤ 11)
    (hlen : 7 * pattern.length ≤ lim.MAX_TEXT_LENGTH) :
    __SUBSTITUTE_STRING lim (expandTokens T none pattern) ['\\', c] cls.toList
        REPLACE_SET_BRACKETS REPLACE_GLOBAL 0
      = .ok (expandTokens (withClass T c cls) none pattern) := by
  obtain ⟨h1, h2, h3, h4, h5, h6, h7, h8⟩ := h
  have hl := expandTokens_length T hT pattern.length pattern none (Nat.le_refl _)
  rw [substitute_bracketPass lim _ c cls.toList (by omega),
    bracketPass_expandTokens T c cls hT hc h1 h2 h3 ⟨h4, h6, h7⟩ pattern.length pattern none none
      (Nat.le_refl _) Iff.rfl]

/-- A pass whose search text starts with a backslash and a character that never
follows a backslash in the pattern changes nothing. -/
theorem convert_skip (lim : Limits) (T : Char → Option CStr) (b : Char) (more rep : CStr)
    (sb : Nat) (pattern : CStr) (hT : goodTable T) (hb1 : b ≠ '\\') (hb2 : b ≠ '[')
    (hseq : hasSeq b pattern = false)
    (hlen : 7 * pattern.length ≤ lim.MAX_TEXT_LENGTH) :
    __SUBSTITUTE_STRING lim (expandTokens T none pattern) ('\\' :: b :: more) rep
        sb REPLACE_GLOBAL 0
      = .ok (expandTokens T none pattern) := by
  have hl := expandTokens_length T hT pattern.length pattern none (Nat.le_refl _)
  exact substitute_absent lim _ _ rep sb REPLACE_GLOBAL (by omega)
    (strstr_of_hasSeq b more _
      (hasSeq_expandTokens T b hT hb1 hb2 pattern.length pattern none (Nat.le_refl _) hseq))

theorem shorthand_table_eq :
    withClass (withClass (withClass (withClass (withClass (withClass (withClass (withClass
      (fun _ => none) 'w' "A-Za-z0-9_") 'W' "^A-Za-z0-9_") 'a' "A-Za-z") 's' " ")
      'd' "0-9") 'D' "^0-9") 'l' "a-z") 'u' "A-Z" = shorthandClass := by
  funext x
  unfold withClass shorthandClass
  by_cases h1 : x = 'w'
  · subst h1; rfl
  by_cases h2 : x = 'W'
  · subst h2; rfl
  by_cases h3 : x = 'a'
  · subst h3; rfl
  by_cases h4 : x = 's'
  · subst h4; rfl
  by_cases h5 : x = 'd'
  · subst h5; rfl
  by_cases h6 : x = 'D'
  · subst h6; rfl
  by_cases h7 : x = 'l'
  · subst h7; rfl
  by_cases h8 : x = 'u'
  · subst h8; rfl
  simp only [h1, h2, h3, h4, h5, h6, h7, h8, if_false]

set_option maxRecDepth 1000000 in
/-- The case the amended C2 leaves out: with the template `X` and the matches `aa`
at [0,2), [2,4), [4,6) of `aaaaaa` the buffer is `XXaa` (length 4) when the third
record (start 4) is reached, the end-of-string test fires, and the result is
`XXaaX` instead of `XXX`. -/
theorem shorter_template_misfires (extra : Nat) :
    regex_replace (3 + extra) defaultLimits DEFAULT_REG_FLAGS
      (tableLib 0 6 [[⟨0, 2⟩], [⟨2, 4⟩], [⟨4, 6⟩]])
      "aaaaaa".toList "aa".toList "X".toList REG_GLOBAL = .ok "XXaaX".toList ∧
    replaceSpans "aaaaaa".toList "X".toList [(0, 2), (2, 4), (4, 6)] = "XXX".toList :=
  ⟨regex_replace_fuel_add _ _ _ _ _ _ _ 3 extra _ (by decide), by decide⟩

/-! ## The claims -/

set_option maxRecDepth 1000000 in
/-- C1 (scenario A): with the matcher reporting the whole matches `Black` at [3,8)
and `Brown` at [42,47), `regex_replace` with the template `Blue` and the flags
global + case-insensitive returns exactly
`Mr Blue is changing his 6 strings on his Blue guitar`; three iterations of the
global search loop suffice, and every larger bound gives the same result. -/
theorem scenario_A_replace (extra : Nat) :
    regex_replace (3 + extra) defaultLimits DEFAULT_REG_FLAGS
      (tableLib 0 54 [[⟨3, 8⟩], [⟨42, 47⟩]])
      "Mr Black is changing his 6 strings on his Brown guitar".toList
      "black|Brown".toList "Blue".toList (REG_GLOBAL ||| REG_ICASE)
    = .ok "Mr Blue is changing his 6 strings on his Blue guitar".toList :=
  regex_replace_fuel_add _ _ _ _ _ _ _ 3 extra _ (by decide)

/-- The first step of the loop of `regex_replace` on an end-of-string record. -/
theorem replaceLoop_append (lim : Limits) (rd : compact_regex_t) (template text : CStr)
    (n : Nat) (e : Int) (hs : (cellAt rd.matches_ 0).start = some (text.length : Int))
    (he : (cellAt rd.matches_ 0).end_ = some e) :
    replaceLoop lim rd template (n + 1) 0 0 text = .ok (text ++ template) := by
  rw [replaceLoop]
  simp only [hs, he, if_true]

/-- The first step of the loop of `regex_replace` on a start-of-string record. -/
theorem replaceLoop_prepend (lim : Limits) (rd : compact_regex_t) (template text : CStr)
    (n : Nat) (htext : text ≠ []) (hs : (cellAt rd.matches_ 0).start = some 0)
    (he : (cellAt rd.matches_ 0).end_ = some 0) :
    replaceLoop lim rd template (n + 1) 0 0 text = .ok (template ++ text) := by
  rw [replaceLoop]
  have hl : ¬ ((0 : Int) = (text.length : Int)) := by
    intro h
    have : text.length = 0 := by omega
    exact htext (List.length_eq_zero.mp this)
  simp only [hs, he, hl, if_false, and_self, if_true]

set_option maxRecDepth 1000000 in
/-- C4, as stated, fails on the empty text: `regex_replace` asserts that the input
text is not empty and ends the process, so for the text `""` and the pattern `$`
no bound on the search loop makes it return `"."`. -/
theorem anchor_empty_text_exits :
    ¬ ∃ fuel, regex_replace fuel defaultLimits DEFAULT_REG_FLAGS
      (tableLib 0 0 [[⟨0, 0⟩]]) [] "$".toList ".".toList REG_GLOBAL = .ok ".".toList := by
  rintro ⟨fuel, h⟩
  have e : regex_replace fuel defaultLimits DEFAULT_REG_FLAGS
      (tableLib 0 0 [[⟨0, 0⟩]]) [] "$".toList ".".toList REG_GLOBAL
      = .fail .exit_failure := rfl
  rw [e] at h
  cases h

/-- C4 (amended): for every non-empty text and non-empty template, when the first
record of the session is the end-of-string anchor match [len, len) the result of
`regex_replace` is the text followed by the template once, and when it is the
start-of-string anchor match [0, 0) the result is the template followed by the
text once. -/
theorem regex_replace_anchor (fuel : Nat) (lim : Limits) (defaults : List Nat) (lib : RegLib)
    (text pattern template : CStr) (flags : Nat)
    (htpl : template ≠ []) (s : Int)
    (h : ∃ rd, regex_match fuel lim defaults lib text pattern flags = .ok rd ∧
      0 < rd.num_matches ∧ (cellAt rd.matches_ 0).start = some s ∧
      (cellAt rd.matches_ 0).end_ = some s) :
    (s = (text.length : Int) →
      regex_replace fuel lim defaults lib text pattern template flags = .ok (text ++ template)) ∧
    (s = 0 →
      regex_replace fuel lim defaults lib text pattern template flags = .ok (template ++ text)) := by
  obtain ⟨rd, hm, hn, hs, he⟩ := h
  obtain ⟨htext, rd0, r, hc, hok, hx, hr⟩ := regex_match_session _ _ _ _ _ _ _ _ hm hn
  have hrw := regex_replace_eq_loop fuel lim defaults lib text pattern template flags rd0 r
    htext htpl hc hok hx
  rw [hrw, hr]
  obtain ⟨n, hn'⟩ : ∃ n, rd.num_matches = n + 1 := ⟨rd.num_matches - 1, by omega⟩
  rw [hn']
  constructor
  · intro hlen
    rw [hlen] at hs
    exact replaceLoop_append lim rd template text n _ hs he
  · intro h0
    rw [h0] at hs he
    exact replaceLoop_prepend lim rd template text n htext hs he

set_option maxRecDepth 1000000 in
/-- C4 (amended) at the text `abc`: the pattern `$` with the template `.` gives
`abc.` (the matcher reports the empty match at [3, 3)), and the pattern `^` with
the template `PREFIX ` gives `PREFIX abc` (the matcher reports [0, 0)). -/
theorem regex_replace_anchor_witness :
    regex_replace 1 defaultLimits DEFAULT_REG_FLAGS (tableLib 0 3 [[⟨3, 3⟩]])
      "abc".toList "$".toList ".".toList REG_GLOBAL = .ok "abc.".toList ∧
    regex_replace 1 defaultLimits DEFAULT_REG_FLAGS (tableLib 0 3 [[⟨0, 0⟩]])
      "abc".toList "^".toList "PREFIX ".toList REG_GLOBAL = .ok "PREFIX abc".toList :=
  ⟨(regex_replace_anchor 1 defaultLimits DEFAULT_REG_FLAGS (tableLib 0 3 [[⟨3, 3⟩]])
      "abc".toList "$".toList ".".toList REG_GLOBAL (by decide) 3
      ⟨_, rfl, by decide, by decide, by decide⟩).1 rfl,
   (regex_replace_anchor 1 defaultLimits DEFAULT_REG_FLAGS (tableLib 0 3 [[⟨0, 0⟩]])
      "abc".toList "^".toList "PREFIX ".toList REG_GLOBAL (by decide) 0
      ⟨_, rfl, by decide, by decide, by decide⟩).2 rfl⟩

set_option maxRecDepth 1000000 in
/-- C5, as stated, fails for the empty template: `regex_replace` asserts that the
template is not empty and ends the process, so with a matcher that finds nothing
in `abc` no bound on the search loop makes it return `abc`. -/
theorem no_match_empty_template_exits :
    ¬ ∃ fuel, regex_replace fuel defaultLimits DEFAULT_REG_FLAGS
      (tableLib 0 3 []) "abc".toList "x".toList [] REG_GLOBAL = .ok "abc".toList := by
  rintro ⟨fuel, h⟩
  have e : regex_replace fuel defaultLimits DEFAULT_REG_FLAGS
      (tableLib 0 3 []) "abc".toList "x".toList [] REG_GLOBAL = .fail .exit_failure := rfl
  rw [e] at h
  cases h

/-- C5 (amended): if the pattern compiles and `regexec` finds no match in the
non-empty input text, then for every non-empty template `regex_replace` returns
the input text; one iteration of the search loop suffices. -/
theorem regex_replace_no_match (lim : Limits) (defaults : List Nat) (lib : RegLib)
    (text pattern template : CStr) (flags extra : Nat)
    (htext : text ≠ []) (htpl : template ≠ [])
    (h : ∃ rd0, regex_compile lim defaults lib pattern flags = .ok rd0 ∧
      rd0.return_code = REGEX_COMP_SUCCESS ∧
      (rd0.compiled_regex.regexec text).1 ≠ REGEX_MATCH_SUCCESS) :
    regex_replace (1 + extra) lim defaults lib text pattern template flags = .ok text := by
  obtain ⟨rd0, hc, hok, hnm⟩ := h
  obtain ⟨r, hx, hn⟩ := regex_exec_no_match lim text rd0 extra htext hnm
  rw [regex_replace_eq_loop _ _ _ _ _ _ _ _ rd0 r htext htpl hc hok hx, hn,
    (regex_compile_fields _ _ _ _ _ _ hc).1]
  rfl

set_option maxRecDepth 1000000 in
/-- C5 (amended) at the text `abc`, the pattern `x` and the template `y`. -/
theorem regex_replace_no_match_witness :
    regex_replace 1 defaultLimits DEFAULT_REG_FLAGS (tableLib 0 3 [])
      "abc".toList "x".toList "y".toList REG_GLOBAL = .ok "abc".toList :=
  regex_replace_no_match defaultLimits DEFAULT_REG_FLAGS (tableLib 0 3 [])
    "abc".toList "x".toList "y".toList REG_GLOBAL 0 (by decide) (by decide)
    ⟨_, rfl, by decide, by decide⟩

set_option maxRecDepth 1000000 in
/-- C3: on the input `ab` with the pattern `(a)(b)` and the template `X` the code
returns `XX`, not `X`: after the whole match is replaced, the record of group 2
(start 1) passes the end-of-string test against the new buffer `X` and the
template is appended a second time. -/
theorem group_record_appends_again (extra : Nat) :
    regex_replace (1 + extra) defaultLimits DEFAULT_REG_FLAGS
      (tableLib 2 2 [[⟨0, 2⟩, ⟨0, 1⟩, ⟨1, 2⟩]])
      "ab".toList "(a)(b)".toList "X".toList REG_GLOBAL = .ok "XX".toList :=
  regex_replace_fuel_add _ _ _ _ _ _ _ 1 extra _ (by decide)

set_option maxRecDepth 1000000 in
/-- C6: on the input `xb` with the pattern `(a)?(b)` (group 1 does not take part,
group 2 is `b`) the template `<\2>` expands to `<>` and the result is `x<>`, not
`x<b>`; the text of group 2 is what the token `\1` yields. -/
theorem backreference_by_position (extra : Nat) :
    regex_replace (1 + extra) defaultLimits DEFAULT_REG_FLAGS
      (tableLib 2 2 [[⟨1, 2⟩, ⟨-1, -1⟩, ⟨1, 2⟩]])
      "xb".toList "(a)?(b)".toList "<\\2>".toList REG_GLOBAL = .ok "x<>".toList ∧
    regex_replace (1 + extra) defaultLimits DEFAULT_REG_FLAGS
      (tableLib 2 2 [[⟨1, 2⟩, ⟨-1, -1⟩, ⟨1, 2⟩]])
      "xb".toList "(a)?(b)".toList "<\\1>".toList REG_GLOBAL = .ok "x<b>".toList :=
  ⟨regex_replace_fuel_add _ _ _ _ _ _ _ 1 extra _ (by decide),
   regex_replace_fuel_add _ _ _ _ _ _ _ 1 extra _ (by decide)⟩

set_option maxRecDepth 1000000 in
/-- C7: with ten capture groups `a` .. `j` the template `\10` expands to `a0` (the
text of group 1 followed by the digit 0), not to `j`: on the input
`abcdefghij0123456789` the result is `a00123456789`. -/
theorem two_digit_token_reads_group_one (extra : Nat) :
    regex_replace (2 + extra) defaultLimits DEFAULT_REG_FLAGS
      (tableLib 10 20 [[⟨0, 10⟩, ⟨0, 1⟩, ⟨1, 2⟩, ⟨2, 3⟩, ⟨3, 4⟩, ⟨4, 5⟩, ⟨5, 6⟩, ⟨6, 7⟩,
        ⟨7, 8⟩, ⟨8, 9⟩, ⟨9, 10⟩]])
      "abcdefghij0123456789".toList "(a)(b)(c)(d)(e)(f)(g)(h)(i)(j)".toList
      "\\10".toList REG_GLOBAL = .ok "a00123456789".toList :=
  regex_replace_fuel_add _ _ _ _ _ _ _ 2 extra _ (by decide)

theorem regex_match_fuel_add (lim : Limits) (defaults : List Nat) (lib : RegLib)
    (text pattern : CStr) (flags fuel k : Nat) (rd : compact_regex_t)
    (h : regex_match fuel lim defaults lib text pattern flags = .ok rd) :
    regex_match (fuel + k) lim defaults lib text pattern flags = .ok rd := by
  unfold regex_match at h ⊢
  simp only [Res.bind_eq, Res.pure_eq] at h ⊢
  obtain ⟨u1, hu1, h⟩ := Res.bind_eq_ok h
  rw [hu1]
  simp only [Res.bind_ok] at h ⊢
  obtain ⟨u2, hu2, h⟩ := Res.bind_eq_ok h
  rw [hu2]
  simp only [Res.bind_ok] at h ⊢
  obtain ⟨rd0, hrd0, h⟩ := Res.bind_eq_ok h
  rw [hrd0]
  simp only [Res.bind_ok] at h ⊢
  split_ifs at h ⊢
  · obtain ⟨r, hr, h⟩ := Res.bind_eq_ok h
    rw [regex_exec_fuel_add lim text rd0 fuel k r hr]
    exact h
  · exact h
  · exact h

set_option maxRecDepth 1000000 in
/-- C8, as stated, fails: `_COMPILE__INIT_REGEX` adds every flag of the table
`DEFAULT_REG_FLAGS`, which holds `REG_GLOBAL`, so a pattern compiled with the flags
`REG_ICASE` alone (no `REG_GLOBAL`) is searched globally; on the text `aa` with
the pattern `a` the second record has the occurrence index 2. -/
theorem default_flags_force_global :
    REG_ICASE &&& REG_GLOBAL ≠ REG_GLOBAL ∧
    (regex_match 2 defaultLimits DEFAULT_REG_FLAGS (tableLib 0 2 [[⟨0, 1⟩], [⟨1, 2⟩]])
      "aa".toList "a".toList REG_ICASE).map sessionNumbers
      = .ok [(some 1, some 0), (some 2, some 0)] := by
  decide

/-- C8 (amended): when every entry of the table `DEFAULT_REG_FLAGS` is zero or a
flag other than `REG_GLOBAL`, a pattern compiled with option flags that do not
contain `REG_GLOBAL` has `flags.GLOBAL = 0`, `regex_exec` searches locally, and
every record of the session has the occurrence index 1. -/
theorem local_mode_single_occurrence (fuel : Nat) (lim : Limits) (defaults : List Nat)
    (lib : RegLib) (text pattern : CStr) (flags : Nat)
    (rd0 : compact_regex_t) (r : Int × compact_regex_t)
    (hd : ∀ d ∈ defaults, d ∈ [0, REG_EXTENDED, REG_ICASE, REG_NEWLINE, REG_NOSUB,
      REG_MULTILINE, REG_NOSUBEXP, REG_SUBEXP])
    (hf : flags &&& REG_GLOBAL ≠ REG_GLOBAL)
    (hc : regex_compile lim defaults lib pattern flags = .ok rd0)
    (hx : regex_exec fuel lim text rd0 = .ok r) :
    rd0.flags.GLOBAL = false ∧
    regex_exec fuel lim text rd0 = regex_exec 0 lim text rd0 ∧
    ∀ i, i < r.2.num_matches → (cellAt r.2.matches_ i).number_match = some 1 := by
  obtain ⟨hn0, hg⟩ := regex_compile_fields _ _ _ _ _ _ hc
  have hglobal : rd0.flags.GLOBAL = false := by
    rw [hg]
    exact decide_eq_false (addDefaultFlags_keeps_global defaults flags hd hf)
  obtain ⟨m1, m2, m3, m4⟩ := checkMatchLimit_fields lim rd0
  have hg1 : (checkMatchLimit lim rd0).flags.GLOBAL = false := by rw [m2]; exact hglobal
  refine ⟨hglobal, ?_, ?_⟩
  · unfold regex_exec
    simp only [hg1, if_true]
  · unfold regex_exec at hx
    simp only [Res.bind_eq, Res.pure_eq] at hx
    obtain ⟨_, _, hx⟩ := Res.bind_eq_ok hx
    rw [hn0] at m1
    generalize checkMatchLimit lim rd0 = rd1 at m1 hg1 hx
    simp only [hg1, if_true] at hx
    split_ifs at hx
    · unfold _EXEC__SEARCH_LOCAL at hx
      simp only [Res.bind_eq, Res.pure_eq] at hx
      split_ifs at hx
      · obtain ⟨rd2, hrd2, hx⟩ := Res.bind_eq_ok hx
        obtain ⟨rd3, hrd3, hx⟩ := Res.bind_eq_ok hx
        simp only [Res.ok.injEq] at hx
        have h2 := searchLocalLoop_numbers lim _ _ _ _ _ hrd2 (fun h => absurd h (by omega))
          (by simp only; omega) (fun j hj => absurd hj (by omega))
        unfold _EXEC__GET_MATCHED_STRINGS at hrd3
        simp only [Res.bind_eq, Res.pure_eq] at hrd3
        obtain ⟨m, hm, hrd3⟩ := Res.bind_eq_ok hrd3
        simp only [Res.ok.injEq] at hrd3
        have h3 := getMatchedStringsLoop_numbers _ _ _ _ _ _ hm
        rw [← hx, ← hrd3]
        intro i hi
        rw [(h3 i).1]
        exact h2 i hi
      · simp only [Res.ok.injEq] at hx
        rw [← hx]
        intro i hi
        simp only at hi
        omega
    · simp only [Res.ok.injEq] at hx
      rw [← hx]
      intro i hi
      simp only at hi
      omega

set_option maxRecDepth 1000000 in
/-- C8 (amended) at the table `{REG_EXTENDED, REG_NEWLINE, 0, ...}`, the option
flags `REG_ICASE`, the pattern `a` and the text `aa`: the session holds the one
record of the first occurrence. -/
theorem local_mode_single_occurrence_witness :
    ∃ rd0 r, regex_compile defaultLimits [REG_EXTENDED, REG_NEWLINE, 0, 0, 0, 0, 0]
        (tableLib 0 2 [[⟨0, 1⟩], [⟨1, 2⟩]]) "a".toList REG_ICASE = .ok rd0 ∧
      regex_exec 0 defaultLimits "aa".toList rd0 = .ok r ∧
      rd0.flags.GLOBAL = false ∧ r.2.num_matches = 1 ∧
      ∀ i, i < r.2.num_matches → (cellAt r.2.matches_ i).number_match = some 1 :=
  ⟨_, _, rfl, rfl, by decide, by decide,
    (local_mode_single_occurrence 0 defaultLimits [REG_EXTENDED, REG_NEWLINE, 0, 0, 0, 0, 0]
      (tableLib 0 2 [[⟨0, 1⟩], [⟨1, 2⟩]]) "aa".toList "a".toList REG_ICASE _ _
      (by decide) (by decide) rfl rfl).2.2⟩

set_option maxRecDepth 1000000 in
/-- C10: on the text `abd` with the pattern `(a)(b)(c)?(d)` (the matcher reports the
slots [0,3), [0,1), [1,2), none, [2,3)) the records of the session carry the
numbers (1,0), (1,1), (1,0), (1,0): the record of group 2 gets the submatch
index 0 after the record with the submatch index 1, so the sequence is not
sorted by (occurrence index, submatch index). -/
theorem session_records_unsorted (extra : Nat) :
    (regex_match (1 + extra) defaultLimits DEFAULT_REG_FLAGS
      (tableLib 4 3 [[⟨0, 3⟩, ⟨0, 1⟩, ⟨1, 2⟩, ⟨-1, -1⟩, ⟨2, 3⟩]])
      "abd".toList "(a)(b)(c)?(d)".toList REG_GLOBAL).map sessionNumbers
      = .ok [(some 1, some 0), (some 1, some 1), (some 1, some 0), (some 1, some 0)] ∧
    recordsSorted [(1, 0), (1, 1), (1, 0), (1, 0)] = false := by
  constructor
  · have h : ∃ rd, regex_match 1 defaultLimits DEFAULT_REG_FLAGS
        (tableLib 4 3 [[⟨0, 3⟩, ⟨0, 1⟩, ⟨1, 2⟩, ⟨-1, -1⟩, ⟨2, 3⟩]])
        "abd".toList "(a)(b)(c)?(d)".toList REG_GLOBAL = .ok rd ∧
        sessionNumbers rd =
          [(some 1, some 0), (some 1, some 1), (some 1, some 0), (some 1, some 0)] :=
      ⟨_, rfl, by decide⟩
    obtain ⟨rd, h1, h2⟩ := h
    rw [regex_match_fuel_add _ _ _ _ _ _ 1 extra rd h1]
    simp only [Res.map, h2]
  · decide

/-- C9: for every input text and every `regexec` that on success reports a whole
match with `0 ≤ rm_so ≤ rm_eo ≤ strlen` of the suffix it was given, the loop
`while (1)` of `_EXEC__SEARCH_GLOBAL` ends within `len(text) + 1` iterations for
every bound of at least that size: either it ends normally, and `regexec` was
called at most `len(text) + 1` times, or it ends in a read past the `pmatch`
array, which needs a pattern with `MAX_NUM_MATCHES` or more sub-expressions. It
never runs out of iterations, zero-width matches included. -/
theorem searchGlobal_terminates (lim : Limits) (text : CStr) (regex_data : compact_regex_t)
    (fuel : Nat) (hwf : regexecWellFormed regex_data.compiled_regex)
    (hfuel : text.length + 1 ≤ fuel) :
    (∃ v, searchGlobalLoop lim text fuel (searchGlobalInit regex_data) = .ok v ∧
      v.invocations ≤ text.length + 1) ∨
    (searchGlobalLoop lim text fuel (searchGlobalInit regex_data) = .fail .undefined_behaviour ∧
      lim.MAX_NUM_MATCHES ≤ regex_data.num_pattern_subexpr) := by
  have hinv : searchGlobalInv text (searchGlobalInit regex_data) := by
    refine ⟨by simp [searchGlobalInit], by simp [searchGlobalInit], hwf, ?_⟩
    intro _
    simp only [searchGlobalInit]
    decide
  have hf : ((text.length : Int) - (searchGlobalInit regex_data).READ_POS_OFFSET).toNat + 1
      ≤ fuel := by
    simp only [searchGlobalInit]
    omega
  obtain ⟨h1, h2⟩ := searchGlobalLoop_bound lim text fuel _ hinv hf
  cases hr : searchGlobalLoop lim text fuel (searchGlobalInit regex_data) with
  | ok v =>
    left
    refine ⟨v, rfl, ?_⟩
    have := h2 v hr
    simp only [searchGlobalInit] at this
    omega
  | fail f =>
    right
    obtain ⟨a1, a2⟩ := h1 f hr
    subst a1
    exact ⟨rfl, a2⟩

theorem caretRegex_wellFormed : regexecWellFormed caretRegex := by
  intro s _
  simp only [caretRegex, List.getD_cons_zero]
  omega

set_option maxRecDepth 1000000 in
/-- C9 at the text `abc` and the zero-width pattern `^`: with the bound 4 the loop
ends normally after one call of `regexec`. -/
theorem searchGlobal_terminates_witness :
    regexecWellFormed (compiledObject caretRegex "^".toList).compiled_regex ∧
    (((∃ v, searchGlobalLoop defaultLimits "abc".toList 4
        (searchGlobalInit (compiledObject caretRegex "^".toList)) = .ok v ∧
      v.invocations ≤ "abc".toList.length + 1) ∨
    (searchGlobalLoop defaultLimits "abc".toList 4
        (searchGlobalInit (compiledObject caretRegex "^".toList)) = .fail .undefined_behaviour ∧
      defaultLimits.MAX_NUM_MATCHES ≤ (compiledObject caretRegex "^".toList).num_pattern_subexpr))
    ∧ ∃ v, searchGlobalLoop defaultLimits "abc".toList 4
        (searchGlobalInit (compiledObject caretRegex "^".toList)) = .ok v ∧ v.invocations = 1) :=
  ⟨caretRegex_wellFormed,
    searchGlobal_terminates defaultLimits "abc".toList (compiledObject caretRegex "^".toList) 4
      caretRegex_wellFormed (by decide),
    ⟨_, rfl, by decide⟩⟩

/-! ## Records of an occurrence with a non-participating group -/

set_option maxRecDepth 1000000 in
/-- C11: on the text `ac` with the pattern `(a)(b)?(c)` (the matcher reports the
slots [0,2), [0,1), none, [1,2)) the session holds three records of the
occurrence 1 and all three carry the submatch index 0: the whole match and both
participating groups. The pairs (occurrence index, submatch index) of the session
are not distinct. -/
theorem optional_group_repeats_index_zero (extra : Nat) :
    (regex_match (1 + extra) defaultLimits DEFAULT_REG_FLAGS
      (tableLib 3 2 [[⟨0, 2⟩, ⟨0, 1⟩, ⟨-1, -1⟩, ⟨1, 2⟩]])
      "ac".toList "(a)(b)?(c)".toList REG_GLOBAL).map sessionNumbers
      = .ok [(some 1, some 0), (some 1, some 0), (some 1, some 0)] ∧
    (regex_match (1 + extra) defaultLimits DEFAULT_REG_FLAGS
      (tableLib 3 2 [[⟨0, 2⟩, ⟨0, 1⟩, ⟨-1, -1⟩, ⟨1, 2⟩]])
      "ac".toList "(a)(b)?(c)".toList REG_GLOBAL).map
        (fun rd => decide (sessionNumbers rd).Nodup) = .ok false := by
  have h : ∃ rd, regex_match 1 defaultLimits DEFAULT_REG_FLAGS
      (tableLib 3 2 [[⟨0, 2⟩, ⟨0, 1⟩, ⟨-1, -1⟩, ⟨1, 2⟩]])
      "ac".toList "(a)(b)?(c)".toList REG_GLOBAL = .ok rd ∧
      sessionNumbers rd = [(some 1, some 0), (some 1, some 0), (some 1, some 0)] :=
    ⟨_, rfl, by decide⟩
  obtain ⟨rd, h1, h2⟩ := h
  rw [regex_match_fuel_add _ _ _ _ _ _ 1 extra rd h1]
  refine ⟨by simp only [Res.map, h2], ?_⟩
  show Res.ok (decide (sessionNumbers rd).Nodup) = Res.ok false
  rw [h2]
  decide

set_option maxRecDepth 1000000 in
/-- C14: with `REG_NOSUBEXP`, on the text `ac` with the pattern `(a)(b)?(c)` (the
matcher reports the slots [0,2), [0,1), none, [1,2)) the session of the one whole
match holds three records: besides the whole match [0,2) the capture groups
[0,1) and [1,2) are recorded, each under the submatch index 0. -/
theorem nosubexp_records_groups (extra : Nat) :
    REG_GLOBAL + REG_NOSUBEXP &&& REG_NOSUBEXP = REG_NOSUBEXP ∧
    (regex_match (1 + extra) defaultLimits DEFAULT_REG_FLAGS
      (tableLib 3 2 [[⟨0, 2⟩, ⟨0, 1⟩, ⟨-1, -1⟩, ⟨1, 2⟩]])
      "ac".toList "(a)(b)?(c)".toList (REG_GLOBAL + REG_NOSUBEXP)).map sessionRecords
      = .ok [record 1 0 0 2 "ac", record 1 0 0 1 "a", record 1 0 1 2 "c"] := by
  refine ⟨by decide, ?_⟩
  have h : ∃ rd, regex_match 1 defaultLimits DEFAULT_REG_FLAGS
      (tableLib 3 2 [[⟨0, 2⟩, ⟨0, 1⟩, ⟨-1, -1⟩, ⟨1, 2⟩]])
      "ac".toList "(a)(b)?(c)".toList (REG_GLOBAL + REG_NOSUBEXP) = .ok rd ∧
      sessionRecords rd = [record 1 0 0 2 "ac", record 1 0 0 1 "a", record 1 0 1 2 "c"] :=
    ⟨_, rfl, by decide⟩
  obtain ⟨rd, h1, h2⟩ := h
  rw [regex_match_fuel_add _ _ _ _ _ _ 1 extra rd h1]
  simp only [Res.map, h2]

set_option maxRecDepth 1000000 in
/-- C15: in local mode (table `DEFAULT_REG_FLAGS` all zero, option flags
`REG_EXTENDED`) on the text `b` with the pattern `(a)|(b)` the matcher reports the
slots [0,1), none, [0,1); the loop of `_EXEC__SEARCH_LOCAL` leaves at the first
non-participating slot, so the session holds the record of the whole match only
and the participating slot 2 is not recorded. -/
theorem local_mode_drops_later_group (fuel : Nat) :
    ((tableRegexec 1 [[⟨0, 1⟩, ⟨-1, -1⟩, ⟨0, 1⟩]] "b".toList).2.getD 2 ⟨-1, -1⟩).rm_so ≠ -1 ∧
    (regex_match fuel defaultLimits [0, 0, 0, 0, 0, 0, 0]
      (tableLib 2 1 [[⟨0, 1⟩, ⟨-1, -1⟩, ⟨0, 1⟩]])
      "b".toList "(a)|(b)".toList REG_EXTENDED).map
        (fun rd => (rd.flags.GLOBAL, rd.flags.NOSUBEXP, rd.flags.SUBEXP, sessionRecords rd))
      = .ok (false, false, false, [record 1 0 0 1 "b"]) := by
  refine ⟨by decide, ?_⟩
  have h : ∃ rd, regex_match 0 defaultLimits [0, 0, 0, 0, 0, 0, 0]
      (tableLib 2 1 [[⟨0, 1⟩, ⟨-1, -1⟩, ⟨0, 1⟩]])
      "b".toList "(a)|(b)".toList REG_EXTENDED = .ok rd ∧
      (rd.flags.GLOBAL, rd.flags.NOSUBEXP, rd.flags.SUBEXP, sessionRecords rd) =
        (false, false, false, [record 1 0 0 1 "b"]) :=
    ⟨_, rfl, by decide⟩
  obtain ⟨rd, h1, h2⟩ := h
  have := regex_match_fuel_add _ _ _ _ _ _ 0 fuel rd h1
  rw [Nat.zero_add] at this
  rw [this]
  simp only [Res.map, h2]

set_option maxRecDepth 1000000 in
/-- C18: on the text `ab` with the pattern `a`, when the first call of `regexec`
reports the match [0,1) and the second call, on the rest of the text, fails with
`REG_ESPACE`, `regex_exec` returns `REGEX_MATCH_SUCCESS` and leaves the session
with `return_code = REGEX_COMP_SUCCESS`, the status `REGLIB_EXECUTED` and the one
record: the fault of the second call ends the search like a `REG_NOMATCH`. -/
theorem later_fault_reported_as_success (extra : Nat) :
    (tableRegexecFault REG_ESPACE 2 [[⟨0, 1⟩]] "b".toList).1 = REG_ESPACE ∧
    ((regex_compile defaultLimits DEFAULT_REG_FLAGS (faultLib REG_ESPACE 0 2 [[⟨0, 1⟩]])
        "a".toList REG_GLOBAL).bind (regex_exec (2 + extra) defaultLimits "ab".toList)).map
      (fun r => (r.1, r.2.return_code, r.2.reglib_status, sessionRecords r.2))
      = .ok (REGEX_MATCH_SUCCESS, REGEX_COMP_SUCCESS, REGLIB_EXECUTED,
          [record 1 0 0 1 "a"]) := by
  refine ⟨by decide, ?_⟩
  have h : ∃ rd0 r, regex_compile defaultLimits DEFAULT_REG_FLAGS
      (faultLib REG_ESPACE 0 2 [[⟨0, 1⟩]]) "a".toList REG_GLOBAL = .ok rd0 ∧
      regex_exec 2 defaultLimits "ab".toList rd0 = .ok r ∧
      (r.1, r.2.return_code, r.2.reglib_status, sessionRecords r.2) =
        (REGEX_MATCH_SUCCESS, REGEX_COMP_SUCCESS, REGLIB_EXECUTED,
          [record 1 0 0 1 "a"]) :=
    ⟨_, _, rfl, rfl, by decide⟩
  obtain ⟨rd0, r, h1, h2, h3⟩ := h
  rw [h1, Res.bind_ok, regex_exec_fuel_add _ _ _ 2 extra r h2]
  simp only [Res.map, h3]

set_option maxRecDepth 1000000 in
/-- C20: the pattern `[a\d]` is converted to `[a[0-9]]`: the token `\d` stands
inside a bracket expression but not directly after `[` or `|`, and
`__SUBSTITUTE_STRING` inspects only the byte before the token, so it adds a nested
bracket pair. -/
theorem token_inside_list_gets_nested_brackets :
    _COMPILE__CONVERT_SEQUENCES defaultLimits "[a\\d]".toList = .ok "[a[0-9]]".toList := by
  decide

theorem anyCharRegex_slots : slotsWellFormed anyCharRegex := by
  intro s j hs hj
  cases s with
  | nil => exact absurd hs (by decide)
  | cons c t =>
    simp only [anyCharRegex, List.length_cons] at hj ⊢
    match j with
    | 0 => simp only [List.getD_cons_zero]; omega
    | 1 => simp only [List.getD_cons_succ, List.getD_cons_zero]; omega
    | k + 2 => simp at hj

/-- C12: for every pattern compiled by `regex_compile` whose `regexec` reports, on
success, for each participating slot offsets with `0 ≤ rm_so ≤ rm_eo ≤ strlen` of
the string it was given (in the global search: the suffix of the text), every
record of a successful `regex_exec`, local or global, satisfies
`0 ≤ start ≤ end ≤ len(text)`: the offsets of the global search are offsets into
the whole text. -/
theorem records_within_text (fuel : Nat) (lim : Limits) (defaults : List Nat) (lib : RegLib)
    (text pattern : CStr) (flags : Nat) (rd0 : compact_regex_t) (r : Int × compact_regex_t)
    (hc : regex_compile lim defaults lib pattern flags = .ok rd0)
    (hwf : slotsWellFormed rd0.compiled_regex)
    (hx : regex_exec fuel lim text rd0 = .ok r) (hs : r.1 = REGEX_MATCH_SUCCESS) :
    ∀ i, i < r.2.num_matches → ∃ s e : Int,
      (cellAt r.2.matches_ i).start = some s ∧ (cellAt r.2.matches_ i).end_ = some e ∧
      0 ≤ s ∧ s ≤ e ∧ e ≤ (text.length : Int) := by
  intro i hi
  obtain ⟨off, h1, h2, h3, h4, h5, _⟩ :=
    regex_exec_records fuel lim text rd0 r hwf (regex_compile_fields _ _ _ _ _ _ hc).1 hx hs i hi
  exact ⟨off.rm_so, off.rm_eo, h4, h5, h1, h2, h3⟩

set_option maxRecDepth 1000000 in
/-- C12 at the text `ab` and the pattern `(.)` in global mode: the records of the
second occurrence carry the offsets [1,2) of the whole text, not the offsets
[0,1) that `regexec` reported for the suffix `b`. -/
theorem records_within_text_witness :
    ∃ rd0 r, regex_compile defaultLimits DEFAULT_REG_FLAGS anyCharLib "(.)".toList REG_GLOBAL
        = .ok rd0 ∧
      slotsWellFormed rd0.compiled_regex ∧
      regex_exec 2 defaultLimits "ab".toList rd0 = .ok r ∧ r.1 = REGEX_MATCH_SUCCESS ∧
      sessionRecords r.2 =
        [record 1 0 0 1 "a", record 1 1 0 1 "a", record 2 0 1 2 "b", record 2 1 1 2 "b"] ∧
      ∀ i, i < r.2.num_matches → ∃ s e : Int,
        (cellAt r.2.matches_ i).start = some s ∧ (cellAt r.2.matches_ i).end_ = some e ∧
        0 ≤ s ∧ s ≤ e ∧ e ≤ ("ab".toList.length : Int) :=
  ⟨_, _, rfl, by exact anyCharRegex_slots, rfl, by decide, by decide,
    records_within_text 2 defaultLimits DEFAULT_REG_FLAGS anyCharLib "ab".toList "(.)".toList
      REG_GLOBAL _ _ rfl (by exact anyCharRegex_slots) rfl (by decide)⟩

/-- C16: after a successful `regex_exec` on a pattern compiled by `regex_compile`
(with a `regexec` that reports offsets inside the string it was given), for every
record `i < num_matches` the field `string` holds the characters of the input
text from offset `start` up to but excluding offset `end`, and its length is
`end - start`. -/
theorem record_string_is_slice (fuel : Nat) (lim : Limits) (defaults : List Nat) (lib : RegLib)
    (text pattern : CStr) (flags : Nat) (rd0 : compact_regex_t) (r : Int × compact_regex_t)
    (hc : regex_compile lim defaults lib pattern flags = .ok rd0)
    (hwf : slotsWellFormed rd0.compiled_regex)
    (hx : regex_exec fuel lim text rd0 = .ok r) (hs : r.1 = REGEX_MATCH_SUCCESS) :
    ∀ i, i < r.2.num_matches → ∃ (s e : Int) (str : CStr),
      (cellAt r.2.matches_ i).start = some s ∧ (cellAt r.2.matches_ i).end_ = some e ∧
      (cellAt r.2.matches_ i).string = some str ∧
      str = (text.drop s.toNat).take (e.toNat - s.toNat) ∧
      (str.length : Int) = e - s := by
  intro i hi
  obtain ⟨off, h1, h2, h3, h4, h5, h6⟩ :=
    regex_exec_records fuel lim text rd0 r hwf (regex_compile_fields _ _ _ _ _ _ hc).1 hx hs i hi
  have hsub : (off.rm_eo - off.rm_so).toNat = off.rm_eo.toNat - off.rm_so.toNat := by omega
  refine ⟨off.rm_so, off.rm_eo, _, h4, h5, h6, by rw [hsub], ?_⟩
  rw [List.length_take, List.length_drop]
  omega

set_option maxRecDepth 1000000 in
/-- C16 at the text `xyz` and the pattern `(.)` in global mode: three occurrences,
each with the record of the whole match and of the group. -/
theorem record_string_is_slice_witness :
    ∃ rd0 r, regex_compile defaultLimits DEFAULT_REG_FLAGS anyCharLib "(.)".toList REG_GLOBAL
        = .ok rd0 ∧
      slotsWellFormed rd0.compiled_regex ∧
      regex_exec 3 defaultLimits "xyz".toList rd0 = .ok r ∧ r.1 = REGEX_MATCH_SUCCESS ∧
      r.2.num_matches = 6 ∧
      ∀ i, i < r.2.num_matches → ∃ (s e : Int) (str : CStr),
        (cellAt r.2.matches_ i).start = some s ∧ (cellAt r.2.matches_ i).end_ = some e ∧
        (cellAt r.2.matches_ i).string = some str ∧
        str = ("xyz".toList.drop s.toNat).take (e.toNat - s.toNat) ∧
        (str.length : Int) = e - s :=
  ⟨_, _, rfl, by exact anyCharRegex_slots, rfl, by decide, by decide,
    record_string_is_slice 3 defaultLimits DEFAULT_REG_FLAGS anyCharLib "xyz".toList "(.)".toList
      REG_GLOBAL _ _ rfl (by exact anyCharRegex_slots) rfl (by decide)⟩

theorem init_regex_return_code (defaults : List Nat) (pattern : CStr) (flags : Nat)
    (rd0 : compact_regex_t) (h : _COMPILE__INIT_REGEX defaults pattern flags = .ok rd0) :
    rd0.return_code = REGEX_INIT_SUCCESS := by
  unfold _COMPILE__INIT_REGEX at h
  simp only [Res.bind_eq, Res.pure_eq] at h
  obtain ⟨_, _, h⟩ := Res.bind_eq_ok h
  simp only [Res.ok.injEq] at h
  rw [← h]

/-- A pattern that `regex_compile` compiled without error has the status
`REGLIB_COMPILED`. -/
theorem regex_compile_status (lim : Limits) (defaults : List Nat) (lib : RegLib)
    (pattern : CStr) (flags : Nat) (rd : compact_regex_t)
    (h : regex_compile lim defaults lib pattern flags = .ok rd)
    (hrc : rd.return_code = REGEX_COMP_SUCCESS) : rd.reglib_status = REGLIB_COMPILED := by
  unfold regex_compile at h
  simp only [Res.bind_eq, Res.pure_eq] at h
  obtain ⟨rd0, hrd0, h⟩ := Res.bind_eq_ok h
  have hi := init_regex_return_code _ _ _ _ hrd0
  obtain ⟨_, _, h⟩ := Res.bind_eq_ok h
  split_ifs at h with h1
  · obtain ⟨rd2, hrd2, h⟩ := Res.bind_eq_ok h
    simp only [Res.ok.injEq] at h
    generalize rejectEmptyPattern pattern rd2 = x at h
    rw [← h] at hrc ⊢
    unfold setReglibStatus at hrc ⊢
    split_ifs at hrc ⊢ with a b
    · rfl
    · exact absurd hrc a
    · exact absurd hrc a
  · simp only [Res.ok.injEq] at h
    rw [← h] at hrc
    unfold checkPatternLimit at hrc h1
    split_ifs at hrc h1
    · have h' : REGEX_ERROR = REGEX_COMP_SUCCESS := hrc
      exact absurd h' (by decide)
    · exact absurd hi h1

/-- C17, as stated, fails at the empty input text: `regexec` (here for the pattern
`a`) reports `REG_NOMATCH` on it, but `regex_exec` ends the process in
`__ASSERT_PARAM` and yields no session. -/
theorem no_match_empty_text_exits :
    (tableRegexec 0 [] []).1 = REG_NOMATCH ∧
    (regex_compile defaultLimits DEFAULT_REG_FLAGS (tableLib 0 0 []) "a".toList REG_GLOBAL).bind
      (regex_exec 1 defaultLimits []) = .fail .exit_failure :=
  ⟨by decide, rfl⟩

/-- C17 (amended): for a non-empty input text, a pattern that `regex_compile`
compiled without error and `MAX_NUM_MATCHES ≤ 3200000`: when `regexec` reports
`REG_NOMATCH` on the text, `regex_exec` (with at least one iteration allowed for
the global loop) returns `REG_NOMATCH` and a session without records whose
`return_code` is still `REGEX_COMP_SUCCESS`, not `REGEX_ERROR`. -/
theorem regex_exec_no_match_session (lim : Limits) (defaults : List Nat) (lib : RegLib)
    (text pattern : CStr) (flags extra : Nat) (rd0 : compact_regex_t)
    (htext : text ≠ []) (hlim : lim.MAX_NUM_MATCHES ≤ 3200000)
    (hc : regex_compile lim defaults lib pattern flags = .ok rd0)
    (hrc : rd0.return_code = REGEX_COMP_SUCCESS)
    (hnm : (rd0.compiled_regex.regexec text).1 = REG_NOMATCH) :
    ∃ rd, regex_exec (1 + extra) lim text rd0 = .ok (REG_NOMATCH, rd) ∧
      rd.num_matches = 0 ∧ rd.return_code = REGEX_COMP_SUCCESS ∧
      rd.return_code ≠ REGEX_ERROR := by
  have hn0 := (regex_compile_fields _ _ _ _ _ _ hc).1
  have hst := regex_compile_status _ _ _ _ _ _ hc hrc
  have hne : (rd0.compiled_regex.regexec text).1 ≠ REGEX_MATCH_SUCCESS := by
    rw [hnm]; decide
  have hcm : checkMatchLimit lim rd0 = rd0 := by
    unfold checkMatchLimit
    rw [if_neg (by omega)]
  unfold regex_exec
  simp only [Res.bind_eq, Res.pure_eq, assertParam_ok text htext, Res.bind_ok, hcm]
  rw [if_pos ⟨hst, hrc⟩]
  have hrc' : rd0.return_code ≠ REGEX_ERROR := by rw [hrc]; decide
  split_ifs with hg
  · -- local mode
    unfold _EXEC__SEARCH_LOCAL
    simp only [Res.bind_eq, Res.pure_eq]
    rw [if_neg hne, hnm]
    exact ⟨_, rfl, hn0, hrc, hrc'⟩
  · -- global mode
    unfold _EXEC__SEARCH_GLOBAL
    have hloop : ∃ v, searchGlobalLoop lim text (1 + extra)
        (searchGlobalInit { rd0 with text := text }) = .ok v ∧
        v.return_code_global = -1 ∧ v.return_code_local = REG_NOMATCH ∧
        v.regex_data.num_matches = 0 ∧ v.regex_data.return_code = REGEX_COMP_SUCCESS := by
      rw [Nat.add_comm, searchGlobalLoop]
      unfold searchGlobalBody
      have h0 : (searchGlobalInit { rd0 with text := text }).regex_data.return_code
          ≠ REGEX_ERROR := hrc'
      simp only [Res.bind_eq, Res.pure_eq, ne_eq, h0, not_false_eq_true, if_true]
      simp only [searchGlobalInit, Int.toNat_zero, List.drop_zero]
      have hr : ¬ ((0 : Int) < 0 ∨ (text.length : Int) < 0) := by omega
      simp only [hr, if_false, Res.bind_ok, hne]
      exact ⟨_, rfl, rfl, hnm, hn0, hrc⟩
    obtain ⟨v, hv, hg1, hg2, hg3, hg4⟩ := hloop
    simp only [Res.bind_eq, Res.pure_eq, hv, Res.bind_ok]
    have hcond : ¬ (v.return_code_local ≠ REGEX_ERROR ∧
        v.return_code_global = REGEX_MATCH_SUCCESS) := by
      rw [hg1]
      intro hh
      exact absurd hh.2 (by decide)
    rw [if_neg hcond, hg2]
    exact ⟨_, rfl, hg3, hg4, by rw [hg4]; decide⟩

set_option maxRecDepth 1000000 in
/-- C17 (amended) at the text `xyz` and the pattern `a`, which does not occur. -/
theorem regex_exec_no_match_session_witness :
    ∃ rd0, "xyz".toList ≠ [] ∧ defaultLimits.MAX_NUM_MATCHES ≤ 3200000 ∧
      regex_compile defaultLimits DEFAULT_REG_FLAGS (tableLib 0 3 []) "a".toList REG_GLOBAL
        = .ok rd0 ∧
      rd0.return_code = REGEX_COMP_SUCCESS ∧
      (rd0.compiled_regex.regexec "xyz".toList).1 = REG_NOMATCH ∧
      ∃ rd, regex_exec (1 + 0) defaultLimits "xyz".toList rd0 = .ok (REG_NOMATCH, rd) ∧
        rd.num_matches = 0 ∧ rd.return_code = REGEX_COMP_SUCCESS ∧
        rd.return_code ≠ REGEX_ERROR :=
  ⟨_, by decide, by decide, rfl, by decide, by decide,
    regex_exec_no_match_session defaultLimits DEFAULT_REG_FLAGS (tableLib 0 3 []) "xyz".toList
      "a".toList REG_GLOBAL 0 _ (by decide) (by decide) rfl (by decide) (by decide)⟩

/-! ## The conversion of the shorthand tokens -/

set_option maxRecDepth 1000000 in
/-- C19, as stated, fails: `_COMPILE__CONVERT_SEQUENCES` does not leave the rest of
the pattern unchanged. In `\d\x41` the token `\d` becomes `[0-9]` and the rest
`\x41` is rewritten to `A` by the pass over the hexadecimal escapes. -/
theorem hex_escape_in_rest_is_rewritten :
    _COMPILE__CONVERT_SEQUENCES defaultLimits "\\d\\x41".toList = .ok "[0-9]A".toList := by
  decide

/-- C19 (amended): for every pattern in which no backslash is followed by `t`, `p`,
`r`, `n` or `x` and whose sevenfold length is at most `MAX_TEXT_LENGTH`,
`_COMPILE__CONVERT_SEQUENCES` returns the pattern with every token `\w \W \a \s
\d \D \l \u` replaced by its class, wrapped in one bracket pair unless the
character immediately before the token is `[` or `|` (then the bare class is
written), and with every other character unchanged. -/
theorem convert_sequences_expands (lim : Limits) (pattern : CStr)
    (hlen : 7 * pattern.length ≤ lim.MAX_TEXT_LENGTH)
    (hseq : noOtherSequences pattern = true) :
    _COMPILE__CONVERT_SEQUENCES lim pattern = .ok (expandShorthand pattern) := by
  unfold noOtherSequences at hseq
  simp only [Bool.and_eq_true, Bool.not_eq_true'] at hseq
  obtain ⟨⟨⟨⟨st, sp⟩, sr⟩, sn⟩, sx⟩ := hseq
  have g0 := goodTable_empty
  have e0 : expandTokens (fun _ => none) none pattern = pattern :=
    expandTokens_empty_table pattern.length pattern none (Nat.le_refl _)
  have g1 := goodTable_withClass _ 'w' "A-Za-z0-9_" g0 (by decide)
  have g2 := goodTable_withClass _ 'W' "^A-Za-z0-9_" g1 (by decide)
  have g3 := goodTable_withClass _ 'a' "A-Za-z" g2 (by decide)
  have g4 := goodTable_withClass _ 's' " " g3 (by decide)
  have g5 := goodTable_withClass _ 'd' "0-9" g4 (by decide)
  have g6 := goodTable_withClass _ 'D' "^0-9" g5 (by decide)
  have g7 := goodTable_withClass _ 'l' "a-z" g6 (by decide)
  have g8 := goodTable_withClass _ 'u' "A-Z" g7 (by decide)
  have h1 := convert_step lim _ 'w' "A-Za-z0-9_" pattern g0 rfl (by decide) hlen
  have h2 := convert_step lim _ 'W' "^A-Za-z0-9_" pattern g1 (by decide) (by decide) hlen
  have h3 := convert_step lim _ 'a' "A-Za-z" pattern g2 (by decide) (by decide) hlen
  have h4 := convert_step lim _ 's' " " pattern g3 (by decide) (by decide) hlen
  have k1 := convert_skip lim _ 't' [] "   ".toList REPLACE_SET_BRACKETS pattern g4
    (by decide) (by decide) st hlen
  have h5 := convert_step lim _ 'd' "0-9" pattern g4 (by decide) (by decide) hlen
  have h6 := convert_step lim _ 'D' "^0-9" pattern g5 (by decide) (by decide) hlen
  have h7 := convert_step lim _ 'l' "a-z" pattern g6 (by decide) (by decide) hlen
  have k2 := convert_skip lim _ 'p' [] "\\x20-\\x7E".toList REPLACE_SET_BRACKETS pattern g7
    (by decide) (by decide) sp hlen
  have h8 := convert_step lim _ 'u' "A-Z" pattern g7 (by decide) (by decide) hlen
  have k3 := convert_skip lim _ 'r' [] "\r".toList REPLACE_SET_BRACKETS pattern g8
    (by decide) (by decide) sr hlen
  have k4 := convert_skip lim _ 'n' [] ['\\', 'n'] REPLACE_SET_BRACKETS pattern g8
    (by decide) (by decide) sn hlen
  rw [e0] at h1
  unfold _COMPILE__CONVERT_SEQUENCES replace_substring_list
  simp only [List.foldlM_cons, List.foldlM_nil, Res.bind_eq, Res.pure_eq]
  have s1 : "\\w".toList = ['\\', 'w'] := rfl
  have s2 : "\\W".toList = ['\\', 'W'] := rfl
  have s3 : "\\a".toList = ['\\', 'a'] := rfl
  have s4 : "\\s".toList = ['\\', 's'] := rfl
  have s5 : "\\t".toList = ['\\', 't'] := rfl
  have s6 : "\\d".toList = ['\\', 'd'] := rfl
  have s7 : "\\D".toList = ['\\', 'D'] := rfl
  have s8 : "\\l".toList = ['\\', 'l'] := rfl
  have s9 : "\\p".toList = ['\\', 'p'] := rfl
  have s10 : "\\u".toList = ['\\', 'u'] := rfl
  have s11 : "\\r".toList = ['\\', 'r'] := rfl
  have s12 : "\\n".toList = ['\\', 'n'] := rfl
  rw [s1, h1, Res.bind_ok, s2, h2, Res.bind_ok, s3, h3, Res.bind_ok, s4, h4, Res.bind_ok,
    s5, k1, Res.bind_ok, s6, h5, Res.bind_ok, s7, h6, Res.bind_ok, s8, h7, Res.bind_ok,
    s9, k2, Res.bind_ok, s10, h8, Res.bind_ok, s11, k3, Res.bind_ok, s12, k4, Res.bind_ok,
    Res.bind_ok]
  rw [foldlM_unchanged _ _ _ (fun i _ => convert_skip lim _ 'x' (hexDigits i) [Char.ofNat i]
    REPLACE_NO_BRACKETS pattern g8 (by decide) (by decide) sx hlen)]
  rw [shorthand_table_eq]
  rfl

set_option maxRecDepth 1000000 in
/-- C19 (amended) at the pattern `^\w{5,10}$`, which becomes `^[A-Za-z0-9_]{5,10}$`. -/
theorem convert_sequences_expands_witness :
    7 * "^\\w{5,10}$".toList.length ≤ defaultLimits.MAX_TEXT_LENGTH ∧
    noOtherSequences "^\\w{5,10}$".toList = true ∧
    expandShorthand "^\\w{5,10}$".toList = "^[A-Za-z0-9_]{5,10}$".toList ∧
    _COMPILE__CONVERT_SEQUENCES defaultLimits "^\\w{5,10}$".toList
      = .ok (expandShorthand "^\\w{5,10}$".toList) :=
  ⟨by decide, by decide, by decide,
    convert_sequences_expands defaultLimits "^\\w{5,10}$".toList (by decide) (by decide)⟩

/-! ## The hexadecimal escapes and the remaining entries of the table -/

set_option maxRecDepth 1000000 in
/-- C21: `_COMPILE__CONVERT_SEQUENCES` leaves the escape `\x7E`, written with an
uppercase hexadecimal digit, as it is, while `\x7e` becomes the character `~`
(code 126): the search text of each pass is printed with `%x`, in lowercase. -/
theorem uppercase_hex_escape_stays :
    _COMPILE__CONVERT_SEQUENCES defaultLimits "\\x7E".toList = .ok "\\x7E".toList ∧
    _COMPILE__CONVERT_SEQUENCES defaultLimits "\\x7e".toList = .ok "~".toList ∧
    hexDigits 126 = "7e".toList := by
  decide

set_option maxRecDepth 1000000 in
/-- C22: the pattern `\p` is converted to `[\x20-\x7E]`: neither escape of the class
is expanded by the pass over the hexadecimal escapes, which starts at the code 33
(`\x20` is the code 32) and searches lowercase digits (`\x7e`, not `\x7E`); the
converted pattern still holds a backslash followed by `x`. -/
theorem printable_class_keeps_hex_escapes :
    _COMPILE__CONVERT_SEQUENCES defaultLimits "\\p".toList = .ok "[\\x20-\\x7E]".toList ∧
    hasSeq 'x' "[\\x20-\\x7E]".toList = true := by
  decide

set_option maxRecDepth 1000000 in
/-- C23: each of the twelve tokens of `replace_substring_list` is converted to a
bracket expression, and converting that result again gives the same text; in
particular `\d` becomes `[0-9]` and `[0-9]` stays `[0-9]`. -/
theorem convert_twice_same_on_tokens :
    replace_substring_list.map (fun p => _COMPILE__CONVERT_SEQUENCES defaultLimits p.1) =
      [.ok "[A-Za-z0-9_]".toList, .ok "[^A-Za-z0-9_]".toList, .ok "[A-Za-z]".toList,
       .ok "[ ]".toList, .ok "[   ]".toList, .ok "[0-9]".toList, .ok "[^0-9]".toList,
       .ok "[a-z]".toList, .ok "[\\x20-\\x7E]".toList, .ok "[A-Z]".toList,
       .ok "[\r]".toList, .ok "[\\n]".toList] ∧
    replace_substring_list.map (fun p =>
        (_COMPILE__CONVERT_SEQUENCES defaultLimits p.1).bind
          (_COMPILE__CONVERT_SEQUENCES defaultLimits)) =
      replace_substring_list.map (fun p => _COMPILE__CONVERT_SEQUENCES defaultLimits p.1) ∧
    _COMPILE__CONVERT_SEQUENCES defaultLimits "\\d".toList = .ok "[0-9]".toList ∧
    _COMPILE__CONVERT_SEQUENCES defaultLimits "[0-9]".toList = .ok "[0-9]".toList := by
  decide

set_option maxRecDepth 1000000 in
/-- C24: the pattern `\t` is converted to `[   ]`, a bracket expression of three
space characters: the tab character (code 9) is not a member. -/
theorem tab_token_lists_spaces_only :
    _COMPILE__CONVERT_SEQUENCES defaultLimits "\\t".toList = .ok "[   ]".toList ∧
    Char.ofNat 9 ∉ "[   ]".toList ∧
    replace_substring_list.lookup "\\t".toList = some "   ".toList := by
  decide

/-! ## `__SUBSTITUTE_STRING` at the edges of its domain -/

set_option maxRecDepth 1000000 in
/-- C28: with `MAX_TEXT_LENGTH = 4` the global substitution of `a` by `bb` in the
input `aaaa` (four characters, within the limit) returns the eight characters
`bbbbbbbb` and no error: the only length test of `__SUBSTITUTE_STRING` is the one
on the input. -/
theorem long_output_is_returned :
    __SUBSTITUTE_STRING { defaultLimits with MAX_TEXT_LENGTH := 4 } "aaaa".toList "a".toList
        "bb".toList REPLACE_NO_BRACKETS REPLACE_GLOBAL 0 = .ok "bbbbbbbb".toList ∧
    ({ defaultLimits with MAX_TEXT_LENGTH := 4 } : Limits).MAX_TEXT_LENGTH
      < "bbbbbbbb".toList.length := by
  decide

/-! ## The option flags of a compiled pattern -/

/-- The resolution of the option flags in `_COMPILE__INIT_REGEX`, for the flag word
`F` after the default flags were added. -/
theorem resolve_flag_word (F : Nat) :
    let MULTILINE := decide ((F &&& REG_MULTILINE) = REG_MULTILINE)
    let NEWLINE := decide ((F &&& REG_NEWLINE) = REG_NEWLINE)
    let NOSUB := decide ((F &&& REG_NOSUB) = REG_NOSUB)
    let NOSUBEXP := decide ((F &&& REG_NOSUBEXP) = REG_NOSUBEXP)
    let SUBEXP := decide ((F &&& REG_SUBEXP) = REG_SUBEXP)
    let F1 := if (MULTILINE && NEWLINE) = true then F - REG_NEWLINE else F
    let F2 := if NOSUB = true then F1 - REG_NOSUB else F1
    let F3 := if (NOSUBEXP && SUBEXP) = true then F2 - REG_SUBEXP else F2
    (MULTILINE = true → F3 &&& REG_NEWLINE ≠ REG_NEWLINE) ∧
    (NOSUBEXP = true → F3 &&& REG_SUBEXP ≠ REG_SUBEXP) ∧
    F3 &&& REG_NOSUB ≠ REG_NOSUB := by
  have e2 := and_two_pow_eq_iff F 2
  have e3 := and_two_pow_eq_iff F 3
  have e5 := and_two_pow_eq_iff F 5
  have e6 := and_two_pow_eq_iff F 6
  have e7 := and_two_pow_eq_iff F 7
  have g2 := fun W => and_two_pow_eq_iff W 2
  have g3 := fun W => and_two_pow_eq_iff W 3
  have g7 := fun W => and_two_pow_eq_iff W 7
  simp only [REG_MULTILINE, REG_NEWLINE, REG_NOSUB, REG_NOSUBEXP, REG_SUBEXP] at *
  norm_num at e2 e3 e5 e6 e7 g2 g3 g7
  simp only [Bool.and_eq_true, decide_eq_true_eq, ne_eq, e2, e3, e5, e6, e7, g2, g3, g7]
  by_cases b2 : F / 4 % 2 = 1 <;> by_cases b3 : F / 8 % 2 = 1 <;>
    by_cases b5 : F / 32 % 2 = 1 <;> by_cases b6 : F / 64 % 2 = 1 <;>
    by_cases b7 : F / 128 % 2 = 1 <;>
    simp only [b2, b3, b5, b6, b7, and_self, and_true, and_false, if_true, if_false,
      true_implies, false_implies, not_false_eq_true, true_and, and_true, implies_true] <;>
    omega

/-- The object that `_COMPILE__INIT_REGEX` returns has its flags resolved, and holds
no compiled pattern yet. -/
theorem init_regex_resolved (defaults : List Nat) (pattern : CStr) (flags : Nat)
    (rd0 : compact_regex_t) (h : _COMPILE__INIT_REGEX defaults pattern flags = .ok rd0) :
    (rd0.flags.MULTILINE = true →
      rd0.flags.NEWLINE = false ∧ rd0.reglib_flags &&& REG_NEWLINE ≠ REG_NEWLINE) ∧
    (rd0.flags.NOSUBEXP = true →
      rd0.flags.SUBEXP = false ∧ rd0.reglib_flags &&& REG_SUBEXP ≠ REG_SUBEXP) ∧
    rd0.reglib_flags &&& REG_NOSUB ≠ REG_NOSUB ∧
    rd0.compiled_regex = noRegex := by
  unfold _COMPILE__INIT_REGEX at h
  simp only [Res.bind_eq, Res.pure_eq] at h
  obtain ⟨_, _, h⟩ := Res.bind_eq_ok h
  simp only [Res.ok.injEq] at h
  obtain ⟨w1, w2, w3⟩ := resolve_flag_word (addDefaultFlags flags defaults)
  rw [← h]
  refine ⟨fun hm => ⟨?_, w1 hm⟩, fun hn => ⟨?_, w2 hn⟩, w3, rfl⟩
  · have hm' : decide ((addDefaultFlags flags defaults &&& REG_MULTILINE) = REG_MULTILINE)
        = true := hm
    show (if (decide ((addDefaultFlags flags defaults &&& REG_MULTILINE) = REG_MULTILINE) &&
        decide ((addDefaultFlags flags defaults &&& REG_NEWLINE) = REG_NEWLINE)) = true
      then false
      else decide ((addDefaultFlags flags defaults &&& REG_NEWLINE) = REG_NEWLINE)) = false
    rw [hm', Bool.true_and]
    split_ifs with hx
    · rfl
    · exact Bool.eq_false_iff.mpr hx
  · have hn' : decide ((addDefaultFlags flags defaults &&& REG_NOSUBEXP) = REG_NOSUBEXP)
        = true := hn
    show (if (decide ((addDefaultFlags flags defaults &&& REG_NOSUBEXP) = REG_NOSUBEXP) &&
        decide ((addDefaultFlags flags defaults &&& REG_SUBEXP) = REG_SUBEXP)) = true
      then false
      else decide ((addDefaultFlags flags defaults &&& REG_SUBEXP) = REG_SUBEXP)) = false
    rw [hn', Bool.true_and]
    split_ifs with hx
    · rfl
    · exact Bool.eq_false_iff.mpr hx

theorem checkPatternLimit_regex (lim : Limits) (rd : compact_regex_t) :
    (checkPatternLimit lim rd).reglib_flags = rd.reglib_flags ∧
    (checkPatternLimit lim rd).compiled_regex = rd.compiled_regex := by
  unfold checkPatternLimit
  split_ifs <;> exact ⟨rfl, rfl⟩

theorem rejectEmptyPattern_regex (pattern : CStr) (rd : compact_regex_t) :
    (rejectEmptyPattern pattern rd).reglib_flags = rd.reglib_flags ∧
    (rejectEmptyPattern pattern rd).compiled_regex = rd.compiled_regex := by
  unfold rejectEmptyPattern
  split_ifs <;> exact ⟨rfl, rfl⟩

theorem setReglibStatus_regex (rd : compact_regex_t) :
    (setReglibStatus rd).reglib_flags = rd.reglib_flags ∧
    (setReglibStatus rd).compiled_regex = rd.compiled_regex ∧
    (setReglibStatus rd).return_code = rd.return_code := by
  unfold setReglibStatus
  split_ifs <;> exact ⟨rfl, rfl, rfl⟩

/-- The block that calls `regcomp` leaves the flag word alone, and hands exactly that
word to `regcomp` when the pattern is short enough. -/
theorem compilePattern_regex (lim : Limits) (lib : RegLib) (pattern : CStr)
    (rd rd' : compact_regex_t) (h : compilePattern lim lib pattern rd = .ok rd') :
    rd'.reglib_flags = rd.reglib_flags ∧
    (pattern.length < lim.MAX_PATTERN_LENGTH →
      ∃ converted, _COMPILE__CONVERT_SEQUENCES lim pattern = .ok converted ∧
        rd'.compiled_regex = (lib.regcomp converted rd.reglib_flags).2) ∧
    (¬ pattern.length < lim.MAX_PATTERN_LENGTH → rd'.compiled_regex = rd.compiled_regex) := by
  unfold compilePattern at h
  split_ifs at h with hlen
  · simp only [Res.bind_eq, Res.pure_eq] at h
    obtain ⟨c, hc, h⟩ := Res.bind_eq_ok h
    simp only [Res.ok.injEq] at h
    rw [← h]
    exact ⟨rfl, fun _ => ⟨c, hc, rfl⟩, fun hn => absurd hlen hn⟩
  · simp only [Res.pure_eq, Res.ok.injEq] at h
    rw [← h]
    exact ⟨rfl, fun hl => absurd hl hlen, fun _ => rfl⟩

/-- C25: whenever `regex_compile` returns an object, its flags are resolved. With
MULTILINE set, NEWLINE is neither a flag of the object nor a bit of its flag word
(whether it came from the caller or from the default flags); with NOSUBEXP set, the
same holds of SUBEXP; and the flag word never contains `REG_NOSUB`. That flag word is
the one handed to `regcomp`, which is called exactly for a pattern shorter than
`MAX_PATTERN_LENGTH` under a limit of at most 16384. -/
theorem resolved_flags_consistent (lim : Limits) (defaults : List Nat) (lib : RegLib)
    (pattern : CStr) (flags : Nat) (rd : compact_regex_t)
    (h : regex_compile lim defaults lib pattern flags = .ok rd) :
    (rd.flags.MULTILINE = true →
      rd.flags.NEWLINE = false ∧ rd.reglib_flags &&& REG_NEWLINE ≠ REG_NEWLINE) ∧
    (rd.flags.NOSUBEXP = true →
      rd.flags.SUBEXP = false ∧ rd.reglib_flags &&& REG_SUBEXP ≠ REG_SUBEXP) ∧
    rd.reglib_flags &&& REG_NOSUB ≠ REG_NOSUB ∧
    (lim.MAX_PATTERN_LENGTH ≤ 16384 ∧ pattern.length < lim.MAX_PATTERN_LENGTH →
      ∃ converted, _COMPILE__CONVERT_SEQUENCES lim pattern = .ok converted ∧
        rd.compiled_regex = (lib.regcomp converted rd.reglib_flags).2) ∧
    (¬ (lim.MAX_PATTERN_LENGTH ≤ 16384 ∧ pattern.length < lim.MAX_PATTERN_LENGTH) →
      rd.compiled_regex = noRegex) := by
  unfold regex_compile at h
  simp only [Res.bind_eq, Res.pure_eq] at h
  obtain ⟨rd0, hrd0, h⟩ := Res.bind_eq_ok h
  obtain ⟨i1, i2, i3, i4⟩ := init_regex_resolved _ _ _ _ hrd0
  have hrc0 := init_regex_return_code _ _ _ _ hrd0
  obtain ⟨_, _, h⟩ := Res.bind_eq_ok h
  obtain ⟨c1, c2⟩ := checkPatternLimit_regex lim rd0
  obtain ⟨_, c4⟩ := checkPatternLimit_fields lim rd0
  split_ifs at h with hinit
  · obtain ⟨rd2, hrd2, h⟩ := Res.bind_eq_ok h
    obtain ⟨p1, p2, p3⟩ := compilePattern_regex _ _ _ _ _ hrd2
    obtain ⟨_, p4⟩ := compilePattern_fields _ _ _ _ _ hrd2
    obtain ⟨r1, r2⟩ := rejectEmptyPattern_regex pattern rd2
    obtain ⟨_, r4⟩ := rejectEmptyPattern_fields pattern rd2
    obtain ⟨s1, s2, _⟩ := setReglibStatus_regex (rejectEmptyPattern pattern rd2)
    obtain ⟨_, s4⟩ := setReglibStatus_fields (rejectEmptyPattern pattern rd2)
    simp only [Res.ok.injEq] at h
    have hf : rd.flags = rd0.flags := by rw [← h, s4, r4, p4, c4]
    have hw : rd.reglib_flags = rd0.reglib_flags := by rw [← h, s1, r1, p1, c1]
    have hx : rd.compiled_regex = rd2.compiled_regex := by rw [← h, s2, r2]
    rw [hf, hw, hx]
    refine ⟨i1, i2, i3, fun hh => ?_, fun hh => ?_⟩
    · obtain ⟨c, hc, he⟩ := p2 hh.2
      exact ⟨c, hc, by rw [he, c1]⟩
    · have hmax : lim.MAX_PATTERN_LENGTH ≤ 16384 := by
        by_contra hgt
        unfold checkPatternLimit at hinit
        rw [if_pos (Nat.lt_of_not_le hgt)] at hinit
        have h' : REGEX_ERROR = REGEX_INIT_SUCCESS := hinit
        exact absurd h' (by decide)
      rw [p3 (fun hl => hh ⟨hmax, hl⟩), c2, i4]
  · simp only [Res.ok.injEq] at h
    have hf : rd.flags = rd0.flags := by rw [← h, c4]
    have hw : rd.reglib_flags = rd0.reglib_flags := by rw [← h, c1]
    have hx : rd.compiled_regex = rd0.compiled_regex := by rw [← h, c2]
    rw [hf, hw, hx]
    refine ⟨i1, i2, i3, fun hh => ?_, fun _ => i4⟩
    exfalso
    apply hinit
    unfold checkPatternLimit
    rw [if_neg (Nat.not_lt.mpr hh.1)]
    exact hrc0

set_option maxRecDepth 1000000 in
/-- C25 at the pattern `a` with the flags MULTILINE, NOSUB, NOSUBEXP and SUBEXP:
NEWLINE comes from the default flags only, and the flag word left over holds
EXTENDED, GLOBAL, MULTILINE and NOSUBEXP. -/
theorem resolved_flags_consistent_witness :
    ∃ rd, regex_compile defaultLimits DEFAULT_REG_FLAGS (tableLib 0 1 []) "a".toList
        (REG_MULTILINE + REG_NOSUB + REG_NOSUBEXP + REG_SUBEXP) = .ok rd ∧
      rd.flags.MULTILINE = true ∧ rd.flags.NOSUBEXP = true ∧
      rd.reglib_flags = REG_EXTENDED + REG_GLOBAL + REG_MULTILINE + REG_NOSUBEXP ∧
      ((rd.flags.MULTILINE = true →
        rd.flags.NEWLINE = false ∧ rd.reglib_flags &&& REG_NEWLINE ≠ REG_NEWLINE) ∧
      (rd.flags.NOSUBEXP = true →
        rd.flags.SUBEXP = false ∧ rd.reglib_flags &&& REG_SUBEXP ≠ REG_SUBEXP) ∧
      rd.reglib_flags &&& REG_NOSUB ≠ REG_NOSUB ∧
      (defaultLimits.MAX_PATTERN_LENGTH ≤ 16384 ∧
          "a".toList.length < defaultLimits.MAX_PATTERN_LENGTH →
        ∃ converted, _COMPILE__CONVERT_SEQUENCES defaultLimits "a".toList = .ok converted ∧
          rd.compiled_regex =
            ((tableLib 0 1 []).regcomp converted rd.reglib_flags).2) ∧
      (¬ (defaultLimits.MAX_PATTERN_LENGTH ≤ 16384 ∧
          "a".toList.length < defaultLimits.MAX_PATTERN_LENGTH) →
        rd.compiled_regex = noRegex)) :=
  ⟨_, rfl, by decide, by decide, by decide,
    resolved_flags_consistent defaultLimits DEFAULT_REG_FLAGS (tableLib 0 1 []) "a".toList
      (REG_MULTILINE + REG_NOSUB + REG_NOSUBEXP + REG_SUBEXP) _ rfl⟩

/-! ## The length check of `regex_compile` -/

set_option maxRecDepth 1000000 in
/-- C26 (counterexample): for the empty pattern `regex_compile` returns no object at
all. The parameter check of `_COMPILE__INIT_REGEX` ends the process before the block
that would set `REGEX_ERROR` is reached. -/
theorem empty_pattern_exits :
    regex_compile defaultLimits DEFAULT_REG_FLAGS (tableLib 0 1 []) [] REG_DEFAULT
      = .fail .exit_failure ∧
    ¬ ∃ rd, regex_compile defaultLimits DEFAULT_REG_FLAGS (tableLib 0 1 []) [] REG_DEFAULT
      = .ok rd :=
  ⟨rfl, fun ⟨_, h⟩ => Res.noConfusion h⟩

/-- C26 (amended): under a limit `MAX_PATTERN_LENGTH` of at most 16384, for a
non-empty pattern, `regex_compile` returns an object. If the pattern is longer than
`MAX_PATTERN_LENGTH` the object reports an error (`REGEX_ERROR`, `REGLIB_ERROR`). If
the pattern is shorter than `MAX_PATTERN_LENGTH` and its conversion returns, the
return code of the object is the one `regcomp` gave for the converted pattern, and a
return code of zero comes with the status `REGLIB_COMPILED`. -/
theorem regex_compile_length_check (lim : Limits) (defaults : List Nat) (lib : RegLib)
    (pattern : CStr) (flags : Nat) (hne : pattern ≠ [])
    (hmax : lim.MAX_PATTERN_LENGTH ≤ 16384) :
    (lim.MAX_PATTERN_LENGTH < pattern.length →
      ∃ rd, regex_compile lim defaults lib pattern flags = .ok rd ∧
        rd.return_code = REGEX_ERROR ∧ rd.reglib_status = REGLIB_ERROR) ∧
    (pattern.length < lim.MAX_PATTERN_LENGTH →
      ∀ converted, _COMPILE__CONVERT_SEQUENCES lim pattern = .ok converted →
        ∃ rd, regex_compile lim defaults lib pattern flags = .ok rd ∧
          rd.return_code = (lib.regcomp converted rd.reglib_flags).1 ∧
          (rd.return_code = REGEX_COMP_SUCCESS → rd.reglib_status = REGLIB_COMPILED)) := by
  have hlen : pattern.length ≠ 0 := fun hl => hne (List.length_eq_zero.mp hl)
  have hinit : ∃ rd0, _COMPILE__INIT_REGEX defaults pattern flags = .ok rd0 := by
    unfold _COMPILE__INIT_REGEX
    simp only [Res.bind_eq, Res.pure_eq, assertParam_ok pattern hne, Res.bind_ok]
    exact ⟨_, rfl⟩
  obtain ⟨rd0, hrd0⟩ := hinit
  have hrc0 := init_regex_return_code _ _ _ _ hrd0
  have hlim : checkPatternLimit lim rd0 = rd0 := by
    unfold checkPatternLimit
    rw [if_neg (Nat.not_lt.mpr hmax)]
  have hrej : ∀ x : compact_regex_t, rejectEmptyPattern pattern x = x := by
    intro x
    unfold rejectEmptyPattern
    rw [if_neg hlen]
  constructor
  · intro hlong
    have hcp : compilePattern lim lib pattern rd0
        = .ok { rd0 with return_code := REGEX_ERROR } := by
      unfold compilePattern
      rw [if_neg (Nat.not_lt.mpr (Nat.le_of_lt hlong))]
      rfl
    refine ⟨setReglibStatus { rd0 with return_code := REGEX_ERROR }, ?_, ?_, ?_⟩
    · unfold regex_compile
      simp only [Res.bind_eq, Res.pure_eq, hrd0, Res.bind_ok, assertParam_ok pattern hne,
        hlim, hrc0, if_true, hcp, hrej]
    · rw [(setReglibStatus_regex _).2.2]
    · unfold setReglibStatus
      rw [if_neg (by decide : ¬ (REGEX_ERROR = REGEX_COMP_SUCCESS))]
      rw [if_pos rfl]
  · intro hshort converted hconv
    have hcp : compilePattern lim lib pattern rd0
        = .ok { rd0 with
            return_code := (lib.regcomp converted rd0.reglib_flags).1
            compiled_regex := (lib.regcomp converted rd0.reglib_flags).2
            num_pattern_subexpr := (lib.regcomp converted rd0.reglib_flags).2.re_nsub } := by
      unfold compilePattern
      rw [if_pos hshort]
      simp only [Res.bind_eq, Res.pure_eq, hconv, Res.bind_ok]
    have hcomp : regex_compile lim defaults lib pattern flags = .ok (setReglibStatus
        { rd0 with
            return_code := (lib.regcomp converted rd0.reglib_flags).1
            compiled_regex := (lib.regcomp converted rd0.reglib_flags).2
            num_pattern_subexpr := (lib.regcomp converted rd0.reglib_flags).2.re_nsub }) := by
      unfold regex_compile
      simp only [Res.bind_eq, Res.pure_eq, hrd0, Res.bind_ok, assertParam_ok pattern hne,
        hlim, hrc0, if_true, hcp, hrej]
    refine ⟨_, hcomp, ?_, fun hz => regex_compile_status _ _ _ _ _ _ hcomp hz⟩
    rw [(setReglibStatus_regex _).2.2, (setReglibStatus_regex _).1]

set_option maxRecDepth 1000000 in
/-- C26 (amended) at the limit `MAX_PATTERN_LENGTH = 3` and the pattern `ab`; the
longer pattern `abcd` is rejected under the same limit. -/
theorem regex_compile_length_check_witness :
    "ab".toList ≠ [] ∧ ({ defaultLimits with MAX_PATTERN_LENGTH := 3 } : Limits).MAX_PATTERN_LENGTH
        ≤ 16384 ∧
      _COMPILE__CONVERT_SEQUENCES { defaultLimits with MAX_PATTERN_LENGTH := 3 } "ab".toList
        = .ok "ab".toList ∧
      (regex_compile { defaultLimits with MAX_PATTERN_LENGTH := 3 } DEFAULT_REG_FLAGS
        (tableLib 0 1 []) "abcd".toList REG_DEFAULT).map (fun rd => rd.return_code)
        = .ok REGEX_ERROR ∧
      ∃ rd, regex_compile { defaultLimits with MAX_PATTERN_LENGTH := 3 } DEFAULT_REG_FLAGS
          (tableLib 0 1 []) "ab".toList REG_DEFAULT = .ok rd ∧
        rd.return_code = ((tableLib 0 1 []).regcomp "ab".toList rd.reglib_flags).1 ∧
        (rd.return_code = REGEX_COMP_SUCCESS → rd.reglib_status = REGLIB_COMPILED) :=
  ⟨by decide, by decide, by decide, by decide,
    (regex_compile_length_check { defaultLimits with MAX_PATTERN_LENGTH := 3 }
      DEFAULT_REG_FLAGS (tableLib 0 1 []) "ab".toList REG_DEFAULT (by decide) (by decide)).2
      (by decide) _ (by decide)⟩

/-! ## The substitution without brackets against its reference -/

set_option maxRecDepth 1000000 in
/-- C33: for an occurrence without capture groups (text `ab`, pattern `a`, whole match
[0, 1)) the template `\\32`, a backslash followed by the token `\3` and the digit 2,
is expanded to `\2`: the pass that removes `\3` joins the backslash before it and the
digit after it to the token `\2`, and the pass for `\2` is over by then. The token
`\2` reaches the result `\2b` of `regex_replace`. -/
theorem removal_assembles_token :
    regex_replace 2 defaultLimits DEFAULT_REG_FLAGS (tableLib 0 2 [[⟨0, 1⟩]])
      "ab".toList "a".toList "\\\\32".toList REG_GLOBAL = .ok "\\2b".toList ∧
    (regex_match 2 defaultLimits DEFAULT_REG_FLAGS (tableLib 0 2 [[⟨0, 1⟩]])
      "ab".toList "a".toList REG_GLOBAL).bind
      (fun rd => _REPLACE__PREPROCESS_GROUPS defaultLimits rd "\\\\32".toList 0)
      = .ok "\\2".toList ∧
    strstr "\\2".toList ('\\' :: decimalDigits 2) = some 0 := by
  decide

/-! ## The template at an anchor match -/

set_option maxRecDepth 1000000 in
/-- C34: at the end-of-string match of the pattern `$` on the text `ab`, the template
`\1!` is appended as it is, `ab\1!`, and at the start-of-string match of `^` it is
prepended as it is, `\1!ab`; at the match of `b` the same template is expanded
first and the result is `a!`. -/
theorem anchor_appends_raw_template :
    regex_replace 1 defaultLimits DEFAULT_REG_FLAGS (tableLib 0 2 [[⟨2, 2⟩]])
      "ab".toList "$".toList "\\1!".toList REG_GLOBAL = .ok "ab\\1!".toList ∧
    regex_replace 1 defaultLimits DEFAULT_REG_FLAGS (tableLib 0 2 [[⟨0, 0⟩]])
      "ab".toList "^".toList "\\1!".toList REG_GLOBAL = .ok "\\1!ab".toList ∧
    regex_replace 2 defaultLimits DEFAULT_REG_FLAGS (tableLib 0 2 [[⟨1, 2⟩]])
      "ab".toList "b".toList "\\1!".toList REG_GLOBAL = .ok "a!".toList := by
  decide

/-! ## The writes of `set_default_reg_flags` -/

set_option maxRecDepth 1000000 in
/-- C38: for the argument `REG_GLOBAL | REG_EXTENDED` the function
`set_default_reg_flags` writes past the seven entries of `DEFAULT_REG_FLAGS`: its
loop writes the two flags at the indices 0 and 1, 3 and 4, 6 and 7. On a table of
eight entries the same loop returns with `REG_EXTENDED` in the entry 7. For one flag
and for three flags the writes stay inside the table. -/
theorem two_flags_write_past_table :
    set_default_reg_flags DEFAULT_REG_FLAGS (REG_GLOBAL ||| REG_EXTENDED)
      = .fail .undefined_behaviour ∧
    DEFAULT_REG_FLAGS.length = 7 ∧
    setDefaultFlagsLoop (REG_GLOBAL ||| REG_EXTENDED) 8 0 (List.replicate 8 0)
      = .ok [REG_GLOBAL, REG_EXTENDED, 0, REG_GLOBAL, REG_EXTENDED, 0, REG_GLOBAL,
          REG_EXTENDED] ∧
    set_default_reg_flags DEFAULT_REG_FLAGS REG_GLOBAL
      = .ok [REG_GLOBAL, 0, REG_GLOBAL, 0, REG_GLOBAL, 0, REG_GLOBAL] ∧
    set_default_reg_flags DEFAULT_REG_FLAGS (REG_GLOBAL ||| REG_EXTENDED ||| REG_ICASE)
      = .ok [REG_GLOBAL, REG_EXTENDED, REG_ICASE, 0, REG_GLOBAL, REG_EXTENDED, REG_ICASE] := by
  decide

/-! ## An empty match inside the text -/

/-- The loop of `regex_replace` passes over records that are empty matches strictly
inside the buffer. -/
theorem replaceLoop_inner_empty (lim : Limits) (rd : compact_regex_t) (template : CStr)
    (converted : CStr) (p : Int) (hp0 : 0 < p) (hp1 : p < (converted.length : Int)) :
    ∀ (cnt i : Nat) (d : Int),
      (∀ j, i ≤ j → j < i + cnt → (cellAt rd.matches_ j).start = some p ∧
        (cellAt rd.matches_ j).end_ = some p) →
      replaceLoop lim rd template cnt i d converted = .ok converted := by
  intro cnt
  induction cnt with
  | zero => intro i d _; rfl
  | succ n ih =>
    intro i d h
    obtain ⟨hs, he⟩ := h i (Nat.le_refl _) (by omega)
    rw [replaceLoop]
    have h1 : ¬ (p = (converted.length : Int)) := by omega
    have h2 : ¬ (p = 0 ∧ p = 0) := by omega
    have h3 : ¬ (p ≠ p) := fun hh => hh rfl
    simp only [hs, he, h1, h2, h3, if_false]
    exact ih (i + 1) d (fun j hj1 hj2 => h j (by omega) (by omega))

/-- C35: when every record of the session is the empty match at one position `p`
strictly inside the text (`0 < p < len(text)`), `regex_replace` with a non-empty
template returns the text unchanged. -/
theorem inner_empty_match_leaves_text (fuel : Nat) (lim : Limits) (defaults : List Nat)
    (lib : RegLib) (text pattern template : CStr) (flags : Nat) (htpl : template ≠ [])
    (h : ∃ rd p, regex_match fuel lim defaults lib text pattern flags = .ok rd ∧
      0 < rd.num_matches ∧ (0 : Int) < p ∧ p < (text.length : Int) ∧
      ∀ i, i < rd.num_matches → (cellAt rd.matches_ i).start = some p ∧
        (cellAt rd.matches_ i).end_ = some p) :
    regex_replace fuel lim defaults lib text pattern template flags = .ok text := by
  obtain ⟨rd, p, hm, hn, hp0, hp1, hall⟩ := h
  obtain ⟨htext, rd0, r, hc, hok, hx, hr⟩ := regex_match_session _ _ _ _ _ _ _ _ hm hn
  rw [regex_replace_eq_loop fuel lim defaults lib text pattern template flags rd0 r
    htext htpl hc hok hx, hr]
  exact replaceLoop_inner_empty lim rd template text p hp0 hp1 rd.num_matches 0 0
    (fun j _ hj => hall j (by omega))

set_option maxRecDepth 1000000 in
/-- C35 at the text of the three characters `a`, newline, `b` and the pattern `$`,
whose only match is the empty match before the newline, at the offset 1. -/
theorem inner_empty_match_leaves_text_witness :
    "X".toList ≠ [] ∧
    (∃ rd p, regex_match 1 defaultLimits DEFAULT_REG_FLAGS (tableLib 0 3 [[⟨1, 1⟩]])
        "a\nb".toList "$".toList REG_GLOBAL = .ok rd ∧
      0 < rd.num_matches ∧ (0 : Int) < p ∧ p < ("a\nb".toList.length : Int) ∧
      ∀ i, i < rd.num_matches → (cellAt rd.matches_ i).start = some p ∧
        (cellAt rd.matches_ i).end_ = some p) ∧
    regex_replace 1 defaultLimits DEFAULT_REG_FLAGS (tableLib 0 3 [[⟨1, 1⟩]])
      "a\nb".toList "$".toList "X".toList REG_GLOBAL = .ok "a\nb".toList :=
  ⟨by decide, ⟨_, 1, rfl, by decide, by decide, by decide, by decide⟩,
    inner_empty_match_leaves_text 1 defaultLimits DEFAULT_REG_FLAGS (tableLib 0 3 [[⟨1, 1⟩]])
      "a\nb".toList "$".toList "X".toList REG_GLOBAL (by decide)
      ⟨_, 1, rfl, by decide, by decide, by decide, by decide⟩⟩

/-! ## The expansion of backreferences, one group after the other -/

theorem writtenRecords_push (rd rd' : compact_regex_t) (f : cregmatches_t → cregmatches_t)
    (slot : regmatch_t) (h1 : rd'.num_matches = rd.num_matches + 1)
    (h2 : rd'.matches_ = cellUpdate rd.matches_ rd.num_matches f)
    (h3 : rd'.match_offsets = arrayWrite rd.match_offsets rd.num_matches slot) :
    writtenRecords rd' = writtenRecords rd ++
      [((f (cellAt rd.matches_ rd.num_matches)).number_match,
        (f (cellAt rd.matches_ rd.num_matches)).number_submatch, some slot)] := by
  unfold writtenRecords
  rw [h1, List.range_succ, List.map_append, List.map_singleton, h2, h3]
  congr 1
  · apply List.map_congr_left
    intro i hi
    have hi' : i < rd.num_matches := List.mem_range.mp hi
    have hne : ¬ (i = rd.num_matches) := by omega
    rw [cellAt_cellUpdate, if_neg hne, arrayWrite_getD, if_neg hne]
  · rw [cellAt_cellUpdate, if_pos rfl, arrayWrite_getD, if_pos rfl]

theorem participatingSlots_set (M : List regmatch_t) (i : Nat) (x : regmatch_t) :
    ∀ (cnt j : Nat), i < j →
      participatingSlots (M.set i x) cnt j = participatingSlots M cnt j := by
  intro cnt
  induction cnt with
  | zero => intro j _; rfl
  | succ n ih =>
    intro j hj
    have hg : (M.set i x).getD j ⟨-1, -1⟩ = M.getD j ⟨-1, -1⟩ := by
      simp only [List.getD_eq_getElem?_getD]
      rw [List.getElem?_set_ne (by omega)]
    rw [participatingSlots, participatingSlots, hg, ih (j + 1) (by omega)]

theorem gapFreeFrom_set (M : List regmatch_t) (i : Nat) (x : regmatch_t) :
    ∀ (cnt j : Nat), i < j → gapFreeFrom (M.set i x) cnt j = gapFreeFrom M cnt j := by
  intro cnt
  induction cnt with
  | zero => intro j _; rfl
  | succ n ih =>
    intro j hj
    have hg : (M.set i x).getD j ⟨-1, -1⟩ = M.getD j ⟨-1, -1⟩ := by
      simp only [List.getD_eq_getElem?_getD]
      rw [List.getElem?_set_ne (by omega)]
    rw [gapFreeFrom, gapFreeFrom, hg, ih (j + 1) (by omega),
      participatingSlots_set M i x n (j + 1) (by omega)]

theorem gapFreeFrom_of_empty (M : List regmatch_t) :
    ∀ (cnt j : Nat), participatingSlots M cnt j = [] → gapFreeFrom M cnt j = true := by
  intro cnt
  induction cnt with
  | zero => intro j _; rfl
  | succ n ih =>
    intro j h
    rw [participatingSlots] at h
    rw [gapFreeFrom]
    split_ifs at h ⊢ with hv
    rw [h]
    rfl

/-- In a gap-free layout the slots from `j` on are all empty, or the slot `j` itself
participates. -/
theorem gapFreeFrom_cases (M : List regmatch_t) (cnt j : Nat)
    (h : gapFreeFrom M cnt j = true) :
    participatingSlots M cnt j = [] ∨
      (1 ≤ cnt ∧ (M.getD j ⟨-1, -1⟩).rm_so ≠ -1) := by
  cases cnt with
  | zero => left; rfl
  | succ n =>
    by_cases hv : (M.getD j ⟨-1, -1⟩).rm_so ≠ -1
    · right
      exact ⟨by omega, hv⟩
    · left
      rw [gapFreeFrom, if_neg hv] at h
      rw [participatingSlots, if_neg hv]
      exact List.isEmpty_iff.mp h

/-- One iteration of the inner loop of `_EXEC__SEARCH_GLOBAL`, with the state `w`
after its two assignments to `NUMBER_GROUP`. -/
theorem aheadLoop_unfold (lim : Limits) (i cnt j : Nat) (v : GlobalVars) :
    ∃ w : GlobalVars, w.match_iteration = v.match_iteration ∧ w.regex_data = v.regex_data ∧
      w.NUMBER_MATCH = v.NUMBER_MATCH ∧ w.return_code_local = v.return_code_local ∧
      w.return_code_global = v.return_code_global ∧ w.BREAK = v.BREAK ∧
      aheadLoop lim i (cnt + 1) j v =
        (slotAt lim w.match_iteration j).bind (fun slot =>
          if slot.rm_so ≠ -1 then
            .ok (if 1 < ((j : Int) - i) then
              { w with BREAK := 0, NEXT_VALID_MATCH_DISTANCE := (j : Int) - i,
                       return_code_local := REGEX_MATCH_OFFSET_DIST }
              else { w with BREAK := 0, NEXT_VALID_MATCH_DISTANCE := (j : Int) - i })
          else
            aheadLoop lim i cnt (j + 1)
              (if j = w.regex_data.num_pattern_subexpr then { w with BREAK := 1 } else w)) := by
  refine ⟨if i = 1 ∧ (if i = 0 then { v with NUMBER_GROUP := 0 } else v).return_code_local
      = REGEX_MATCH_OFFSET_DIST then
      { (if i = 0 then { v with NUMBER_GROUP := 0 } else v) with
        NUMBER_GROUP := (if i = 0 then { v with NUMBER_GROUP := 0 } else v).NEXT_VALID_MATCH_DISTANCE }
    else (if i = 0 then { v with NUMBER_GROUP := 0 } else v), ?_, ?_, ?_, ?_, ?_, ?_, ?_⟩
  · split_ifs <;> rfl
  · split_ifs <;> rfl
  · split_ifs <;> rfl
  · split_ifs <;> rfl
  · split_ifs <;> rfl
  · split_ifs <;> rfl
  · rw [aheadLoop]
    rfl
theorem aheadLoop_spec (lim : Limits) (i : Nat) :
    ∀ (cnt j : Nat) (v v' : GlobalVars), aheadLoop lim i cnt j v = .ok v' →
      v'.NUMBER_MATCH = v.NUMBER_MATCH ∧ v'.return_code_global = v.return_code_global ∧
      (1 ≤ cnt → j + cnt = v.regex_data.num_pattern_subexpr + 1 → v'.BREAK = 1 →
        participatingSlots v.match_iteration cnt j = []) ∧
      (participatingSlots v.match_iteration cnt j = [] →
        v'.return_code_local = v.return_code_local) ∧
      (j = i + 1 → (v.match_iteration.getD j ⟨-1, -1⟩).rm_so ≠ -1 →
        v'.return_code_local = v.return_code_local) := by
  intro cnt
  induction cnt with
  | zero =>
    intro j v v' h
    simp only [aheadLoop, Res.ok.injEq] at h
    subst h
    exact ⟨rfl, rfl, fun h1 => absurd h1 (by omega), fun _ => rfl, fun _ _ => rfl⟩
  | succ n ih =>
    intro j v v' h
    obtain ⟨w, wm, wrd, wnm, wrcl, wrcg, wbr, hw⟩ := aheadLoop_unfold lim i n j v
    rw [hw] at h
    obtain ⟨slot, hslot, h⟩ := Res.bind_eq_ok h
    have hs := (slotAt_ok _ _ _ _ hslot).1
    rw [wm] at hs
    by_cases hv : slot.rm_so ≠ -1
    · rw [if_pos hv] at h
      simp only [Res.ok.injEq] at h
      have hv' : (v.match_iteration.getD j ⟨-1, -1⟩).rm_so ≠ -1 := by rw [← hs]; exact hv
      have hne : participatingSlots v.match_iteration (n + 1) j ≠ [] := by
        rw [participatingSlots, if_pos hv']
        exact List.cons_ne_nil _ _
      have hb : v'.BREAK = 0 := by
        rw [← h]
        split_ifs <;> rfl
      refine ⟨?_, ?_, ?_, fun he => absurd he hne, ?_⟩
      · rw [← h, ← wnm]
        split_ifs <;> rfl
      · rw [← h, ← wrcg]
        split_ifs <;> rfl
      · intro _ _ hb1
        rw [hb] at hb1
        exact absurd hb1 (by decide)
      · intro hj _
        have hd : ¬ ((1 : Int) < (j : Int) - (i : Int)) := by omega
        rw [← h, if_neg hd, ← wrcl]
    · rw [if_neg hv] at h
      have hv' : ¬ (v.match_iteration.getD j ⟨-1, -1⟩).rm_so ≠ -1 := by rw [← hs]; exact hv
      obtain ⟨a1, a2, a3, a4, a5⟩ := ih _ _ _ h
      have e1 : (if j = w.regex_data.num_pattern_subexpr then { w with BREAK := 1 } else w).NUMBER_MATCH
          = v.NUMBER_MATCH := by rw [← wnm]; split_ifs <;> rfl
      have e2 : (if j = w.regex_data.num_pattern_subexpr then { w with BREAK := 1 } else w).return_code_global
          = v.return_code_global := by rw [← wrcg]; split_ifs <;> rfl
      have e3 : (if j = w.regex_data.num_pattern_subexpr then { w with BREAK := 1 } else w).match_iteration
          = v.match_iteration := by rw [← wm]; split_ifs <;> rfl
      have e4 : (if j = w.regex_data.num_pattern_subexpr then { w with BREAK := 1 } else w).regex_data
          = v.regex_data := by rw [← wrd]; split_ifs <;> rfl
      have e5 : (if j = w.regex_data.num_pattern_subexpr then { w with BREAK := 1 } else w).return_code_local
          = v.return_code_local := by rw [← wrcl]; split_ifs <;> rfl
      rw [e1] at a1
      rw [e2] at a2
      rw [e3, e4] at a3
      rw [e3, e5] at a4
      refine ⟨a1, a2, ?_, ?_, fun _ hh => absurd hh hv'⟩
      · intro _ hsum hb1
        rw [participatingSlots, if_neg hv']
        cases n with
        | zero => rfl
        | succ m => exact a3 (by omega) (by omega) hb1
      · intro he
        rw [participatingSlots, if_neg hv'] at he
        exact a4 he

theorem slotLoop_records (lim : Limits) (gf : Bool) :
    ∀ (cnt i : Nat) (v v' : GlobalVars), slotLoop lim cnt i v = .ok v' →
      i + cnt = v.regex_data.num_pattern_subexpr + 1 →
      v.regex_data.flags.SUBEXP = false → v.regex_data.flags.NOSUBEXP = false →
      (gf = true → v.return_code_local ≠ REGEX_MATCH_OFFSET_DIST ∧
        gapFreeFrom v.match_iteration cnt i = true) →
      (v'.return_code_local = REGEX_ERROR ∧ v'.regex_data.return_code = REGEX_ERROR) ∨
      (v'.NUMBER_MATCH = v.NUMBER_MATCH ∧ v'.return_code_global = v.return_code_global ∧
        v'.regex_data.flags = v.regex_data.flags ∧
        v'.regex_data.return_code = v.regex_data.return_code ∧
        ∃ new, writtenRecords v'.regex_data = writtenRecords v.regex_data ++ new ∧
          List.Forall₂ recordAgrees new
            ((participatingSlots v.match_iteration cnt i).map (fun p =>
              ({ occurrence := v.NUMBER_MATCH, slot := p.1,
                 start := p.2.rm_so + v.READ_POS_OFFSET, end_ := p.2.rm_eo + v.READ_POS_OFFSET,
                 gapFree := gf } : expectedRecord)))) := by
  intro cnt
  induction cnt with
  | zero =>
    intro i v v' h _ _ _ _
    simp only [slotLoop, Res.ok.injEq] at h
    subst h
    exact Or.inr ⟨rfl, rfl, rfl, rfl, [], (List.append_nil _).symm, List.Forall₂.nil⟩
  | succ n ih =>
    intro i v v' h hsum hS hN hgf
    rw [slotLoop] at h
    simp only [Res.bind_eq, Res.pure_eq] at h
    obtain ⟨v1, hv1, h⟩ := Res.bind_eq_ok h
    obtain ⟨fm, fr, _, frd⟩ := aheadLoop_frame lim i _ _ _ _ hv1
    obtain ⟨anm, arcg, abrk, arcl0, arcl1⟩ := aheadLoop_spec lim i _ _ _ _ hv1
    have hcnt : v.regex_data.num_pattern_subexpr - i = n := by omega
    rw [hcnt] at abrk arcl0
    obtain ⟨slot, hslot, h⟩ := Res.bind_eq_ok h
    have hs := (slotAt_ok _ _ _ _ hslot).1
    rw [fm] at hs
    have hS1 : v1.regex_data.flags.SUBEXP = false := by rw [frd]; exact hS
    have hN1 : v1.regex_data.flags.NOSUBEXP = false := by rw [frd]; exact hN
    -- under the gap-free hypothesis the inner loop leaves the return code alone
    have hrcl : gf = true → (slot.rm_so ≠ -1 ∨ participatingSlots v.match_iteration n (i + 1) = []) →
        v1.return_code_local ≠ REGEX_MATCH_OFFSET_DIST := by
      intro hg hcase
      obtain ⟨g1, g2⟩ := hgf hg
      rw [gapFreeFrom] at g2
      have hkeep : v1.return_code_local = v.return_code_local := by
        rcases hcase with hv | he
        · rw [if_pos (by rw [← hs]; exact hv)] at g2
          rcases gapFreeFrom_cases _ _ _ g2 with he | ⟨_, hnext⟩
          · exact arcl0 he
          · exact arcl1 rfl hnext
        · exact arcl0 he
      rw [hkeep]
      exact g1
    by_cases hbrk : slot.rm_so = -1 ∧ v1.BREAK = 1
    · rw [if_pos hbrk] at h
      simp only [Res.ok.injEq] at h
      subst h
      have hv' : ¬ (v.match_iteration.getD i ⟨-1, -1⟩).rm_so ≠ -1 := by
        rw [← hs]
        exact fun hh => hh hbrk.1
      have hemp : participatingSlots v.match_iteration (n + 1) i = [] := by
        rw [participatingSlots, if_neg hv']
        cases n with
        | zero => rfl
        | succ m => exact abrk (by omega) (by omega) hbrk.2
      refine Or.inr ⟨anm, arcg, by rw [frd], by rw [frd], [], ?_, ?_⟩
      · rw [frd, List.append_nil]
      · rw [hemp]
        exact List.Forall₂.nil
    · rw [if_neg hbrk] at h
      by_cases hv : slot.rm_so ≠ -1
      · rw [if_pos hv] at h
        have hrf : ∀ x, recordFilter v1.regex_data.flags x = true := by
          intro x
          unfold recordFilter
          rw [hS1, hN1]
          rfl
        simp only [hrf, if_true] at h
        have hv' : (v.match_iteration.getD i ⟨-1, -1⟩).rm_so ≠ -1 := by
          rw [← hs]
          exact hv
        by_cases hcap : v1.regex_data.num_matches < lim.MAX_NUM_MATCHES
        · rw [if_pos hcap] at h
          obtain ⟨big, hbig, h⟩ : ∃ big : GlobalVars, big = _ ∧
              slotLoop lim n (i + 1) big = .ok v' := ⟨_, rfl, h⟩
          have q1 : big.regex_data.num_matches = v1.regex_data.num_matches + 1 := by rw [hbig]
          have q2 : big.regex_data.matches_ =
              cellUpdate v1.regex_data.matches_ v1.regex_data.num_matches
                (fun c => { c with number_match := some v1.NUMBER_MATCH,
                                   number_submatch :=
                                     some (if v1.return_code_local = REGEX_MATCH_OFFSET_DIST
                                       then v1.NUMBER_GROUP else (i : Int)) }) := by rw [hbig]
          have q3 : big.regex_data.match_offsets =
              arrayWrite v1.regex_data.match_offsets v1.regex_data.num_matches
                ⟨slot.rm_so + v1.READ_POS_OFFSET, slot.rm_eo + v1.READ_POS_OFFSET⟩ := by
            rw [hbig]
          have q4 : big.match_iteration = v1.match_iteration.set i
              ⟨slot.rm_so + v1.READ_POS_OFFSET, slot.rm_eo + v1.READ_POS_OFFSET⟩ := by rw [hbig]
          have q5 : big.regex_data.num_pattern_subexpr = v1.regex_data.num_pattern_subexpr := by
            rw [hbig]
          have q6 : big.regex_data.flags = v1.regex_data.flags := by rw [hbig]
          have q7 : big.return_code_local = v1.return_code_local := by rw [hbig]
          have q8 : big.NUMBER_MATCH = v1.NUMBER_MATCH := by rw [hbig]
          have q9 : big.READ_POS_OFFSET = v1.READ_POS_OFFSET := by rw [hbig]
          have q10 : big.return_code_global = v1.return_code_global := by rw [hbig]
          have q11 : big.regex_data.return_code = v1.regex_data.return_code := by rw [hbig]
          have hih := ih (i + 1) big v' h (by rw [q5, frd]; omega) (by rw [q6]; exact hS1)
            (by rw [q6]; exact hN1) (by
              intro hg
              rw [q7, q4, gapFreeFrom_set _ _ _ _ _ (by omega), fm]
              refine ⟨hrcl hg (Or.inl hv), ?_⟩
              have g2 := (hgf hg).2
              rw [gapFreeFrom, if_pos hv'] at g2
              exact g2)
          rcases hih with herr | ⟨b1, b2, b3, b4, new, b5, b6⟩
          · exact Or.inl herr
          · rw [q4, participatingSlots_set _ _ _ _ _ (by omega), fm, q8, anm, q9, fr] at b6
            have hpush := writtenRecords_push v1.regex_data big.regex_data _ _ q1 q2 q3
            have hw := b5
            rw [hpush, frd, List.append_assoc, List.singleton_append] at hw
            refine Or.inr ⟨b1.trans (q8.trans anm), b2.trans (q10.trans arcg),
              by rw [b3, q6, frd], by rw [b4, q11, frd], _, hw, ?_⟩
            · rw [participatingSlots, if_pos hv', List.map_cons]
              refine List.Forall₂.cons ⟨?_, ?_, ?_⟩ b6
              · show some v1.NUMBER_MATCH = some v.NUMBER_MATCH
                rw [anm]
              · show some (⟨slot.rm_so + v1.READ_POS_OFFSET,
                  slot.rm_eo + v1.READ_POS_OFFSET⟩ : regmatch_t) = _
                rw [hs, fr]
              · intro hg
                show some (if v1.return_code_local = REGEX_MATCH_OFFSET_DIST
                  then v1.NUMBER_GROUP else (i : Int)) = some (i : Int)
                rw [if_neg (hrcl hg (Or.inl hv))]
        · rw [if_neg hcap] at h
          simp only [Res.ok.injEq] at h
          subst h
          exact Or.inl ⟨rfl, rfl⟩
      · rw [if_neg hv] at h
        have hv' : ¬ (v.match_iteration.getD i ⟨-1, -1⟩).rm_so ≠ -1 := by
          rw [← hs]
          exact hv
        have hstep : participatingSlots v.match_iteration (n + 1) i
            = participatingSlots v.match_iteration n (i + 1) := by
          rw [participatingSlots, if_neg hv']
        have hih := ih (i + 1) v1 v' h (by rw [frd]; omega) hS1 hN1 (by
          intro hg
          obtain ⟨g1, g2⟩ := hgf hg
          rw [gapFreeFrom, if_neg hv'] at g2
          have he := List.isEmpty_iff.mp g2
          refine ⟨hrcl hg (Or.inr he), ?_⟩
          rw [fm]
          exact gapFreeFrom_of_empty _ _ _ he)
        rcases hih with herr | ⟨b1, b2, b3, b4, new, b5, b6⟩
        · exact Or.inl herr
        · refine Or.inr ⟨b1.trans anm, b2.trans arcg, by rw [b3, frd], by rw [b4, frd], new, ?_, ?_⟩
          · rw [b5, frd]
          · rw [hstep]
            rw [fm, anm, fr] at b6
            exact b6

/-- One iteration of the loop `while (1)` of `_EXEC__SEARCH_GLOBAL` without a filter
flag: an unsuccessful invocation ends the loop and writes nothing; a successful one
appends the records of the invocation, counts the occurrence and moves the read
offset to the end of the whole match. -/
theorem searchGlobalBody_records (lim : Limits) (text : CStr) (v v' : GlobalVars) (b : Bool)
    (res : Int × List regmatch_t)
    (hres : res = v.regex_data.compiled_regex.regexec (text.drop v.READ_POS_OFFSET.toNat))
    (h : searchGlobalBody lim text v = .ok (b, v'))
    (hrc : v.regex_data.return_code ≠ REGEX_ERROR)
    (hS : v.regex_data.flags.SUBEXP = false) (hN : v.regex_data.flags.NOSUBEXP = false)
    (hwf : regexecWellFormed v.regex_data.compiled_regex) :
    (res.1 ≠ REGEX_MATCH_SUCCESS →
      b = true ∧ v'.regex_data = v.regex_data ∧ v'.return_code_local ≠ REGEX_MATCH_SUCCESS) ∧
    (res.1 = REGEX_MATCH_SUCCESS →
      (v'.return_code_local = REGEX_ERROR ∧ v'.regex_data.return_code = REGEX_ERROR) ∨
      (v'.regex_data.flags = v.regex_data.flags ∧
        v'.regex_data.return_code = v.regex_data.return_code ∧
        v'.regex_data.compiled_regex = v.regex_data.compiled_regex ∧
        v'.regex_data.num_pattern_subexpr = v.regex_data.num_pattern_subexpr ∧
        v'.NUMBER_MATCH = v.NUMBER_MATCH + 1 ∧
        v'.return_code_global = REGEX_MATCH_SUCCESS ∧
        v'.READ_POS_OFFSET = (res.2.getD 0 ⟨-1, -1⟩).rm_eo + v.READ_POS_OFFSET ∧
        (b = true ↔ ((res.2.getD 0 ⟨-1, -1⟩).rm_eo + v.READ_POS_OFFSET = (text.length : Int) ∨
          (res.2.getD 0 ⟨-1, -1⟩).rm_so = (res.2.getD 0 ⟨-1, -1⟩).rm_eo)) ∧
        ∃ new, writtenRecords v'.regex_data = writtenRecords v.regex_data ++ new ∧
          List.Forall₂ recordAgrees new
            (invocationRecords res.2 v.regex_data.num_pattern_subexpr (v.NUMBER_MATCH + 1)
              v.READ_POS_OFFSET))) := by
  unfold searchGlobalBody at h
  simp only [Res.bind_eq, Res.pure_eq] at h
  rw [if_pos hrc] at h
  by_cases hrange : v.READ_POS_OFFSET < 0 ∨ (text.length : Int) < v.READ_POS_OFFSET
  · rw [if_pos hrange] at h
    simp only [Res.bind_fail] at h
    cases h
  · rw [if_neg hrange] at h
    simp only [Res.bind_ok] at h
    rw [← hres] at h
    by_cases hs : res.1 = REGEX_MATCH_SUCCESS
    · refine ⟨fun hn => absurd hs hn, fun _ => ?_⟩
      simp only [hs, if_true] at h
      obtain ⟨v3, hv3, h⟩ := Res.bind_eq_ok h
      obtain ⟨slot0, hslot0, h⟩ := Res.bind_eq_ok h
      obtain ⟨big, hbig, hv3⟩ : ∃ big : GlobalVars, big = _ ∧
          slotLoop lim (v.regex_data.num_pattern_subexpr + 1) 0 big = .ok v3 := ⟨_, rfl, hv3⟩
      have q1 : big.regex_data = v.regex_data := by rw [hbig]
      have q2 : big.match_iteration = res.2 := by rw [hbig]
      have q3 : big.return_code_local = REGEX_MATCH_SUCCESS := by rw [hbig]
      have q4 : big.NUMBER_MATCH = v.NUMBER_MATCH + 1 := by rw [hbig]
      have q5 : big.READ_POS_OFFSET = v.READ_POS_OFFSET := by rw [hbig]
      have q6 : big.return_code_global = REGEX_MATCH_SUCCESS := by rw [hbig]
      have hres' := hres
      rw [hres] at hs
      obtain ⟨w0, w1, w2⟩ := hwf _ hs
      rw [← hres] at w0 w1 w2
      have hslot := slotAt_zero_eq _ _ _ hslot0
      obtain ⟨f1, f2, f3, f4, f5, f6⟩ := slotLoop_frame lim _ _ _ _ hv3
      have hz := slotLoop_slot0 lim _ _ _ hv3 (by rw [q2]; omega)
      rw [q2, q5] at hz
      rw [hz] at hslot
      rw [q5] at f1
      rw [q1] at f3 f4
      have hrec := slotLoop_records lim (gapFreeFrom res.2 (v.regex_data.num_pattern_subexpr + 1) 0)
        _ 0 big v3 hv3 (by rw [q1]; omega) (by rw [q1]; exact hS) (by rw [q1]; exact hN)
        (by
          intro hg
          rw [q3, q2]
          exact ⟨by decide, hg⟩)
      rw [q1, q2, q4, q5, q6] at hrec
      have key : ∀ (w : GlobalVars) (c : Prop) [Decidable c],
          (if c then Res.ok (true, w) else Res.ok (false, w)) = Res.ok (b, v') →
          v' = w ∧ (b = true ↔ c) := by
        intro w c _ hh
        split_ifs at hh with hc
        · simp only [Res.ok.injEq, Prod.mk.injEq] at hh
          exact ⟨hh.2.symm, by rw [← hh.1]; simp [hc]⟩
        · simp only [Res.ok.injEq, Prod.mk.injEq] at hh
          exact ⟨hh.2.symm, by rw [← hh.1]; simp [hc]⟩
      obtain ⟨hv', hb'⟩ := key _ _ h
      have r1 : v'.regex_data = v3.regex_data := by rw [hv']
      have r2 : v'.return_code_local = v3.return_code_local := by rw [hv']
      have r3 : v'.NUMBER_MATCH = v3.NUMBER_MATCH := by rw [hv']
      have r4 : v'.return_code_global = v3.return_code_global := by rw [hv']
      have r5 : v'.READ_POS_OFFSET = v3.READ_POS_OFFSET + (slot0.rm_eo - v3.READ_POS_OFFSET) := by
        rw [hv']
      rw [← r5] at hb'
      have hpos : v'.READ_POS_OFFSET = (res.2.getD 0 ⟨-1, -1⟩).rm_eo + v.READ_POS_OFFSET := by
        rw [r5, hslot]
        simp only
        omega
      rw [hpos, hslot] at hb'
      simp only at hb'
      rcases hrec with herr | ⟨c1, c2, c3, c4, new, c5, c6⟩
      · exact Or.inl ⟨by rw [r2]; exact herr.1, by rw [r1]; exact herr.2⟩
      · refine Or.inr ⟨by rw [r1, c3], by rw [r1, c4], by rw [r1, f3], by rw [r1, f4],
          by rw [r3, c1], by rw [r4, c2], hpos, ?_, new, by rw [r1, c5], c6⟩
        rw [hb']
        constructor
        · intro hh
          rcases hh with hh | hh
          · exact Or.inl hh
          · right; omega
        · intro hh
          rcases hh with hh | hh
          · exact Or.inl hh
          · right; omega
    · refine ⟨fun _ => ?_, fun hh => absurd hh hs⟩
      simp only [hs, if_false] at h
      simp only [Res.ok.injEq, Prod.mk.injEq] at h
      obtain ⟨hb, hv⟩ := h
      subst hv
      subst hb
      exact ⟨rfl, rfl, hs⟩

theorem forall₂_append_agrees {α β : Type} (R : α → β → Prop) :
    ∀ (l1 : List α) (u1 : List β), List.Forall₂ R l1 u1 →
      ∀ (l2 : List α) (u2 : List β), List.Forall₂ R l2 u2 →
        List.Forall₂ R (l1 ++ l2) (u1 ++ u2) := by
  intro l1 u1 h1
  induction h1 with
  | nil => intro l2 u2 h2; exact h2
  | cons hab _ ih => intro l2 u2 h2; exact List.Forall₂.cons hab (ih l2 u2 h2)

/-- Once the capacity error is set, the loop of `_EXEC__SEARCH_GLOBAL` ends without
another invocation. -/
theorem searchGlobalLoop_after_error (lim : Limits) (text : CStr) (fuel : Nat)
    (v v' : GlobalVars) (h1 : v.return_code_local = REGEX_ERROR)
    (h2 : v.regex_data.return_code = REGEX_ERROR)
    (h : searchGlobalLoop lim text fuel v = .ok v') : v' = v := by
  cases fuel with
  | zero => simp [searchGlobalLoop] at h
  | succ n =>
    have hb : searchGlobalBody lim text v = .ok (true, v) := by
      unfold searchGlobalBody
      have hne : ¬ (v.return_code_local = REGEX_MATCH_SUCCESS) := by
        rw [h1]
        decide
      simp only [Res.bind_eq, Res.pure_eq, h2, ne_eq, not_true_eq_false, if_false, Res.bind_ok,
        hne]
    rw [searchGlobalLoop, hb] at h
    simp only [Res.ok.injEq] at h
    exact h.symm

/-- The loop `while (1)` of `_EXEC__SEARCH_GLOBAL` without a filter flag appends the
records of the reference, unless it ends with the capacity error. -/
theorem searchGlobalLoop_records (lim : Limits) (text : CStr) :
    ∀ (fuel : Nat) (v v' : GlobalVars), searchGlobalLoop lim text fuel v = .ok v' →
      v.regex_data.return_code ≠ REGEX_ERROR →
      v.regex_data.flags.SUBEXP = false → v.regex_data.flags.NOSUBEXP = false →
      regexecWellFormed v.regex_data.compiled_regex →
      v'.return_code_local = REGEX_ERROR ∨
      ((v'.return_code_local = REGEX_MATCH_SUCCESS →
          v'.return_code_global = REGEX_MATCH_SUCCESS) ∧
        ∃ new, writtenRecords v'.regex_data = writtenRecords v.regex_data ++ new ∧
          List.Forall₂ recordAgrees new
            (globalRecords v.regex_data.compiled_regex v.regex_data.num_pattern_subexpr text
              fuel (v.NUMBER_MATCH + 1) v.READ_POS_OFFSET)) := by
  intro fuel
  induction fuel with
  | zero => intro v v' h; simp [searchGlobalLoop] at h
  | succ n ih =>
    intro v v' h hrc hS hN hwf
    rw [searchGlobalLoop] at h
    cases hb : searchGlobalBody lim text v with
    | fail f => rw [hb] at h; simp at h
    | ok p =>
      obtain ⟨b, w⟩ := p
      rw [hb] at h
      obtain ⟨k1, k2⟩ := searchGlobalBody_records lim text v w b _ rfl hb hrc hS hN hwf
      by_cases hs : (v.regex_data.compiled_regex.regexec
          (text.drop v.READ_POS_OFFSET.toNat)).1 = REGEX_MATCH_SUCCESS
      · rcases k2 hs with ⟨e1, e2⟩ | ⟨c1, c2, c3, c4, c5, c6, c7, c8, new, c9, c10⟩
        · -- the capacity error
          left
          cases b with
          | true =>
            simp only [Res.ok.injEq] at h
            rw [← h]
            exact e1
          | false =>
            simp only at h
            rw [searchGlobalLoop_after_error lim text n w v' e1 e2 h]
            exact e1
        · cases b with
          | true =>
            simp only [Res.ok.injEq] at h
            subst h
            have hstop := c8.mp rfl
            refine Or.inr ⟨fun _ => c6, new, c9, ?_⟩
            rw [globalRecords]
            simp only [hs, if_true, hstop]
            exact c10
          | false =>
            simp only at h
            have hstop : ¬ (((v.regex_data.compiled_regex.regexec
                (text.drop v.READ_POS_OFFSET.toNat)).2.getD 0 ⟨-1, -1⟩).rm_eo + v.READ_POS_OFFSET
                  = (text.length : Int) ∨
                ((v.regex_data.compiled_regex.regexec
                  (text.drop v.READ_POS_OFFSET.toNat)).2.getD 0 ⟨-1, -1⟩).rm_so =
                ((v.regex_data.compiled_regex.regexec
                  (text.drop v.READ_POS_OFFSET.toNat)).2.getD 0 ⟨-1, -1⟩).rm_eo) := by
              intro hh
              have := c8.mpr hh
              cases this
            rcases ih w v' h (by rw [c2]; exact hrc) (by rw [c1]; exact hS)
              (by rw [c1]; exact hN) (by rw [c3]; exact hwf) with herr | ⟨d1, new', d2, d3⟩
            · exact Or.inl herr
            · rw [c3, c4, c5, c7] at d3
              refine Or.inr ⟨d1, new ++ new', by rw [d2, c9, List.append_assoc], ?_⟩
              rw [globalRecords]
              simp only [hs, if_true, hstop, if_false]
              exact forall₂_append_agrees _ _ _ c10 _ _ d3
      · obtain ⟨hb1, hb2, hb3⟩ := k1 hs
        subst hb1
        simp only [Res.ok.injEq] at h
        subst h
        refine Or.inr ⟨fun hh => absurd hh hb3, [], by rw [hb2, List.append_nil], ?_⟩
        rw [globalRecords]
        simp only [hs, if_false]
        exact List.Forall₂.nil

theorem forall₂_imp_mem {α β : Type} (R S : α → β → Prop) :
    ∀ (l : List α) (u : List β), List.Forall₂ R l u →
      (∀ a, a ∈ l → ∀ b, R a b → S a b) → List.Forall₂ S l u := by
  intro l u h
  induction h with
  | nil => intro _; exact List.Forall₂.nil
  | cons hab _ ih =>
    intro H
    exact List.Forall₂.cons (H _ (List.mem_cons_self _ _) _ hab)
      (ih (fun a ha b hr => H a (List.mem_cons_of_mem _ ha) b hr))

theorem forall₂_map_eq {α β γ : Type} (R : α → β → Prop) (f : α → γ) (g : β → γ) :
    ∀ (l : List α) (u : List β), List.Forall₂ R l u →
      (∀ a b, R a b → f a = g b) → l.map f = u.map g := by
  intro l u h
  induction h with
  | nil => intro _; rfl
  | cons hab _ ih =>
    intro H
    rw [List.map_cons, List.map_cons, H _ _ hab, ih H]

theorem checkMatchLimit_subexpr (lim : Limits) (rd : compact_regex_t) :
    (checkMatchLimit lim rd).num_pattern_subexpr = rd.num_pattern_subexpr := by
  unfold checkMatchLimit
  split_ifs <;> rfl

/-- The records of a successful global search without a filter flag, against the
reference: the session holds one record for each record of the reference, in the
same order, and each agrees with its counterpart. -/
theorem regex_exec_global_agrees (fuel : Nat) (lim : Limits) (text : CStr)
    (rd0 : compact_regex_t) (r : Int × compact_regex_t)
    (hg : rd0.flags.GLOBAL = true) (hS : rd0.flags.SUBEXP = false)
    (hN : rd0.flags.NOSUBEXP = false) (hn : rd0.num_matches = 0)
    (hwf : regexecWellFormed rd0.compiled_regex)
    (hx : regex_exec fuel lim text rd0 = .ok r) (hs : r.1 = REGEX_MATCH_SUCCESS) :
    List.Forall₂ sessionRecordAgrees (sessionRecords r.2)
      (globalRecords rd0.compiled_regex rd0.num_pattern_subexpr text fuel 1 0) := by
  unfold regex_exec at hx
  simp only [Res.bind_eq, Res.pure_eq] at hx
  obtain ⟨_, _, hx⟩ := Res.bind_eq_ok hx
  obtain ⟨m1, m2, m3, _⟩ := checkMatchLimit_fields lim rd0
  have m5 := checkMatchLimit_subexpr lim rd0
  rw [hn] at m1
  generalize checkMatchLimit lim rd0 = rd1 at m1 m2 m3 m5 hx
  split_ifs at hx with hc hgl
  · -- local mode is excluded
    rw [m2, hg] at hgl
    cases hgl
  · -- global mode
    unfold _EXEC__SEARCH_GLOBAL at hx
    simp only [Res.bind_eq, Res.pure_eq] at hx
    obtain ⟨v, hv, hx⟩ := Res.bind_eq_ok hx
    have hloop := searchGlobalLoop_records lim text fuel _ v hv
      (by
        show rd1.return_code ≠ REGEX_ERROR
        rw [hc.2]
        decide)
      (by show rd1.flags.SUBEXP = false; rw [m2]; exact hS)
      (by show rd1.flags.NOSUBEXP = false; rw [m2]; exact hN)
      (by show regexecWellFormed rd1.compiled_regex; rw [m3]; exact hwf)
    have hinit : writtenRecords (searchGlobalInit { rd1 with text := text }).regex_data = [] := by
      unfold writtenRecords
      show List.map _ (List.range rd1.num_matches) = []
      rw [m1]
      rfl
    have href : globalRecords (searchGlobalInit { rd1 with text := text }).regex_data.compiled_regex
        (searchGlobalInit { rd1 with text := text }).regex_data.num_pattern_subexpr text fuel
        ((searchGlobalInit { rd1 with text := text }).NUMBER_MATCH + 1)
        (searchGlobalInit { rd1 with text := text }).READ_POS_OFFSET
        = globalRecords rd0.compiled_regex rd0.num_pattern_subexpr text fuel 1 0 := by
      show globalRecords rd1.compiled_regex rd1.num_pattern_subexpr text fuel (0 + 1) 0 = _
      rw [m3, m5]
      rfl
    rw [hinit, href] at hloop
    split_ifs at hx with hcond
    · obtain ⟨rd3, hrd3, hx⟩ := Res.bind_eq_ok hx
      simp only [Res.ok.injEq] at hx
      rcases hloop with herr | ⟨_, new, hw, hagree⟩
      · exact absurd herr hcond.1
      · rw [List.nil_append] at hw
        rw [← hw] at hagree
        unfold _EXEC__GET_MATCHED_STRINGS at hrd3
        simp only [Res.bind_eq, Res.pure_eq] at hrd3
        obtain ⟨m, hm, hrd3⟩ := Res.bind_eq_ok hrd3
        simp only [Res.ok.injEq] at hrd3
        obtain ⟨_, g2⟩ := getMatchedStringsLoop_fields _ _ _ _ _ _ hm
        have g3 := getMatchedStringsLoop_numbers _ _ _ _ _ _ hm
        have hsess : sessionRecords r.2 = (List.range v.regex_data.num_matches).map (cellAt m) := by
          rw [← hx, ← hrd3]
          rfl
        rw [hsess, List.forall₂_map_left_iff]
        unfold writtenRecords at hagree
        rw [List.forall₂_map_left_iff] at hagree
        refine forall₂_imp_mem _ _ _ _ hagree ?_
        intro i hi x hR
        have hi' : i < v.regex_data.num_matches := List.mem_range.mp hi
        obtain ⟨off, o1, o2, o3, _⟩ := g2 i (Nat.zero_le i) (by omega)
        obtain ⟨n1, n2⟩ := g3 i
        obtain ⟨a1, a2, a3⟩ := hR
        simp only at a1 a2 a3
        rw [o1] at a2
        simp only [Option.some.injEq] at a2
        refine ⟨by rw [n1]; exact a1, by rw [o2, a2], by rw [o3, a2], fun hgf => ?_⟩
        rw [n2]
        exact a3 hgf
    · simp only [Res.ok.injEq] at hx
      rw [← hx] at hs
      simp only at hs
      rcases hloop with herr | ⟨hsucc, _⟩
      · rw [herr] at hs
        exact absurd hs (by decide)
      · exact absurd ⟨by rw [hs]; decide, hsucc hs⟩ hcond
  · simp only [Res.ok.injEq] at hx
    rw [← hx] at hs
    have hs' : (-1 : Int) = REGEX_MATCH_SUCCESS := hs
    exact absurd hs' (by decide)

/-- The table-driven `regexec` keeps the contract of `regexec` when every row of the
table reports a whole match inside the text. -/
theorem tableRegexec_wellFormed (nsub len : Nat) (table : List (List regmatch_t))
    (h : ∀ row ∈ table, 0 ≤ (row.getD 0 ⟨-1, -1⟩).rm_so ∧
      (row.getD 0 ⟨-1, -1⟩).rm_so ≤ (row.getD 0 ⟨-1, -1⟩).rm_eo ∧
      (row.getD 0 ⟨-1, -1⟩).rm_eo ≤ (len : Int)) :
    regexecWellFormed ({ re_nsub := nsub, regexec := tableRegexec len table } : regex_t) := by
  intro s hsucc
  have key : ∀ (o : Option (List regmatch_t)),
      o = table.find? (fun slots =>
        decide ((len : Int) - (s.length : Int) ≤ (slots.getD 0 ⟨-1, -1⟩).rm_so)) →
      tableRegexec len table s = (match o with
        | some slots => (REGEX_MATCH_SUCCESS, shiftSlots ((len : Int) - s.length) slots)
        | none => (REG_NOMATCH, [])) := by
    intro o ho
    rw [ho]
    rfl
  cases hf : table.find? (fun slots =>
      decide ((len : Int) - (s.length : Int) ≤ (slots.getD 0 ⟨-1, -1⟩).rm_so)) with
  | none =>
    have e := key none hf.symm
    simp only at e hsucc
    rw [e] at hsucc
    exact absurd hsucc (by decide)
  | some row =>
    have e := key (some row) hf.symm
    simp only at e ⊢
    rw [e]
    simp only
    have hmem := List.mem_of_find?_eq_some hf
    have hp := List.find?_some hf
    simp only [decide_eq_true_eq] at hp
    obtain ⟨h1, h2, h3⟩ := h row hmem
    cases row with
    | nil =>
      simp only [List.getD_nil] at h1
      omega
    | cons x rest =>
      simp only [List.getD_cons_zero] at h1 h2 h3 hp
      have hx : ¬ (x.rm_so = -1) := by omega
      simp only [shiftSlots, List.map_cons, List.getD_cons_zero, hx, if_false]
      omega

theorem participatingSlots_positions (M : List regmatch_t) :
    ∀ (cnt i : Nat), gapFreeFrom M cnt i = true →
      (participatingSlots M cnt i).map Prod.fst
        = (List.range (participatingSlots M cnt i).length).map (· + i) := by
  intro cnt
  induction cnt with
  | zero => intro i _; rfl
  | succ n ih =>
    intro i h
    rw [gapFreeFrom] at h
    rw [participatingSlots]
    by_cases hv : (M.getD i ⟨-1, -1⟩).rm_so ≠ -1
    · rw [if_pos hv] at h ⊢
      rw [List.map_cons, List.length_cons, List.range_succ_eq_map, List.map_cons, List.map_map,
        ih (i + 1) h]
      simp only [Nat.zero_add, List.cons.injEq, true_and]
      apply List.map_congr_left
      intro a _
      simp only [Function.comp_apply]
      omega
    · rw [if_neg hv] at h ⊢
      rw [List.isEmpty_iff.mp h]
      rfl

/-! ## The records of the session against the reference -/

/-- C32: the records of a successful global search without a filter flag, for a
pattern compiled by `regex_compile` and a matcher that keeps the contract of
`regexec` for the whole match. The occurrence index, start and end of the records of
the session are those of the reference: the `k`-th successful invocation runs on the
suffix of the text from the read offset `r_k` on (`r_1 = 0`, and `r_(k+1)` is the end
of the `k`-th whole match in offsets of the whole text) and contributes one record
for each participating slot `0..num_pattern_subexpr`, in slot order, with the
occurrence index `k` and with the offsets of the matcher plus `r_k`. -/
theorem global_search_records (fuel : Nat) (lim : Limits) (defaults : List Nat) (lib : RegLib)
    (text pattern : CStr) (flags : Nat) (rd0 : compact_regex_t) (r : Int × compact_regex_t)
    (hc : regex_compile lim defaults lib pattern flags = .ok rd0)
    (hg : rd0.flags.GLOBAL = true)
    (hf : rd0.flags.SUBEXP = false ∧ rd0.flags.NOSUBEXP = false)
    (hwf : regexecWellFormed rd0.compiled_regex)
    (hx : regex_exec fuel lim text rd0 = .ok r) (hs : r.1 = REGEX_MATCH_SUCCESS) :
    (sessionRecords r.2).map (fun c => (c.number_match, c.start, c.end_)) =
      (globalRecords rd0.compiled_regex rd0.num_pattern_subexpr text fuel 1 0).map
        (fun x => (some x.occurrence, some x.start, some x.end_)) := by
  have hmain := regex_exec_global_agrees fuel lim text rd0 r hg hf.1 hf.2
    (regex_compile_fields _ _ _ _ _ _ hc).1 hwf hx hs
  refine forall₂_map_eq _ _ _ _ _ hmain ?_
  intro c x hcx
  obtain ⟨a1, a2, a3, _⟩ := hcx
  rw [a1, a2, a3]

set_option maxRecDepth 1000000 in
/-- C32 at the text `ab` and the pattern `(a)|(b)`: the first invocation reports the
slots [0,1), [0,1), (-1,-1) on `ab`, the second one the slots [0,1), (-1,-1), [0,1)
on the suffix `b` from the read offset 1 on; the session holds the records [0,1),
[0,1) of the occurrence 1 and [1,2), [1,2) of the occurrence 2. -/
theorem global_search_records_witness :
    ∃ rd0 r, regex_compile defaultLimits DEFAULT_REG_FLAGS
        (tableLib 2 2 [[⟨0, 1⟩, ⟨0, 1⟩, ⟨-1, -1⟩], [⟨1, 2⟩, ⟨-1, -1⟩, ⟨1, 2⟩]])
        "(a)|(b)".toList REG_GLOBAL = .ok rd0 ∧
      rd0.flags.GLOBAL = true ∧
      (rd0.flags.SUBEXP = false ∧ rd0.flags.NOSUBEXP = false) ∧
      regexecWellFormed rd0.compiled_regex ∧
      regex_exec 2 defaultLimits "ab".toList rd0 = .ok r ∧ r.1 = REGEX_MATCH_SUCCESS ∧
      (rd0.compiled_regex.regexec "b".toList).2 = [⟨0, 1⟩, ⟨-1, -1⟩, ⟨0, 1⟩] ∧
      (globalRecords rd0.compiled_regex rd0.num_pattern_subexpr "ab".toList 2 1 0).map
          (fun x => (x.occurrence, x.slot, x.start, x.end_))
        = [(1, 0, 0, 1), (1, 1, 0, 1), (2, 0, 1, 2), (2, 2, 1, 2)] ∧
      (sessionRecords r.2).map (fun c => (c.number_match, c.start, c.end_)) =
        (globalRecords rd0.compiled_regex rd0.num_pattern_subexpr "ab".toList 2 1 0).map
          (fun x => (some x.occurrence, some x.start, some x.end_)) :=
  ⟨_, _, rfl, by decide, by decide,
    by exact tableRegexec_wellFormed _ _ _ (by decide), rfl, by decide, by decide, by decide,
    global_search_records 2 defaultLimits DEFAULT_REG_FLAGS
      (tableLib 2 2 [[⟨0, 1⟩, ⟨0, 1⟩, ⟨-1, -1⟩], [⟨1, 2⟩, ⟨-1, -1⟩, ⟨1, 2⟩]])
      "ab".toList "(a)|(b)".toList REG_GLOBAL _ _ rfl (by decide) (by decide)
      (by exact tableRegexec_wellFormed _ _ _ (by decide)) rfl (by decide)⟩

/-- C36: in a successful global search without a filter flag (pattern compiled by
`regex_compile`, matcher keeping the contract of `regexec` for the whole match), every
record that comes from an invocation whose participating slots form a gap-free prefix
of the slot array has the position of its slot as submatch index. The positions of
the participating slots of such an invocation are `0, 1, ..., k` in this order, so
these are the submatch indices of the records of that occurrence. -/
theorem gap_free_prefix_submatch_is_slot (fuel : Nat) (lim : Limits) (defaults : List Nat)
    (lib : RegLib) (text pattern : CStr) (flags : Nat) (rd0 : compact_regex_t)
    (r : Int × compact_regex_t)
    (hc : regex_compile lim defaults lib pattern flags = .ok rd0)
    (hg : rd0.flags.GLOBAL = true)
    (hf : rd0.flags.SUBEXP = false ∧ rd0.flags.NOSUBEXP = false)
    (hwf : regexecWellFormed rd0.compiled_regex)
    (hx : regex_exec fuel lim text rd0 = .ok r) (hs : r.1 = REGEX_MATCH_SUCCESS) :
    List.Forall₂
      (fun c x => c.number_match = some x.occurrence ∧
        (x.gapFree = true → c.number_submatch = some (x.slot : Int)))
      (sessionRecords r.2)
      (globalRecords rd0.compiled_regex rd0.num_pattern_subexpr text fuel 1 0) ∧
    ∀ (slots : List regmatch_t) (nsub : Nat), gapFreeFrom slots (nsub + 1) 0 = true →
      (participatingSlots slots (nsub + 1) 0).map Prod.fst
        = List.range (participatingSlots slots (nsub + 1) 0).length := by
  have hmain := regex_exec_global_agrees fuel lim text rd0 r hg hf.1 hf.2
    (regex_compile_fields _ _ _ _ _ _ hc).1 hwf hx hs
  refine ⟨forall₂_imp_mem _ _ _ _ hmain (fun c _ x hcx => ⟨hcx.1, hcx.2.2.2⟩), ?_⟩
  intro slots nsub hgap
  rw [participatingSlots_positions slots (nsub + 1) 0 hgap]
  simp only [Nat.add_zero, List.map_id']

set_option maxRecDepth 1000000 in
/-- C36 at the text `aba` and the pattern `(a)(b)?`: the first invocation reports the
slots [0,2), [0,1), [1,2), the second one (on the suffix `a`) the slots [0,1), [0,1),
(-1,-1). Both layouts are gap-free prefixes, and the records carry the submatch
indices 0, 1, 2 and 0, 1. -/
theorem gap_free_prefix_submatch_is_slot_witness :
    ∃ rd0 r, regex_compile defaultLimits DEFAULT_REG_FLAGS
        (tableLib 2 3 [[⟨0, 2⟩, ⟨0, 1⟩, ⟨1, 2⟩], [⟨2, 3⟩, ⟨2, 3⟩, ⟨-1, -1⟩]])
        "(a)(b)?".toList REG_GLOBAL = .ok rd0 ∧
      rd0.flags.GLOBAL = true ∧
      (rd0.flags.SUBEXP = false ∧ rd0.flags.NOSUBEXP = false) ∧
      regexecWellFormed rd0.compiled_regex ∧
      regex_exec 2 defaultLimits "aba".toList rd0 = .ok r ∧ r.1 = REGEX_MATCH_SUCCESS ∧
      (globalRecords rd0.compiled_regex rd0.num_pattern_subexpr "aba".toList 2 1 0).map
          (fun x => (x.occurrence, x.slot, x.gapFree))
        = [(1, 0, true), (1, 1, true), (1, 2, true), (2, 0, true), (2, 1, true)] ∧
      sessionNumbers r.2 =
        [(some 1, some 0), (some 1, some 1), (some 1, some 2), (some 2, some 0),
         (some 2, some 1)] ∧
      (List.Forall₂
        (fun c x => c.number_match = some x.occurrence ∧
          (x.gapFree = true → c.number_submatch = some (x.slot : Int)))
        (sessionRecords r.2)
        (globalRecords rd0.compiled_regex rd0.num_pattern_subexpr "aba".toList 2 1 0) ∧
      ∀ (slots : List regmatch_t) (nsub : Nat), gapFreeFrom slots (nsub + 1) 0 = true →
        (participatingSlots slots (nsub + 1) 0).map Prod.fst
          = List.range (participatingSlots slots (nsub + 1) 0).length) :=
  ⟨_, _, rfl, by decide, by decide,
    by exact tableRegexec_wellFormed _ _ _ (by decide), rfl, by decide, by decide, by decide,
    gap_free_prefix_submatch_is_slot 2 defaultLimits DEFAULT_REG_FLAGS
      (tableLib 2 3 [[⟨0, 2⟩, ⟨0, 1⟩, ⟨1, 2⟩], [⟨2, 3⟩, ⟨2, 3⟩, ⟨-1, -1⟩]])
      "aba".toList "(a)(b)?".toList REG_GLOBAL _ _ rfl (by decide) (by decide)
      (by exact tableRegexec_wellFormed _ _ _ (by decide)) rfl (by decide)⟩

end CompactRegex
